import Mathlib

/-!
# Verification of `date.c`

A shallow embedding of the date engine of `date.c` (calendar/epoch conversion,
offset decoding, token classifiers, structured parser, formatter, approximate
parser, expiry dates, overflow test, header date) together with theorems about it.

Conventions of the embedding.

* C `int` is a 32-bit and C `long` / `time_t` a 64-bit two's complement integer
  (LP64).  Values are carried as `Int`; every arithmetic operation of the source
  that can leave the range of its C type is followed by `wrap32` / `wrap64`.
  Operations that cannot leave the range (comparisons, divisions by a positive
  constant, remainders) are written directly.
* C `/` and `%` truncate towards zero: `Int.tdiv` and `Int.tmod`.
* A C string is a `List Char`; the terminating NUL is implicit, `chr s` reads the
  first character of the text a pointer points to and yields NUL at its end.
* A function that writes through pointer arguments returns the new values.
* `int` arithmetic that leaves its range wraps, as the compiled code does.  Where
  the source determines no result the embedding has none (`none`,
  `Parsed.undefined`): the signed `time_t` subtraction of `show_date_relative`
  where it overflows, and the parser after a failing `gmtime_r`, whose `struct tm`
  the C library leaves unspecified.
-/

namespace DateC

/-! ## Machine integers -/

/-- The value of a mathematical integer stored in a 32-bit two's complement `int`. -/
def wrap32 (x : Int) : Int := (x + 2147483648) % 4294967296 - 2147483648

/-- The value of a mathematical integer stored in a 64-bit two's complement `long`. -/
def wrap64 (x : Int) : Int :=
  (x + 9223372036854775808) % 18446744073709551616 - 9223372036854775808

/-- Addition of two `int` values. -/
def iadd (a b : Int) : Int := wrap32 (a + b)

/-- Subtraction of two `int` values. -/
def isub (a b : Int) : Int := wrap32 (a - b)

/-- Multiplication of two `int` values. -/
def imul (a b : Int) : Int := wrap32 (a * b)

/-- Negation of an `int` value. -/
def ineg (a : Int) : Int := wrap32 (-a)

/-- Addition of two `long` values. -/
def ladd (a b : Int) : Int := wrap64 (a + b)

/-- Subtraction of two `long` values. -/
def lsub (a b : Int) : Int := wrap64 (a - b)

/-- Multiplication of two `long` values. -/
def lmul (a b : Int) : Int := wrap64 (a * b)

/-! ## `struct tm` -/

/-- The fields of `struct tm` that the program reads or writes. -/
structure Tm where
  tm_sec : Int
  tm_min : Int
  tm_hour : Int
  tm_mday : Int
  tm_mon : Int
  tm_year : Int
  tm_wday : Int
  tm_yday : Int
  tm_isdst : Int
  deriving DecidableEq, Repr

/-! ## Calendar to epoch conversion (`date.c` lines 9-84) -/

def YEAR_MIN : Int := 1583

def YEAR_MAX : Int := 2999

def number_of_leap_days (year : Int) : Int :=
  year.tdiv 4 - year.tdiv 100 + year.tdiv 400

def is_leap_year (year : Int) : Bool :=
  if year.tmod 4 ≠ 0 then false
  else if year.tmod 100 ≠ 0 then true
  else if year.tmod 400 ≠ 0 then false
  else true

def is_before_leap_day_of_leap_year (month year : Int) : Bool :=
  decide (month < 2) && is_leap_year year

/-- The table `mdays` of `tm_to_time_t`: days of a common year before each month. -/
def mdays : List Int := [0, 31, 59, 90, 120, 151, 181, 212, 243, 273, 304, 334]

/-- The function `tm_to_time_t`.  `none` is the return value -1 (the output
variable is then left untouched), `some t` is the return value 0 with `*time = t`.
The day count `days` is an `int`.  In `days * 24*60*60L` the compiled code folds the
constants and multiplies `days` by 86400 in `long`; this is the value of the `int`
products `days * 24 * 60` of the C grammar wherever those are defined, and the value
modelled where they are not.  The three additions are `long` additions (each `int`
term is widened before it is added); the products `tm_hour * 60*60` and
`tm_min * 60` are `int` products. -/
def tm_to_time_t (tm : Tm) : Option Int :=
  let year := iadd tm.tm_year 1900
  let month := tm.tm_mon
  let day := tm.tm_mday
  if year < YEAR_MIN then none
  else if month < 0 ∨ month > 11 then none
  else if tm.tm_hour < 0 ∨ tm.tm_min < 0 ∨ tm.tm_sec < 0 then none
  else
    let leap_days_of_time := number_of_leap_days year
    let leap_days_of_epoch := number_of_leap_days 1970
    let leap_days_since_epoch := isub leap_days_of_time leap_days_of_epoch
    let full_days_in_month := isub day 1
    let days := iadd (iadd (iadd (imul (isub year 1970) 365) leap_days_since_epoch)
      (mdays.getD month.toNat 0)) full_days_in_month
    let days := if is_before_leap_day_of_leap_year month year then isub days 1 else days
    some (ladd (ladd (ladd (lmul days (24 * 60 * 60))
      (imul (imul tm.tm_hour 60) 60)) (imul tm.tm_min 60)) tm.tm_sec)

def set_time_to_0_if_time_is_invalid (tm : Tm) : Tm :=
  if tm.tm_hour < 0 ∨ tm.tm_min < 0 ∨ tm.tm_sec < 0 then
    { tm with tm_hour := 0, tm_min := 0, tm_sec := 0 }
  else tm

/-- The function `days_between`.  The source ignores the return value of
`tm_to_time_t`; when a conversion fails the local `time_t` it would have set is
read uninitialised, which has no defined value: the model returns `none` then. -/
def days_between (from_tm to_tm : Tm) : Option Int :=
  let from_tm := set_time_to_0_if_time_is_invalid from_tm
  let to_tm := set_time_to_0_if_time_is_invalid to_tm
  match tm_to_time_t from_tm, tm_to_time_t to_tm with
  | some time_t_from, some time_t_to => some ((lsub time_t_to time_t_from).tdiv 86400)
  | _, _ => none

/-! ## The civil calendar

The Gregorian calendar as the specification describes it: years of 365 or 366
days, months of 28, 29, 30 or 31 days.  These definitions do not come from the
source; the conversion is compared with them. -/

/-- The Gregorian leap rule: divisible by 4, not by 100 unless also by 400. -/
def gregorianLeap (y : Int) : Bool :=
  decide (y % 4 = 0) && (decide (y % 100 ≠ 0) || decide (y % 400 = 0))

/-- The number of days of the civil year `y`. -/
def daysInYear (y : Int) : Int := if gregorianLeap y then 366 else 365

/-- The number of days of month `m` (1 = January) of the civil year `y`. -/
def daysInMonth (y : Int) (m : Nat) : Int :=
  match m with
  | 1 => 31
  | 2 => if gregorianLeap y then 29 else 28
  | 3 => 31
  | 4 => 30
  | 5 => 31
  | 6 => 30
  | 7 => 31
  | 8 => 31
  | 9 => 30
  | 10 => 31
  | 11 => 30
  | 12 => 31
  | _ => 0

/-- The total length in days of the `n` consecutive civil years `a, a+1, ..., a+n-1`. -/
def yearSpan (a : Int) : Nat → Int
  | 0 => 0
  | n + 1 => yearSpan a n + daysInYear (a + n)

/-- The total length in days of the first `k` months of the civil year `y`. -/
def monthSpan (y : Int) : Nat → Int
  | 0 => 0
  | k + 1 => monthSpan y k + daysInMonth y (k + 1)

/-- The number of civil days from 1970-01-01 to the date `y`-`m`-`d` (month and day
counted from 1), negative for earlier dates: whole years are summed forwards from
1970 or backwards to `y`, then the whole months of `y` before `m`, then the days. -/
def civilDays (y : Int) (m : Nat) (d : Int) : Int :=
  (if 1970 ≤ y then yearSpan 1970 (y - 1970).toNat else - yearSpan y (1970 - y).toNat)
    + monthSpan y (m - 1) + (d - 1)

/-- A date that exists in the civil calendar. -/
def validDate (y : Int) (m : Nat) (d : Int) : Prop :=
  1 ≤ m ∧ m ≤ 12 ∧ 1 ≤ d ∧ d ≤ daysInMonth y m

instance (y : Int) (m : Nat) (d : Int) : Decidable (validDate y m d) := by
  unfold validDate; infer_instance

/-- The `struct tm` of a civil date-time (`tm_year` counts from 1900, `tm_mon` from 0). -/
def civilTm (y : Int) (m : Nat) (d h mi s : Int) : Tm :=
  { tm_sec := s, tm_min := mi, tm_hour := h, tm_mday := d, tm_mon := (m : Int) - 1,
    tm_year := y - 1900, tm_wday := 0, tm_yday := 0, tm_isdst := 0 }

/-! ## The C library: `gmtime`

`gmtime` belongs to the C library, not to `date.c`.  It is modelled by its
contract: the broken-down UTC time of a count of seconds since the epoch.  The
model walks whole civil years away from 1970 and then whole months of the year
reached; it shares no formula with `tm_to_time_t`. -/

/-- Walk forwards from the start of year `y`: `n ≥ 0` days after it. The result is
the year reached and the day of that year (from 0). -/
def yearForward : Nat → Int → Int → Int × Int
  | 0, y, n => (y, n)
  | fuel + 1, y, n =>
    if n < daysInYear y then (y, n) else yearForward fuel (y + 1) (n - daysInYear y)

/-- Walk backwards from the start of year `y`: `n < 0` days before it. -/
def yearBackward : Nat → Int → Int → Int × Int
  | 0, y, n => (y, n)
  | fuel + 1, y, n =>
    if 0 ≤ n then (y, n) else yearBackward fuel (y - 1) (n + daysInYear (y - 1))

/-- Walk forwards from the start of month `m` of year `y`: the month reached and the
day of that month (from 0). -/
def monthForward : Nat → Int → Nat → Int → Nat × Int
  | 0, _, m, n => (m, n)
  | fuel + 1, y, m, n =>
    if n < daysInMonth y m then (m, n) else monthForward fuel y (m + 1) (n - daysInMonth y m)

/-- The C library function `gmtime` (and `gmtime_r`): `none` is the NULL result,
returned when the year does not fit `tm_year`. -/
def gmtime (t : Int) : Option Tm :=
  let days := t / 86400
  let rem := t % 86400
  let yd := if 0 ≤ days then yearForward days.natAbs 1970 days
    else yearBackward days.natAbs 1970 days
  let md := monthForward 11 yd.1 1 yd.2
  if wrap32 (yd.1 - 1900) ≠ yd.1 - 1900 then none
  else some
    { tm_sec := rem % 60, tm_min := rem / 60 % 60, tm_hour := rem / 3600,
      tm_mday := md.2 + 1, tm_mon := (md.1 : Int) - 1, tm_year := yd.1 - 1900,
      tm_wday := (4 + days) % 7, tm_yday := yd.2, tm_isdst := 0 }

/-! ## Offset decoding (`date.c` lines 96-115) -/

def gm_time_t (time tz : Int) : Int :=
  let minutes := if tz < 0 then ineg tz else tz
  let minutes := iadd (imul (minutes.tdiv 100) 60) (minutes.tmod 100)
  let minutes := if tz < 0 then ineg minutes else minutes
  ladd time (imul minutes 60)

def time_to_tm (time tz : Int) : Option Tm :=
  let t := gm_time_t time tz
  gmtime t

/-! ## Date order resolution (`date.c` lines 420-557) -/

inductive DateFormat where
  | INVALID
  | YYYY_MM_DD
  | YYYY_DD_MM
  | DD_MM_YYYY
  | MM_DD_YYYY
  deriving DecidableEq, Repr

def could_be_a_year (year : Int) : Bool :=
  (decide (YEAR_MIN ≤ year) && decide (year ≤ YEAR_MAX))
    || (decide (70 < year) && decide (year ≤ 99))
    || (decide (0 ≤ year) && decide (year < 38))

def could_be_a_month (month : Int) : Bool := decide (0 < month) && decide (month < 13)

def could_be_a_day (day : Int) : Bool := decide (0 < day) && decide (day < 32)

def could_be_a_hour (hour : Int) : Bool := decide (0 ≤ hour) && decide (hour ≤ 24)

def could_be_a_minute (min : Int) : Bool := decide (0 ≤ min) && decide (min < 60)

def could_be_a_second (sec : Int) : Bool := decide (0 ≤ sec) && decide (sec ≤ 60)

def normalized_month_for_tm (month : Int) : Int := isub month 1

def normalized_year (year : Int) : Int :=
  if 70 < year ∧ year ≤ 99 then iadd year 1900
  else if 0 ≤ year ∧ year < 38 then iadd year 2000
  else year

def normalized_year_for_tm (year : Int) : Int := isub (normalized_year year) 1900

def fill_date_in_tm (year month day : Int) (tm : Tm) : Tm :=
  { tm with tm_year := normalized_year_for_tm year,
            tm_mon := normalized_month_for_tm month,
            tm_mday := day }

def fill_time_in_tm (hour min sec : Int) (tm : Tm) : Tm :=
  { tm with tm_hour := hour, tm_min := min, tm_sec := sec }

/-- The `struct tm` after `memset(tm, 0, sizeof(*tm))`. -/
def zeroTm : Tm :=
  { tm_sec := 0, tm_min := 0, tm_hour := 0, tm_mday := 0, tm_mon := 0, tm_year := 0,
    tm_wday := 0, tm_yday := 0, tm_isdst := 0 }

/-- The function `init_and_fill_tm`: its return value and the `struct tm` it leaves. -/
def init_and_fill_tm (num1 num2 num3 : Int) (order : DateFormat) : Int × Tm :=
  let tm := { zeroTm with tm_isdst := -1 }
  match order with
  | .YYYY_DD_MM => (1, fill_date_in_tm num1 num3 num2 tm)
  | .YYYY_MM_DD => (1, fill_date_in_tm num1 num2 num3 tm)
  | .DD_MM_YYYY => (1, fill_date_in_tm num3 num2 num1 tm)
  | .MM_DD_YYYY => (1, fill_date_in_tm num3 num1 num2 tm)
  | .INVALID => (0, tm)

/-- The test `days_between(*now_tm, tm_tmp) <= 10` of `get_date_order`, `tm_tmp` being
filled by `init_and_fill_tm` in the given order.  `none`: the test has no defined
value (`now_tm` is NULL, or `days_between` reads an uninitialised variable). -/
def not_after_10_days (num1 num2 num3 : Int) (order : DateFormat) (now_tm : Option Tm) :
    Option Bool :=
  match now_tm with
  | none => none
  | some now =>
    match days_between now (init_and_fill_tm num1 num2 num3 order).2 with
    | none => none
    | some d => some (decide (d ≤ 10))

/-- The function `get_date_order`; `now_tm` is the pointer argument (`none` for NULL).
`none`: the result is not defined, see `not_after_10_days`. -/
def get_date_order (num1 num2 num3 : Int) (separator : Char) (now_tm : Option Tm) :
    Option DateFormat :=
  if num1 > 70 ∧ could_be_a_month num2 = true ∧ could_be_a_day num3 = true then
    some .YYYY_MM_DD
  else if num1 > 70 ∧ could_be_a_day num2 = true ∧ could_be_a_month num3 = true then
    some .YYYY_DD_MM
  else
    match (if separator ≠ '.' ∧ could_be_a_month num1 = true ∧ could_be_a_day num2 = true
              ∧ could_be_a_year num3 = true
           then not_after_10_days num1 num2 num3 .MM_DD_YYYY now_tm else some false) with
    | none => none
    | some true => some .MM_DD_YYYY
    | some false =>
      match (if could_be_a_day num1 = true ∧ could_be_a_month num2 = true
                ∧ could_be_a_year num3 = true
             then not_after_10_days num1 num2 num3 .DD_MM_YYYY now_tm else some false) with
      | none => none
      | some true => some .DD_MM_YYYY
      | some false =>
        match (if separator = '.' ∧ could_be_a_month num1 = true ∧ could_be_a_day num2 = true
                  ∧ could_be_a_year num3 = true
               then not_after_10_days num1 num2 num3 .MM_DD_YYYY now_tm else some false) with
        | none => none
        | some true => some .MM_DD_YYYY
        | some false => some .INVALID

/-- A reading of a numeric triple passes the reference-date test of `get_date_order`:
the reference moment is present and `days_between` from it to the candidate, filled
in the given order, is defined and at most 10. -/
def passesReferenceTest (num1 num2 num3 : Int) (order : DateFormat) (now_tm : Option Tm) :
    Prop :=
  ∃ now d, now_tm = some now
    ∧ days_between now (init_and_fill_tm num1 num2 num3 order).2 = some d ∧ d ≤ 10

/-- The fields of the month-day-year reading of a triple are in range. -/
def monthDayYearInRange (num1 num2 num3 : Int) : Prop :=
  could_be_a_month num1 = true ∧ could_be_a_day num2 = true ∧ could_be_a_year num3 = true

/-- The fields of the day-month-year reading of a triple are in range. -/
def dayMonthYearInRange (num1 num2 num3 : Int) : Prop :=
  could_be_a_day num1 = true ∧ could_be_a_month num2 = true ∧ could_be_a_year num3 = true

instance (num1 num2 num3 : Int) : Decidable (monthDayYearInRange num1 num2 num3) := by
  unfold monthDayYearInRange; infer_instance

instance (num1 num2 num3 : Int) : Decidable (dayMonthYearInRange num1 num2 num3) := by
  unfold dayMonthYearInRange; infer_instance

/-! ## C strings and the C library number parsers -/

/-- The NUL character, which ends every C string. -/
def NUL : Char := Char.ofNat 0

/-- The character a `char *` points to: the first character of the remaining text, NUL
at its end. -/
def chr (s : List Char) : Char := s.headD NUL

/-- Modelled from the spec: the character test `isdigit`, which `date.c` takes from a
header that is not part of the sources; the ASCII decimal digits. -/
def isdigit (c : Char) : Bool := decide (48 ≤ c.toNat) && decide (c.toNat ≤ 57)

/-- Modelled from the spec: the character test `isalpha`, which `date.c` takes from a
header that is not part of the sources; the ASCII letters. -/
def isalpha (c : Char) : Bool :=
  (decide (65 ≤ c.toNat) && decide (c.toNat ≤ 90))
    || (decide (97 ≤ c.toNat) && decide (c.toNat ≤ 122))

/-- Modelled from the spec: the character test `isalnum`, which `date.c` takes from a
header that is not part of the sources; the ASCII letters and digits. -/
def isalnum (c : Char) : Bool := isalpha c || isdigit c

/-- Modelled from the spec: the case mapping `toupper`, which `date.c` takes from a
header that is not part of the sources; ASCII lower case letters are mapped to upper
case, every other character to itself. -/
def toupper (c : Char) : Char :=
  if 97 ≤ c.toNat ∧ c.toNat ≤ 122 then Char.ofNat (c.toNat - 32) else c

/-- The white space that the C library number parsers skip (`isspace` of the C locale). -/
def isspace (c : Char) : Bool := decide (c.toNat = 32) || (decide (9 ≤ c.toNat) && decide (c.toNat ≤ 13))

/-- The value of a run of decimal digits. -/
def digitsValue (ds : List Char) : Nat :=
  ds.foldl (fun acc c => 10 * acc + (c.toNat - 48)) 0

def LONG_MAX : Int := 9223372036854775807

def LONG_MIN : Int := -9223372036854775808

def ULONG_MAX : Int := 18446744073709551615

/-- The subject sequence of `strtol` / `strtoul` in base 10: the number of white space
characters skipped, whether a minus sign was read, the length of the sign (0 or 1)
and the run of digits. -/
def numberPrefix (s : List Char) : Nat × Bool × Nat × List Char :=
  let ws := (s.takeWhile isspace).length
  let s1 := s.drop ws
  let neg := decide (chr s1 = '-')
  let sg := if chr s1 = '-' ∨ chr s1 = '+' then 1 else 0
  (ws, neg, sg, (s1.drop sg).takeWhile isdigit)

/-- The C library function `strtol(s, &end, 10)`: the value and the number of
characters consumed (`end - s`). Without digits nothing is consumed; a value out of
range is clamped to `LONG_MIN` or `LONG_MAX`. -/
def strtol (s : List Char) : Int × Nat :=
  match numberPrefix s with
  | (ws, neg, sg, ds) =>
    if ds.isEmpty then (0, 0)
    else
      let v : Int := if neg then -(digitsValue ds : Int) else (digitsValue ds : Int)
      (if v < LONG_MIN then LONG_MIN else if v > LONG_MAX then LONG_MAX else v,
        ws + sg + ds.length)

/-- The C library function `strtoul(s, &end, 10)`: the value and the number of
characters consumed. A value out of range is clamped to `ULONG_MAX`; a value read
after a minus sign is negated as an `unsigned long`. -/
def strtoul (s : List Char) : Int × Nat :=
  match numberPrefix s with
  | (ws, neg, sg, ds) =>
    if ds.isEmpty then (0, 0)
    else
      let v : Int := digitsValue ds
      (if v > ULONG_MAX then ULONG_MAX
        else if neg then (18446744073709551616 - v) % 18446744073709551616 else v,
        ws + sg + ds.length)

/-- The character of the decimal digit `d`. -/
def digitChar (d : Nat) : Char := Char.ofNat (48 + d)

/-- The sign that a leading `+` or `-` gives an offset. -/
def signOf (s : Char) : Int := if s = '-' then -1 else 1

/-! ## Numeric time zone (`date.c` lines 747-789) -/

/-- The function `match_tz`. The arguments `offp` and `parsed_chars` are the values
the two output variables hold at the call; the result is the return value and the
values they hold afterwards. -/
def match_tz (date : List Char) (offp parsed_chars : Int) : Int × Int × Int :=
  if ¬ ((chr date = '-' ∨ chr date = '+') ∧ isdigit (chr (date.drop 1)) = true) then
    (-1, offp, parsed_chars)
  else
    let r := strtoul (date.drop 1)
    let hour := wrap32 r.1
    let n : Int := r.2
    -- `e` is `end - date`
    let e : Nat := 1 + r.2
    let hme : Int × Int × Nat :=
      if n = 4 then (hour.tdiv 100, hour.tmod 100, e)
      else if n ≠ 2 then (hour, 99, e)
      else if chr (date.drop e) = ':' then
        let r2 := strtoul (date.drop (e + 1))
        let e2 := e + 1 + r2.2
        (hour, if (e2 : Int) - 1 ≠ 5 then 99 else wrap32 r2.1, e2)
      else (hour, 0, e)
    let hour := hme.1
    let min := hme.2.1
    let e := hme.2.2
    if min < 60 ∧ hour < 24 then
      let offset := iadd (imul hour 60) min
      let offset := if chr date = '-' then ineg offset else offset
      (0, offset, e)
    else (-1, offp, 0)

/-! ## The environment

The clock and the local time zone are supplied by the C library; the functions of
`date.c` that consult them take them from this record. -/

/-- The C library calls whose result depends on the process environment. -/
structure Env where
  /-- The value of `time(NULL)` and of `gettimeofday` (seconds). -/
  time_now : Int
  /-- The value `mktime` returns for a `struct tm` in the local time zone. -/
  mktime : Tm → Int
  /-- The value `localtime_r` stores for a timestamp in the local time zone. -/
  localtime_r : Int → Tm

/-! ## Name tables and the alphabetic matcher (`date.c` lines 87-94, 291-418) -/

def month_names : List String :=
  ["January", "February", "March", "April", "May", "June",
   "July", "August", "September", "October", "November", "December"]

def weekday_names : List String :=
  ["Sundays", "Mondays", "Tuesdays", "Wednesdays", "Thursdays", "Fridays", "Saturdays"]

/-- The table `timezone_names`: name, offset in hours, dst. -/
def timezone_names : List (String × Int × Int) :=
  [("IDLW", -12, 0), ("NT", -11, 0), ("CAT", -10, 0), ("HST", -10, 0), ("HDT", -10, 1),
   ("YST", -9, 0), ("YDT", -9, 1), ("PST", -8, 0), ("PDT", -8, 1), ("MST", -7, 0),
   ("MDT", -7, 1), ("CST", -6, 0), ("CDT", -6, 1), ("EST", -5, 0), ("EDT", -5, 1),
   ("AST", -3, 0), ("ADT", -3, 1), ("WAT", -1, 0),
   ("GMT", 0, 0), ("UTC", 0, 0), ("Z", 0, 0),
   ("WET", 0, 0), ("BST", 0, 1), ("CET", 1, 0), ("MET", 1, 0), ("MEWT", 1, 0),
   ("MEST", 1, 1), ("CEST", 1, 1), ("MESZ", 1, 1), ("FWT", 1, 0), ("FST", 1, 1),
   ("EET", 2, 0), ("EEST", 2, 1), ("WAST", 7, 0), ("WADT", 7, 1), ("CCT", 8, 0),
   ("JST", 9, 0), ("EAST", 10, 0), ("EADT", 10, 1), ("GST", 10, 0), ("NZT", 12, 0),
   ("NZST", 12, 0), ("NZDT", 12, 1), ("IDLE", 12, 0)]

/-- The loop of `match_string`, entered with the counter `i`. -/
def match_string_from (i : Nat) : List Char → List Char → Nat
  | [], _ => i
  | d :: date, str =>
    if d = NUL then i
    else if d = chr str then match_string_from (i + 1) date (str.drop 1)
    else if toupper d = toupper (chr str) then match_string_from (i + 1) date (str.drop 1)
    else if isalnum d = false then i
    else 0

def match_string (date str : List Char) : Nat := match_string_from 0 date str

/-- The first name of a table, counted from index `i`, that `match_string` matches in
at least 3 characters: its index and the length of the match (the month and weekday
loops of `match_alpha`). -/
def first_name_match (date : List Char) : List String → Nat → Option (Nat × Nat)
  | [], _ => none
  | name :: names, i =>
    if match_string date name.toList ≥ 3 then some (i, match_string date name.toList)
    else first_name_match date names (i + 1)

/-- The first entry of the time zone table that matches in at least 3 characters or
in its whole name: the entry and the length of the match. -/
def first_zone_match (date : List Char) :
    List (String × Int × Int) → Option ((String × Int × Int) × Nat)
  | [] => none
  | z :: zs =>
    if match_string date z.1.toList ≥ 3 ∨ match_string date z.1.toList = z.1.toList.length then
      some (z, match_string date z.1.toList)
    else first_zone_match date zs

/-- The function `match_alpha`: the return value and the values of `*tm`, `*offset`
and `*parsed_chars` afterwards. -/
def match_alpha (date : List Char) (tm : Tm) (offset parsed_chars : Int) :
    Int × Tm × Int × Int :=
  if isalpha (chr date) = false then (-1, tm, offset, parsed_chars)
  else
    match first_name_match date month_names 0 with
    | some (i, m) => (0, { tm with tm_mon := i }, offset, m)
    | none =>
      match first_name_match date weekday_names 0 with
      | some (i, m) => (0, { tm with tm_wday := i }, offset, m)
      | none =>
        match first_zone_match date timezone_names with
        | some (z, m) =>
          let off := iadd z.2.1 z.2.2
          (0, tm, if offset = -1 then imul 60 off else offset, m)
        | none =>
          if match_string date "PM".toList = 2 then
            (0, { tm with tm_hour := iadd (tm.tm_hour.tmod 12) 12 }, offset, 2)
          else if match_string date "AM".toList = 2 then
            (0, { tm with tm_hour := iadd (tm.tm_hour.tmod 12) 0 }, offset, 2)
          else (-1, tm, offset, parsed_chars)

/-! ## The numeric matchers (`date.c` lines 559-745) -/

/-- The first part of `match_multi_number`: the numbers `num2` and `num3` read after
the separator `c` and the final position of `end`; `date` is the start of the first
number and `e` the position of `end` at the call. -/
def multi_number_read (c : Char) (date : List Char) (e : Nat) : Int × Int × Nat :=
  if chr (date.drop (e + 1 + (strtol (date.drop (e + 1))).2)) = c
      ∧ isdigit (chr (date.drop (e + 1 + (strtol (date.drop (e + 1))).2 + 1))) = true then
    ((strtol (date.drop (e + 1))).1,
      (strtol (date.drop (e + 1 + (strtol (date.drop (e + 1))).2 + 1))).1,
      e + 1 + (strtol (date.drop (e + 1))).2 + 1
        + (strtol (date.drop (e + 1 + (strtol (date.drop (e + 1))).2 + 1))).2)
  else ((strtol (date.drop (e + 1))).1, -1, e + 1 + (strtol (date.drop (e + 1))).2)

/-- The second part of `match_multi_number`: the `switch` on the separator, with the
numbers read and the final position `e` of `end`. The result is the return value and
`*tm` afterwards; `none` when `get_date_order` has no defined result. -/
def multi_number_fill (env : Env) (num : Int) (c : Char) (num2 num3 : Int) (e : Nat)
    (tm : Tm) (now : Int) : Option (Int × Tm) :=
  if c = ':' then
    let num3 := if num3 < 0 then 0 else num3
    if could_be_a_hour (wrap32 num) = true ∧ could_be_a_minute (wrap32 num2) = true
        ∧ could_be_a_second (wrap32 num3) = true then
      some ((e : Int), fill_time_in_tm (wrap32 num) (wrap32 num2) (wrap32 num3) tm)
    else some (0, tm)
  else if c = '-' ∨ c = '/' ∨ c = '.' then
    let now := if now = 0 then env.time_now else now
    let refuse_future := gmtime now
    match get_date_order (wrap32 num) (wrap32 num2) (wrap32 num3) c refuse_future with
    | none => none
    | some .YYYY_MM_DD =>
      some ((e : Int), fill_date_in_tm (wrap32 num) (wrap32 num2) (wrap32 num3) tm)
    | some .YYYY_DD_MM =>
      some ((e : Int), fill_date_in_tm (wrap32 num) (wrap32 num3) (wrap32 num2) tm)
    | some .DD_MM_YYYY =>
      some ((e : Int), fill_date_in_tm (wrap32 num3) (wrap32 num2) (wrap32 num) tm)
    | some .MM_DD_YYYY =>
      some ((e : Int), fill_date_in_tm (wrap32 num3) (wrap32 num) (wrap32 num2) tm)
    | some .INVALID => some (0, tm)
  else some ((e : Int), tm)

/-- The function `match_multi_number`; `date` is the start of the number and `e` the
position of `end` in it. The result is the return value and `*tm` afterwards; `none`
when `get_date_order` has no defined result. -/
def match_multi_number (env : Env) (num : Int) (c : Char) (date : List Char) (e : Nat)
    (tm : Tm) (now : Int) : Option (Int × Tm) :=
  multi_number_fill env num c (multi_number_read c date e).1 (multi_number_read c date e).2.1
    (multi_number_read c date e).2.2 tm now

/-- The function `nodate`: the sign bit of the bitwise and of the six fields is set
exactly when all six are negative. -/
def nodate (tm : Tm) : Bool :=
  decide (tm.tm_year < 0) && decide (tm.tm_mon < 0) && decide (tm.tm_mday < 0)
    && decide (tm.tm_hour < 0) && decide (tm.tm_min < 0) && decide (tm.tm_sec < 0)

/-- The number of characters the loop `do n++ while (isdigit(date[n]))` counts. -/
def digit_count (date : List Char) : Nat := 1 + ((date.drop 1).takeWhile isdigit).length

/-- The state the token classifiers of `parse_date_basic` work on. -/
structure PState where
  tm : Tm
  offset : Int
  tm_gmt : Int
  parsed_chars : Int
  deriving DecidableEq, Repr

/-- The value of a mathematical integer stored in a 32-bit `unsigned int`. -/
def wrapU32 (x : Int) : Int := x % 4294967296

/-- The value of a mathematical integer stored in a 64-bit `unsigned long`. -/
def wrapU64 (x : Int) : Int := x % 18446744073709551616

/-- The part of `match_digit` after the special formats: the guess from the number of
digits `n`. -/
def match_digit_guess (num : Int) (n : Nat) (st : PState) : PState :=
  if n = 4 then
    if num ≤ 1400 ∧ st.offset = -1 then
      let minutes := wrapU32 (num.tmod 100)
      let hours := wrapU32 (num.tdiv 100)
      { st with offset := wrap32 (wrapU32 (wrapU32 (hours * 60) + minutes)), parsed_chars := n }
    else if num > 1900 ∧ num < 2100 then
      { st with tm := { st.tm with tm_year := wrap32 (num - 1900) }, parsed_chars := n }
    else { st with parsed_chars := n }
  else if n > 2 then { st with parsed_chars := n }
  else if num > 0 ∧ num < 32 ∧ st.tm.tm_mday < 0 then
    { st with tm := { st.tm with tm_mday := wrap32 num }, parsed_chars := n }
  else if n = 2 ∧ st.tm.tm_year < 0 ∧ num < 10 ∧ st.tm.tm_mday ≥ 0 then
    { st with tm := { st.tm with tm_year := wrap32 (num + 100) }, parsed_chars := n }
  else if n = 2 ∧ st.tm.tm_year < 0 ∧ num ≥ 70 then
    { st with tm := { st.tm with tm_year := wrap32 num }, parsed_chars := n }
  else if num > 0 ∧ num < 13 ∧ st.tm.tm_mon < 0 then
    { st with tm := { st.tm with tm_mon := wrap32 (num - 1) }, parsed_chars := n }
  else { st with parsed_chars := n }

/-- The function `match_digit`: the return value and the state afterwards; `none`
when `match_multi_number` has no defined result, and when `gmtime_r` fails: the C
library does not specify what it leaves in `*tm` then, and the code goes on with
that `*tm`. -/
def match_digit (env : Env) (date : List Char) (st : PState) : Option (Int × PState) :=
  if ¬ ((isdigit (chr date) = true ∨ chr date = '-' ∨ chr date = '+')
      ∧ isdigit (chr (date.drop 1)) = true) then some (-1, st)
  else
    let num := (strtol date).1
    let e := (strtol date).2
    match (if (num ≥ 100000000 ∨ num ≤ -100000000) ∧ nodate st.tm = true
           then some (gmtime num) else none) with
    | some (some tm) => some (0, { st with tm := tm, tm_gmt := 1, parsed_chars := e })
    | some none => none
    | none =>
      if chr date = '-' ∨ chr (date.drop 1) = '+' then some (-1, st)
      else
        let c := chr (date.drop e)
        match (if (c = ':' ∨ c = '.' ∨ c = '/' ∨ c = '-') ∧ isdigit (chr (date.drop (e + 1))) = true
               then match_multi_number env (wrapU64 num) c date e st.tm 0
               else some (0, st.tm)) with
        | none => none
        | some (m, tm) =>
          if m ≠ 0 then some (0, { st with tm := tm, parsed_chars := m })
          else some (0, match_digit_guess num (digit_count date) st)

/-! ## The structured parser (`date.c` lines 791-894) -/

/-- The function `match_object_header_date`: `none` is the return value -1, `some`
holds `*timestamp` and `*offset` of the return value 0. -/
def match_object_header_date (date : List Char) : Option (Int × Int) :=
  if isdigit (chr date) = false ∧ ¬ (chr date = '+' ∨ chr date = '-') then none
  else
    let stamp := (strtol date).1
    let e := (strtol date).2
    if chr (date.drop e) ≠ ' ' ∨ stamp = LONG_MAX
        ∨ (chr (date.drop (e + 1)) ≠ '+' ∧ chr (date.drop (e + 1)) ≠ '-') then none
    else
      let date2 := date.drop (e + 2)
      let ofs := wrap32 (strtol date2).1
      let e2 := (strtol date2).2
      if (chr (date2.drop e2) ≠ NUL ∧ chr (date2.drop e2) ≠ '\n') ∨ e2 ≠ 4 then none
      else
        let ofs := iadd (imul (ofs.tdiv 100) 60) (ofs.tmod 100)
        let ofs := if chr (date.drop (e + 1)) = '-' then ineg ofs else ofs
        some (stamp, ofs)

/-- One round of the loop of `parse_date_basic` at the text `date`: the three
classifiers in their order, a single character skipped when none matches. -/
def parse_step (env : Env) (date : List Char) (st : PState) : Option PState :=
  let a := match_alpha date st.tm st.offset 0
  if a.1 = 0 then some { st with tm := a.2.1, offset := a.2.2.1, parsed_chars := a.2.2.2 }
  else
    let t := match_tz date a.2.2.1 a.2.2.2
    if t.1 = 0 then some { st with tm := a.2.1, offset := t.2.1, parsed_chars := t.2.2 }
    else
      match match_digit env date
          { st with tm := a.2.1, offset := t.2.1, parsed_chars := t.2.2 } with
      | none => none
      | some (rd, st1) => if rd = 0 then some st1 else some { st1 with parsed_chars := 1 }

/-- The loop of `parse_date_basic`. Every round consumes at least one character, so
the length of the text bounds the number of rounds; `none`: a round has no defined
result. -/
def parse_loop (env : Env) : Nat → List Char → PState → Option PState
  | 0, _, _ => none
  | fuel + 1, date, st =>
    if chr date = NUL ∨ chr date = '\n' then some st
    else
      match parse_step env date st with
      | none => none
      | some st1 => parse_loop env fuel (date.drop st1.parsed_chars.toNat) st1

/-- The outcome of `parse_date_basic`. -/
inductive Parsed where
  /-- The C program has no defined behaviour on the input, or its result depends on
  what the C library leaves in a `struct tm` when `gmtime_r` fails. -/
  | undefined
  /-- Return value -1. -/
  | failure
  /-- Return value 0, with `*timestamp` and `*offset`. -/
  | success (timestamp offset : Int)
  deriving DecidableEq, Repr

/-- The `struct tm` with which `parse_date_basic` starts. -/
def unsetTm : Tm :=
  { zeroTm with tm_year := -1, tm_mon := -1, tm_mday := -1, tm_isdst := -1,
                tm_hour := -1, tm_min := -1, tm_sec := -1 }

def parse_date_basic (env : Env) (date : List Char) : Parsed :=
  match (if chr date = '@' then match_object_header_date (date.drop 1) else none) with
  | some (timestamp, offset) => .success timestamp offset
  | none =>
    match parse_loop env (date.length + 1) date
        { tm := unsetTm, offset := -1, tm_gmt := 0, parsed_chars := 0 } with
    | none => .undefined
    | some st =>
      match tm_to_time_t st.tm with
      | none => .failure
      | some timestamp =>
        let offset :=
          if st.offset = -1 then
            let temp_time := env.mktime { st.tm with tm_isdst := -1 }
            if timestamp > temp_time then wrap32 ((lsub timestamp temp_time).tdiv 60)
            else ineg (wrap32 ((lsub temp_time timestamp).tdiv 60))
          else st.offset
        let timestamp := if st.tm_gmt = 0 then lsub timestamp (imul offset 60) else timestamp
        .success timestamp offset

/-! ## The formatter (`date.c` lines 117-283) -/

/-- The function `local_tzoffset`. -/
def local_tzoffset (env : Env) (time : Int) : Int :=
  match tm_to_time_t (env.localtime_r time) with
  | none => 0
  | some t_local =>
    let eastwest : Int := if t_local < time then -1 else 1
    let offset := if t_local < time then wrap32 (lsub time t_local) else wrap32 (lsub t_local time)
    let offset := offset.tdiv 60
    let offset := iadd (offset.tmod 60) (imul (offset.tdiv 60) 100)
    imul offset eastwest

/-- The decimal digits of a natural number, as `printf` writes them. -/
def natDigits (n : Nat) : List Char := Nat.toDigits 10 n

/-- The conversion `%d` (also `%ld`) of `printf`. -/
def fmt_d (n : Int) : List Char :=
  if n < 0 then '-' :: natDigits n.natAbs else natDigits n.natAbs

/-- The conversion `%0wd` of `printf`: zero padding to the field width `w`. -/
def fmt_0d (w : Nat) (n : Int) : List Char :=
  if n < 0 then
    '-' :: (List.replicate (w - 1 - (natDigits n.natAbs).length) '0' ++ natDigits n.natAbs)
  else List.replicate (w - (natDigits n.natAbs).length) '0' ++ natDigits n.natAbs

/-- The conversion `%+0wd` of `printf`: an explicit sign, then zero padding to the
field width `w`. -/
def fmt_plus0d (w : Nat) (n : Int) : List Char :=
  (if n < 0 then '-' else '+')
    :: (List.replicate (w - 1 - (natDigits n.natAbs).length) '0' ++ natDigits n.natAbs)

/-- The message selection `Q_`: the singular form for the count 1, else the plural. -/
def Q_ (singular plural : String) (n : Int) : String := if n = 1 then singular else plural

/-- The function `show_date_relative`: the text appended to the buffer. `now` is
`now->tv_sec`. Both `time` and `now->tv_sec` are signed `time_t` values, so the
subtraction `now->tv_sec - time` is a signed one: where the difference is above
`LONG_MAX` it is undefined and the function has no defined text (`none`). The
variable `diff` and the arithmetic on it are `unsigned long`. -/
def show_date_relative (time : Int) (now : Int) : Option (List Char) :=
  if now < time then some "in the future".toList
  else if now - time > LONG_MAX then none
  else
    let diff := wrapU64 (now - time)
    if diff < 90 then some (fmt_d diff ++ (Q_ " second ago" " seconds ago" diff).toList)
    else
      let diff := wrapU64 (diff + 30) / 60
      if diff < 90 then some (fmt_d diff ++ (Q_ " minute ago" " minutes ago" diff).toList)
      else
        let diff := (diff + 30) / 60
        if diff < 36 then some (fmt_d diff ++ (Q_ " hour ago" " hours ago" diff).toList)
        else
          let diff := (diff + 12) / 24
          if diff < 14 then some (fmt_d diff ++ (Q_ " day ago" " days ago" diff).toList)
          else if diff < 70 then
            some (fmt_d ((diff + 3) / 7)
              ++ (Q_ " week ago" " weeks ago" ((diff + 3) / 7)).toList)
          else if diff < 365 then
            some (fmt_d ((diff + 15) / 30)
              ++ (Q_ " month ago" " months ago" ((diff + 15) / 30)).toList)
          else if diff < 1825 then
            let totalmonths := (diff * 12 * 2 + 365) / (365 * 2)
            let years := totalmonths / 12
            let months := totalmonths % 12
            if months ≠ 0 then
              some ((fmt_d years ++ (Q_ " year" " years" years).toList) ++ ", ".toList
                ++ fmt_d months ++ (Q_ " month ago" " months ago" months).toList)
            else some (fmt_d years ++ (Q_ " year ago" " years ago" years).toList)
          else
            some (fmt_d ((diff + 183) / 365)
              ++ (Q_ " year ago" " years ago" ((diff + 183) / 365)).toList)

/-- Modelled from the spec: the enumeration `date_mode`, declared in a header that is
not part of the sources; one value for each format of the formatter. -/
inductive date_mode where
  | DATE_NORMAL
  | DATE_RELATIVE
  | DATE_SHORT
  | DATE_LOCAL
  | DATE_ISO8601
  | DATE_ISO8601_STRICT
  | DATE_RFC2822
  | DATE_RAW
  deriving DecidableEq, Repr

/-- The C string a buffer holds: its contents up to the first NUL. -/
def cstring (buf : List Char) : List Char := buf.takeWhile (fun c => decide (c ≠ NUL))

/-- The function `show_date`: the C string it returns; `none` where the relative
format has no defined text. -/
def show_date (env : Env) (time tz : Int) (mode : date_mode) : Option (List Char) :=
  if mode = .DATE_RAW then some (cstring (fmt_d time ++ ' ' :: fmt_plus0d 5 tz))
  else if mode = .DATE_RELATIVE then (show_date_relative time env.time_now).map cstring
  else
    let tz := if mode = .DATE_LOCAL then local_tzoffset env time else tz
    let tmtz : Tm × Int :=
      match time_to_tm time tz with
      | some tm => (tm, tz)
      | none => ((time_to_tm 0 0).getD zeroTm, 0)
    let tm := tmtz.1
    let tz := tmtz.2
    if mode = .DATE_SHORT then
      some (cstring (fmt_0d 4 (iadd tm.tm_year 1900) ++ '-' :: fmt_0d 2 (iadd tm.tm_mon 1)
        ++ '-' :: fmt_0d 2 tm.tm_mday))
    else if mode = .DATE_ISO8601 then
      some (cstring (fmt_0d 4 (iadd tm.tm_year 1900) ++ '-' :: fmt_0d 2 (iadd tm.tm_mon 1)
        ++ '-' :: fmt_0d 2 tm.tm_mday ++ ' ' :: fmt_0d 2 tm.tm_hour ++ ':' :: fmt_0d 2 tm.tm_min
        ++ ':' :: fmt_0d 2 tm.tm_sec ++ ' ' :: fmt_plus0d 5 tz))
    else if mode = .DATE_ISO8601_STRICT then
      let sign := if tz ≥ 0 then '+' else '-'
      let tz := if tz < 0 then ineg tz else tz
      some (cstring (fmt_0d 4 (iadd tm.tm_year 1900) ++ '-' :: fmt_0d 2 (iadd tm.tm_mon 1)
        ++ '-' :: fmt_0d 2 tm.tm_mday ++ 'T' :: fmt_0d 2 tm.tm_hour ++ ':' :: fmt_0d 2 tm.tm_min
        ++ ':' :: fmt_0d 2 tm.tm_sec ++ sign :: fmt_0d 2 (tz.tdiv 100)
        ++ ':' :: fmt_0d 2 (tz.tmod 100)))
    else if mode = .DATE_RFC2822 then
      some (cstring (((weekday_names.getD tm.tm_wday.toNat "").toList.take 3) ++ ", ".toList
        ++ fmt_d tm.tm_mday ++ ' ' :: ((month_names.getD tm.tm_mon.toNat "").toList.take 3)
        ++ ' ' :: fmt_d (iadd tm.tm_year 1900) ++ ' ' :: fmt_0d 2 tm.tm_hour
        ++ ':' :: fmt_0d 2 tm.tm_min ++ ':' :: fmt_0d 2 tm.tm_sec ++ ' ' :: fmt_plus0d 5 tz))
    else
      some (cstring (((weekday_names.getD tm.tm_wday.toNat "").toList.take 3)
        ++ ' ' :: ((month_names.getD tm.tm_mon.toNat "").toList.take 3)
        ++ ' ' :: fmt_d tm.tm_mday ++ ' ' :: fmt_0d 2 tm.tm_hour
        ++ ':' :: fmt_0d 2 tm.tm_min ++ ':' :: fmt_0d 2 tm.tm_sec
        ++ ' ' :: fmt_d (iadd tm.tm_year 1900)
        ++ (if mode = .DATE_LOCAL then NUL else ' ') :: fmt_plus0d 5 tz))

/-- The decimal offset code (HHMM read as a decimal number) of an offset in minutes. -/
def offsetCode (m : Int) : Int :=
  Int.sign m * ((m.natAbs / 60 : Nat) * 100 + (m.natAbs % 60 : Nat))

/-- The literal `YYYY-MM-DDTHH:MM:SS±HH:MM` of the strict ISO form; `sign` is the
character `+` or `-`, every number is written in decimal digits, the year with four
and the other fields with two. -/
def isoStrictLiteral (Y : Nat) (M D h mi s : Nat) (sign : Char) (oh om : Nat) : List Char :=
  [digitChar (Y / 1000), digitChar (Y / 100 % 10), digitChar (Y / 10 % 10), digitChar (Y % 10),
   '-', digitChar (M / 10), digitChar (M % 10), '-', digitChar (D / 10), digitChar (D % 10),
   'T', digitChar (h / 10), digitChar (h % 10), ':', digitChar (mi / 10), digitChar (mi % 10),
   ':', digitChar (s / 10), digitChar (s % 10), sign,
   digitChar (oh / 10), digitChar (oh % 10), ':', digitChar (om / 10), digitChar (om % 10)]

/-- An environment whose local time zone is UTC and whose clock reads 1700000000
(14 November 2023). -/
def utcEnv : Env :=
  { time_now := 1700000000,
    mktime := fun tm => (tm_to_time_t tm).getD (-1),
    localtime_r := fun t => (gmtime t).getD zeroTm }

/-! ## The buckets of the relative format

The relative age as the specification words it: a unit and a count, chosen by the
thresholds on the elapsed seconds. -/

/-- The unit and the count of a relative age. -/
inductive RelativeAge where
  | future
  | seconds (n : Int)
  | minutes (n : Int)
  | hours (n : Int)
  | days (n : Int)
  | weeks (n : Int)
  | months (n : Int)
  | yearsMonths (years months : Int)
  | years (n : Int)
  deriving DecidableEq, Repr

/-- The bucket of the elapsed time between `time` and `now`, by the thresholds of the
specification. -/
def relativeAge (now time : Int) : RelativeAge :=
  if now < time then .future
  else
    let e := now - time
    if e < 90 then .seconds e
    else
      let m := (e + 30) / 60
      if m < 90 then .minutes m
      else
        let h := (m + 30) / 60
        if h < 36 then .hours h
        else
          let d := (h + 12) / 24
          if d < 14 then .days d
          else if d < 70 then .weeks ((d + 3) / 7)
          else if d < 365 then .months ((d + 15) / 30)
          else if d < 1825 then
            let total := (d * 24 + 365) / 730
            if total % 12 ≠ 0 then .yearsMonths (total / 12) (total % 12)
            else .years (total / 12)
          else .years ((d + 183) / 365)

/-- A count with its unit, the singular form for the count 1. -/
def countText (n : Int) (unit : String) : List Char :=
  fmt_d n ++ ' ' :: (unit.toList ++ (if n = 1 then [] else ['s']))

/-- The text of a relative age. -/
def RelativeAge.text : RelativeAge → List Char
  | .future => "in the future".toList
  | .seconds n => countText n "second" ++ " ago".toList
  | .minutes n => countText n "minute" ++ " ago".toList
  | .hours n => countText n "hour" ++ " ago".toList
  | .days n => countText n "day" ++ " ago".toList
  | .weeks n => countText n "week" ++ " ago".toList
  | .months n => countText n "month" ++ " ago".toList
  | .yearsMonths y m => countText y "year" ++ ", ".toList ++ countText m "month" ++ " ago".toList
  | .years n => countText n "year" ++ " ago".toList

/-! ## The approximate parser (`date.c` lines 970-1307) -/

/-- The function `update_tm`: the return value and `*tm` afterwards. The argument
`sec` is an `unsigned long`, so the subtraction is done in that type and the result
stored in a `time_t`. -/
def update_tm (env : Env) (tm now : Tm) (sec : Int) : Int × Tm :=
  let tm := if tm.tm_mday < 0 then { tm with tm_mday := now.tm_mday } else tm
  let tm := if tm.tm_mon < 0 then { tm with tm_mon := now.tm_mon } else tm
  let tm :=
    if tm.tm_year < 0 then
      { tm with tm_year := if tm.tm_mon > now.tm_mon then isub now.tm_year 1 else now.tm_year }
    else tm
  let n := wrap64 (wrapU64 (env.mktime tm - sec))
  (n, env.localtime_r n)

/-- The function `date_now`: `*tm` and `*num` afterwards. -/
def date_now (env : Env) (tm now : Tm) (num : Int) : Tm × Int :=
  ((update_tm env tm now 0).2, num)

def date_yesterday (env : Env) (tm now : Tm) (num : Int) : Tm × Int :=
  ((update_tm env tm now (24 * 60 * 60)).2, num)

def date_time (env : Env) (tm now : Tm) (hour : Int) : Tm :=
  let tm := if tm.tm_hour < hour then (date_yesterday env tm now 0).1 else tm
  { tm with tm_hour := hour, tm_min := 0, tm_sec := 0 }

def date_midnight (env : Env) (tm now : Tm) (num : Int) : Tm × Int :=
  (date_time env tm now 0, num)

def date_noon (env : Env) (tm now : Tm) (num : Int) : Tm × Int :=
  (date_time env tm now 12, num)

def date_tea (env : Env) (tm now : Tm) (num : Int) : Tm × Int :=
  (date_time env tm now 17, num)

def date_pm (_env : Env) (tm _now : Tm) (num : Int) : Tm × Int :=
  let hour := if num ≠ 0 then num else tm.tm_hour
  let tm := if num ≠ 0 then { tm with tm_min := 0, tm_sec := 0 } else tm
  ({ tm with tm_hour := iadd (hour.tmod 12) 12 }, 0)

def date_am (_env : Env) (tm _now : Tm) (num : Int) : Tm × Int :=
  let hour := if num ≠ 0 then num else tm.tm_hour
  let tm := if num ≠ 0 then { tm with tm_min := 0, tm_sec := 0 } else tm
  ({ tm with tm_hour := hour.tmod 12 }, 0)

def date_never (env : Env) (_tm _now : Tm) (num : Int) : Tm × Int :=
  (env.localtime_r 0, num)

/-- The table `special`: a keyword and the function it calls. -/
def special : List (String × (Env → Tm → Tm → Int → Tm × Int)) :=
  [("yesterday", date_yesterday), ("noon", date_noon), ("midnight", date_midnight),
   ("tea", date_tea), ("PM", date_pm), ("AM", date_am), ("never", date_never),
   ("now", date_now)]

def number_name : List String :=
  ["zero", "one", "two", "three", "four", "five", "six", "seven", "eight", "nine", "ten"]

/-- The table `typelen`: a unit and its length in seconds. -/
def typelen : List (String × Int) :=
  [("seconds", 1), ("minutes", 60), ("hours", 60 * 60), ("days", 24 * 60 * 60),
   ("weeks", 7 * 24 * 60 * 60)]

/-- The position of `end` after `while (isalpha(*++end))`, counted from `date`. -/
def alpha_end (date : List Char) : Nat := 1 + ((date.drop 1).takeWhile isalpha).length

/-- The first keyword of the table `special` that `match_string` matches in its whole
length: the function of the entry. -/
def first_special_match (date : List Char) :
    List (String × (Env → Tm → Tm → Int → Tm × Int)) →
      Option (Env → Tm → Tm → Int → Tm × Int)
  | [] => none
  | s :: ss =>
    if match_string date s.1.toList = s.1.toList.length then some s.2
    else first_special_match date ss

/-- The first number name, counted from index `i`, that `match_string` matches in its
whole length: its index. -/
def first_number_name (date : List Char) : List String → Nat → Option Nat
  | [], _ => none
  | name :: names, i =>
    if match_string date name.toList = name.toList.length then some i
    else first_number_name date names (i + 1)

/-- The first unit of the table `typelen` that `match_string` matches in all its
characters but at most one: the length of the unit. -/
def first_typelen_match (date : List Char) : List (String × Int) → Option Int
  | [] => none
  | tl :: tls =>
    if (match_string date tl.1.toList : Int) ≥ (tl.1.toList.length : Int) - 1 then some tl.2
    else first_typelen_match date tls

/-- The loop `while (n < 0) { n += 12; tm->tm_year--; }`: the values of `n` and
`tm->tm_year` afterwards. Every round adds 12 to `n`, so the absolute value of `n`
bounds the number of rounds. -/
def months_carry : Nat → Int → Int → Int × Int
  | 0, n, year => (n, year)
  | fuel + 1, n, year =>
    if n < 0 then months_carry fuel (iadd n 12) (isub year 1) else (n, year)

/-- The function `approxidate_alpha`: the position of the returned pointer counted
from `date`, and the values of `*tm`, `*num` and `*touched` afterwards. -/
def approxidate_alpha (env : Env) (date : List Char) (tm now : Tm) (num touched : Int) :
    Nat × Tm × Int × Int :=
  match first_name_match date month_names 0 with
  | some (i, _) => (alpha_end date, { tm with tm_mon := i }, num, 1)
  | none =>
    match first_special_match date special with
    | some fn => (alpha_end date, (fn env tm now num).1, (fn env tm now num).2, 1)
    | none =>
      if num = 0 then
        match first_number_name date (number_name.drop 1) 1 with
        | some i => (alpha_end date, tm, i, 1)
        | none =>
          if match_string date "last".toList = 4 then (alpha_end date, tm, 1, 1)
          else (alpha_end date, tm, num, touched)
      else
        match first_typelen_match date typelen with
        | some length =>
          (alpha_end date, (update_tm env tm now (wrapU64 (imul length num))).2, 0, 1)
        | none =>
          match first_name_match date weekday_names 0 with
          | some (i, _) =>
            let n := isub num 1
            let diff := isub tm.tm_wday i
            let n := if diff ≤ 0 then iadd n 1 else n
            let diff := iadd diff (imul 7 n)
            (alpha_end date,
              (update_tm env tm now (wrapU64 (imul (imul (imul diff 24) 60) 60))).2, 0, 1)
          | none =>
            if match_string date "months".toList ≥ 5 then
              let tm := (update_tm env tm now 0).2
              let n := isub tm.tm_mon num
              let r := months_carry n.natAbs n tm.tm_year
              (alpha_end date, { tm with tm_mon := r.1, tm_year := r.2 }, 0, 1)
            else if match_string date "years".toList ≥ 4 then
              let tm := (update_tm env tm now 0).2
              (alpha_end date, { tm with tm_year := isub tm.tm_year num }, 0, 1)
            else (alpha_end date, tm, num, touched)

/-- The function `approxidate_digit`: the position of the returned pointer counted
from `date`, and the values of `*tm` and `*num` afterwards; `none` when
`match_multi_number` has no defined result. -/
def approxidate_digit (env : Env) (date : List Char) (tm : Tm) (num : Int) (now : Int) :
    Option (Nat × Tm × Int) :=
  let number := (strtoul date).1
  let e := (strtoul date).2
  let c := chr (date.drop e)
  match (if (c = ':' ∨ c = '.' ∨ c = '/' ∨ c = '-') ∧ isdigit (chr (date.drop (e + 1))) = true
         then match_multi_number env number c date e tm now
         else some (0, tm)) with
  | none => none
  | some (m, tm1) =>
    if m ≠ 0 then some (m.toNat, tm1, num)
    else some (e, tm1, if chr date ≠ '0' ∨ e ≤ 2 then wrap32 number else num)

/-- The function `pending_number`: `*tm` and `*num` afterwards. -/
def pending_number (tm : Tm) (num : Int) : Tm × Int :=
  if num ≠ 0 then
    if tm.tm_mday < 0 ∧ num < 32 then ({ tm with tm_mday := num }, 0)
    else if tm.tm_mon < 0 ∧ num < 13 then ({ tm with tm_mon := isub num 1 }, 0)
    else if tm.tm_year < 0 then
      if num > YEAR_MIN ∧ num < YEAR_MAX then ({ tm with tm_year := isub num 1900 }, 0)
      else if num > 69 ∧ num < 100 then ({ tm with tm_year := num }, 0)
      else if num < 38 then ({ tm with tm_year := iadd 100 num }, 0)
      else (tm, 0)
    else (tm, 0)
  else (tm, num)

/-- The loop of `approxidate_str`: the values of `tm`, `number` and `touched` when it
ends. Every round consumes at least one character, so the length of the text bounds
the number of rounds; `none`: a round has no defined result. -/
def approxidate_loop (env : Env) (now : Tm) (time_sec : Int) :
    Nat → List Char → Tm → Int → Int → Option (Tm × Int × Int)
  | 0, _, _, _, _ => none
  | fuel + 1, date, tm, number, touched =>
    if chr date = NUL then some (tm, number, touched)
    else if isdigit (chr date) = true then
      match approxidate_digit env date (pending_number tm number).1
          (pending_number tm number).2 time_sec with
      | none => none
      | some (e, tm1, num1) => approxidate_loop env now time_sec fuel (date.drop e) tm1 num1 1
    else if isalpha (chr date) = true then
      let r := approxidate_alpha env date tm now number touched
      approxidate_loop env now time_sec fuel (date.drop r.1) r.2.1 r.2.2.1 r.2.2.2
    else approxidate_loop env now time_sec fuel (date.drop 1) tm number touched

/-- The function `approxidate_str`: the return value and `*error_ret` afterwards;
`time_sec` is `tv->tv_sec` and `error_ret` the value of `*error_ret` at the call. -/
def approxidate_str (env : Env) (date : List Char) (time_sec : Int) (error_ret : Int) :
    Option (Int × Int) :=
  let now := env.localtime_r time_sec
  match approxidate_loop env now time_sec (date.length + 1) date
      { now with tm_year := -1, tm_mon := -1, tm_mday := -1 } 0 0 with
  | none => none
  | some (tm, number, touched) =>
    some ((update_tm env (pending_number tm number).1 now 0).1,
      if touched = 0 then 1 else error_ret)

/-- The function `approxidate_careful`: the return value and `*error_ret` afterwards;
`none` when the program has no defined behaviour on the input. -/
def approxidate_careful (env : Env) (date : List Char) (error_ret : Int) :
    Option (Int × Int) :=
  match parse_date_basic env date with
  | .undefined => none
  | .success timestamp _ => some (timestamp, 0)
  | .failure => approxidate_str env date env.time_now error_ret

/-! ## Expiry dates and the overflow test (`date.c` lines 896-916, 1309-1324) -/

/-- The function `parse_expiry_date`: `*timestamp` afterwards and the return value;
`none` when the program has no defined behaviour on the input. The comparisons of
`strcmp` are on the C string the text holds. -/
def parse_expiry_date (env : Env) (date : List Char) : Option (Int × Int) :=
  if cstring date = "never".toList ∨ cstring date = "false".toList then some (0, 0)
  else if cstring date = "all".toList ∨ cstring date = "now".toList then some (LONG_MAX, 0)
  else approxidate_careful env date 0

/-- The function `date_overflows` on an `unsigned long` value `t`. The assignment to
`sys` narrows to the signed `time_t`; the comparison `t != sys` converts `sys` back to
`unsigned long`. -/
def date_overflows (t : Int) : Int :=
  if t = ULONG_MAX then 1
  else
    let sys := wrap64 t
    if t ≠ wrapU64 sys ∨ decide (t < 1) ≠ decide (sys < 1) then 1 else 0

/-! ## The header date (`date.c` lines 791-800) -/

/-- The function `date_string`: the text appended to the buffer. -/
def date_string (date offset : Int) : List Char :=
  let sign := if offset < 0 then '-' else '+'
  let offset := if offset < 0 then ineg offset else offset
  fmt_d date ++ ' ' :: sign :: (fmt_0d 2 (offset.tdiv 60) ++ fmt_0d 2 (offset.tmod 60))

/-! ## Theorems -/

/-! ### Machine integers -/

theorem wrap32_of_range {x : Int} (h1 : -2147483648 ≤ x) (h2 : x < 2147483648) :
    wrap32 x = x := by
  unfold wrap32; omega

theorem wrap64_of_range {x : Int} (h1 : -9223372036854775808 ≤ x)
    (h2 : x < 9223372036854775808) : wrap64 x = x := by
  unfold wrap64; omega

/-! ### The leap rule of the source and the civil calendar -/

theorem tdiv_of_nonneg (a : Int) (b : Int) (ha : 0 ≤ a) (hb : 0 ≤ b) : a.tdiv b = a / b :=
  Int.tdiv_eq_ediv ha hb

theorem tmod_of_nonneg (a : Int) (b : Int) (ha : 0 ≤ a) (hb : 0 ≤ b) : a.tmod b = a % b :=
  Int.tmod_eq_emod ha hb

theorem number_of_leap_days_of_nonneg (y : Int) (hy : 0 ≤ y) :
    number_of_leap_days y = y / 4 - y / 100 + y / 400 := by
  unfold number_of_leap_days
  rw [tdiv_of_nonneg y 4 hy (by decide), tdiv_of_nonneg y 100 hy (by decide),
    tdiv_of_nonneg y 400 hy (by decide)]

theorem is_leap_year_of_nonneg (y : Int) (hy : 0 ≤ y) :
    is_leap_year y = gregorianLeap y := by
  unfold is_leap_year gregorianLeap
  rw [tmod_of_nonneg y 4 hy (by decide), tmod_of_nonneg y 100 hy (by decide),
    tmod_of_nonneg y 400 hy (by decide)]
  by_cases h4 : y % 4 = 0 <;> by_cases h100 : y % 100 = 0 <;>
    by_cases h400 : y % 400 = 0 <;> simp [h4, h100, h400]

theorem daysInYear_eq (y : Int) :
    daysInYear y = 365 + ((y / 4 - y / 100 + y / 400) - ((y - 1) / 4 - (y - 1) / 100 + (y - 1) / 400)) := by
  unfold daysInYear gregorianLeap
  by_cases h4 : y % 4 = 0 <;> by_cases h100 : y % 100 = 0 <;>
    by_cases h400 : y % 400 = 0 <;> simp [h4, h100, h400] <;> omega

theorem daysInYear_ge (y : Int) : 365 ≤ daysInYear y := by
  unfold daysInYear; split <;> decide

theorem daysInYear_le (y : Int) : daysInYear y ≤ 366 := by
  unfold daysInYear; split <;> decide

/-- The sum of year lengths in closed form. -/
theorem yearSpan_closed (a : Int) (n : Nat) :
    yearSpan a n = 365 * n
      + (((a + n - 1) / 4 - (a + n - 1) / 100 + (a + n - 1) / 400)
        - ((a - 1) / 4 - (a - 1) / 100 + (a - 1) / 400)) := by
  induction n with
  | zero => simp [yearSpan]
  | succ k ih =>
    rw [yearSpan, ih, daysInYear_eq]
    have e : a + ((k + 1 : Nat) : Int) - 1 = a + (k : Int) := by push_cast; ring
    have e2 : a + (k : Int) - 1 = a + k - 1 := rfl
    rw [e]
    push_cast
    ring

theorem monthSpan_eq (y : Int) (k : Nat) (hk : k ≤ 11) :
    monthSpan y k = mdays.getD k 0 + (if 2 ≤ k ∧ gregorianLeap y = true then 1 else 0) := by
  interval_cases k <;> simp [monthSpan, daysInMonth, mdays] <;> split <;> rfl

theorem daysInMonth_le (y : Int) (m : Nat) : daysInMonth y m ≤ 31 := by
  unfold daysInMonth
  split <;> first | decide | (split <;> decide)

/-- The number of civil days in closed form. -/
theorem civilDays_closed (y : Int) (m : Nat) (d : Int) (hm1 : 1 ≤ m) (hm2 : m ≤ 12) :
    civilDays y m d = 365 * (y - 1970)
      + (((y - 1) / 4 - (y - 1) / 100 + (y - 1) / 400) - 477)
      + mdays.getD (m - 1) 0 + (if 2 ≤ m - 1 ∧ gregorianLeap y = true then 1 else 0)
      + (d - 1) := by
  unfold civilDays
  rw [monthSpan_eq y (m - 1) (by omega)]
  by_cases h : 1970 ≤ y
  · rw [if_pos h, yearSpan_closed]
    have e : (((y - 1970).toNat : Nat) : Int) = y - 1970 := Int.toNat_of_nonneg (by omega)
    rw [e]
    have e2 : (1970 : Int) + (y - 1970) - 1 = y - 1 := by ring
    rw [e2]
    norm_num
    ring
  · rw [if_neg h, yearSpan_closed]
    have e : (((1970 - y).toNat : Nat) : Int) = 1970 - y := Int.toNat_of_nonneg (by omega)
    rw [e]
    have e2 : y + (1970 - y) - 1 = 1969 := by ring
    rw [e2]
    norm_num
    ring

/-- The day count computed by `tm_to_time_t`, before any machine arithmetic. -/
theorem code_days_eq (y : Int) (m : Nat) (d : Int) (hy : 0 ≤ y) (hm1 : 1 ≤ m) (hm2 : m ≤ 12) :
    (y - 1970) * 365 + (number_of_leap_days y - number_of_leap_days 1970)
        + mdays.getD (m - 1) 0 + (d - 1)
        - (if is_before_leap_day_of_leap_year ((m : Int) - 1) y = true then 1 else 0)
      = civilDays y m d := by
  have hcase : (2 ≤ m - 1 ∧ ¬ ((m : Int) - 1 < 2)) ∨ (¬ (2 ≤ m - 1) ∧ (m : Int) - 1 < 2) := by
    omega
  rw [civilDays_closed y m d hm1 hm2, number_of_leap_days_of_nonneg y hy,
    number_of_leap_days_of_nonneg 1970 (by decide)]
  unfold is_before_leap_day_of_leap_year
  rw [is_leap_year_of_nonneg y hy]
  have hl := daysInYear_eq y
  unfold daysInYear at hl
  generalize mdays.getD (m - 1) 0 = M
  have h477 : (1970 : Int) / 4 - 1970 / 100 + 1970 / 400 = 477 := by decide
  rw [h477]
  by_cases hleap : gregorianLeap y = true
  · rw [if_pos hleap] at hl
    rcases hcase with ⟨hb, hlt⟩ | ⟨hb, hlt⟩
    · simp only [hleap, hlt, hb, decide_False, Bool.false_and, Bool.false_eq_true, if_false,
        and_self, if_true]
      linarith
    · simp only [hleap, hlt, hb, decide_True, Bool.and_self, if_true, false_and, if_false]
      linarith
  · rw [if_neg hleap] at hl
    simp only [hleap, Bool.and_false, Bool.false_eq_true, if_false, and_false]
    linarith

theorem mdays_getD_bounds (k : Nat) : 0 ≤ mdays.getD k 0 ∧ mdays.getD k 0 ≤ 334 := by
  by_cases hk : k ≤ 11
  · interval_cases k <;> simp [mdays]
  · have : mdays.length ≤ k := by simp [mdays]; omega
    rw [List.getD_eq_default _ _ this]
    decide

theorem leap_count_bounds (y : Int) (h1 : 0 ≤ y) (h2 : y ≤ 6000) :
    0 ≤ y / 4 - y / 100 + y / 400 ∧ y / 4 - y / 100 + y / 400 ≤ 1500 := by
  omega

/-- The last statement of `tm_to_time_t`: with a day count that is an `int` and
time-of-day fields whose `int` products stay in range, the `long` sum is exact. -/
theorem seconds_of_days (D h mi sec : Int)
    (hD1 : -2147483648 ≤ D) (hD2 : D ≤ 2147483647)
    (hh1 : 0 ≤ h) (hh2 : h ≤ 596523) (hmi1 : 0 ≤ mi) (hmi2 : mi ≤ 35791394)
    (hs1 : 0 ≤ sec) (hs2 : sec ≤ 2147483647) :
    ladd (ladd (ladd (lmul D (24 * 60 * 60)) (imul (imul h 60) 60)) (imul mi 60)) sec
      = 86400 * D + h * 3600 + mi * 60 + sec := by
  have f3 : lmul D (24 * 60 * 60) = D * 86400 := wrap64_of_range (by omega) (by omega)
  have f4 : imul h 60 = h * 60 := wrap32_of_range (by omega) (by omega)
  have f5 : imul (h * 60) 60 = h * 60 * 60 := wrap32_of_range (by omega) (by omega)
  have f6 : imul mi 60 = mi * 60 := wrap32_of_range (by omega) (by omega)
  have f7 : ladd (D * 86400) (h * 60 * 60) = D * 86400 + h * 60 * 60 :=
    wrap64_of_range (by omega) (by omega)
  have f8 : ladd (D * 86400 + h * 60 * 60) (mi * 60) = D * 86400 + h * 60 * 60 + mi * 60 :=
    wrap64_of_range (by omega) (by omega)
  have f9 : ladd (D * 86400 + h * 60 * 60 + mi * 60) sec
      = D * 86400 + h * 60 * 60 + mi * 60 + sec := wrap64_of_range (by omega) (by omega)
  rw [f3, f4, f5, f6, f7, f8, f9]
  ring

/-- The value of `tm_to_time_t` on every moment whose fields keep the `int`
computations of the source in range: the day field need not exist in the month. -/
theorem tm_to_time_t_in_range (tm : Tm) (y : Int) (m : Nat)
    (hY : tm.tm_year = y - 1900) (hM : tm.tm_mon = (m : Int) - 1)
    (hy1 : 1583 ≤ y) (hy2 : y ≤ 6000) (hm1 : 1 ≤ m) (hm2 : m ≤ 12)
    (hd1 : -1000 ≤ tm.tm_mday) (hd2 : tm.tm_mday ≤ 1000)
    (hh1 : 0 ≤ tm.tm_hour) (hh2 : tm.tm_hour ≤ 596523)
    (hmi1 : 0 ≤ tm.tm_min) (hmi2 : tm.tm_min ≤ 35791394)
    (hs1 : 0 ≤ tm.tm_sec) (hs2 : tm.tm_sec ≤ 2147483647) :
    tm_to_time_t tm = some (86400 * civilDays y m tm.tm_mday
      + tm.tm_hour * 3600 + tm.tm_min * 60 + tm.tm_sec) := by
  have hcd := code_days_eq y m tm.tm_mday (by omega) hm1 hm2
  have hmt : ((m : Int) - 1).toNat = m - 1 := by omega
  have hyear : iadd tm.tm_year 1900 = y := by
    have e : tm.tm_year + 1900 = y := by omega
    rw [iadd, e]; exact wrap32_of_range (by omega) (by omega)
  have hL := number_of_leap_days_of_nonneg y (by omega)
  have hLb := leap_count_bounds y (by omega) hy2
  rw [← hL] at hLb
  have hE : number_of_leap_days 1970 = 477 := by decide
  have hMb := mdays_getD_bounds (m - 1)
  rw [hE] at hcd
  unfold tm_to_time_t
  simp only [hyear, hM, hmt, hE]
  generalize number_of_leap_days y = L at hcd hLb
  generalize mdays.getD (m - 1) 0 = M at hcd hMb
  generalize civilDays y m tm.tm_mday = D at hcd
  have g1 : ¬ (y < YEAR_MIN) := by unfold YEAR_MIN; omega
  have g2 : ¬ ((m : Int) - 1 < 0 ∨ (m : Int) - 1 > 11) := by omega
  have g3 : ¬ (tm.tm_hour < 0 ∨ tm.tm_min < 0 ∨ tm.tm_sec < 0) := by omega
  rw [if_neg g1, if_neg g2, if_neg g3]
  have e1 : isub y 1970 = y - 1970 := wrap32_of_range (by omega) (by omega)
  have e2 : imul (y - 1970) 365 = (y - 1970) * 365 := wrap32_of_range (by omega) (by omega)
  have e3 : isub L 477 = L - 477 := wrap32_of_range (by omega) (by omega)
  have e4 : iadd ((y - 1970) * 365) (L - 477) = (y - 1970) * 365 + (L - 477) :=
    wrap32_of_range (by omega) (by omega)
  have e5 : iadd ((y - 1970) * 365 + (L - 477)) M = (y - 1970) * 365 + (L - 477) + M :=
    wrap32_of_range (by omega) (by omega)
  have e6 : isub tm.tm_mday 1 = tm.tm_mday - 1 := wrap32_of_range (by omega) (by omega)
  have e7 : iadd ((y - 1970) * 365 + (L - 477) + M) (tm.tm_mday - 1)
      = (y - 1970) * 365 + (L - 477) + M + (tm.tm_mday - 1) :=
    wrap32_of_range (by omega) (by omega)
  rw [e1, e2, e3, e4, e5, e6, e7]
  have e8 : (if is_before_leap_day_of_leap_year ((m : Int) - 1) y = true then
        isub ((y - 1970) * 365 + (L - 477) + M + (tm.tm_mday - 1)) 1
      else (y - 1970) * 365 + (L - 477) + M + (tm.tm_mday - 1)) = D := by
    rw [← hcd]
    split
    · exact wrap32_of_range (by omega) (by omega)
    · omega
  rw [e8]
  have hD1 : -242000 ≤ D := by rw [← hcd]; split <;> omega
  have hD2 : D ≤ 1485000 := by rw [← hcd]; split <;> omega
  clear hcd e8
  exact congrArg some (seconds_of_days D tm.tm_hour tm.tm_min tm.tm_sec (by omega) (by omega)
    hh1 hh2 hmi1 hmi2 hs1 hs2)

/-- The value of `tm_to_time_t` on every moment from 1583 on whose day count from
1970-01-01 fits an `int`: up to day 2147483647 (11 July 5881580). -/
theorem tm_to_time_t_of_days (tm : Tm) (y : Int) (m : Nat)
    (hY : tm.tm_year = y - 1900) (hM : tm.tm_mon = (m : Int) - 1)
    (hy1 : 1583 ≤ y) (hm1 : 1 ≤ m) (hm2 : m ≤ 12)
    (hDmax : civilDays y m tm.tm_mday ≤ 2147483647)
    (hd1 : 1 ≤ tm.tm_mday) (hd2 : tm.tm_mday ≤ 1000)
    (hh1 : 0 ≤ tm.tm_hour) (hh2 : tm.tm_hour ≤ 596523)
    (hmi1 : 0 ≤ tm.tm_min) (hmi2 : tm.tm_min ≤ 35791394)
    (hs1 : 0 ≤ tm.tm_sec) (hs2 : tm.tm_sec ≤ 2147483647) :
    tm_to_time_t tm = some (86400 * civilDays y m tm.tm_mday
      + tm.tm_hour * 3600 + tm.tm_min * 60 + tm.tm_sec) := by
  have hcd := code_days_eq y m tm.tm_mday (by omega) hm1 hm2
  have hmt : ((m : Int) - 1).toNat = m - 1 := by omega
  have hL := number_of_leap_days_of_nonneg y (by omega)
  have hE : number_of_leap_days 1970 = 477 := by decide
  have hMb := mdays_getD_bounds (m - 1)
  rw [hE] at hcd
  have hLb : 383 ≤ number_of_leap_days y := by rw [hL]; omega
  have hLm : 1970 ≤ y → 477 ≤ number_of_leap_days y := by rw [hL]; omega
  have hy2 : y ≤ 5885487 := by
    generalize number_of_leap_days y = L at hcd hLb hLm
    generalize mdays.getD (m - 1) 0 = M at hcd hMb
    generalize civilDays y m tm.tm_mday = D at hcd hDmax
    split at hcd <;> omega
  have hyear : iadd tm.tm_year 1900 = y := by
    have e : tm.tm_year + 1900 = y := by omega
    rw [iadd, e]; exact wrap32_of_range (by omega) (by omega)
  clear hL
  unfold tm_to_time_t
  simp only [hyear, hM, hmt, hE]
  generalize number_of_leap_days y = L at hcd hLb hLm
  generalize mdays.getD (m - 1) 0 = M at hcd hMb
  generalize civilDays y m tm.tm_mday = D at hcd hDmax
  have g1 : ¬ (y < YEAR_MIN) := by unfold YEAR_MIN; omega
  have g2 : ¬ ((m : Int) - 1 < 0 ∨ (m : Int) - 1 > 11) := by omega
  have g3 : ¬ (tm.tm_hour < 0 ∨ tm.tm_min < 0 ∨ tm.tm_sec < 0) := by omega
  rw [if_neg g1, if_neg g2, if_neg g3]
  have hD1 : -242000 ≤ D := by rw [← hcd]; split <;> omega
  have e8 : (if is_before_leap_day_of_leap_year ((m : Int) - 1) y = true then
        isub (iadd (iadd (iadd (imul (isub y 1970) 365) (isub L 477)) M) (isub tm.tm_mday 1)) 1
      else iadd (iadd (iadd (imul (isub y 1970) 365) (isub L 477)) M) (isub tm.tm_mday 1))
      = D := by
    unfold isub iadd imul wrap32
    split at hcd <;> rename_i hb
    · rw [if_pos hb]; omega
    · rw [if_neg hb]; omega
  rw [e8]
  clear hcd e8
  exact congrArg some (seconds_of_days D tm.tm_hour tm.tm_min tm.tm_sec (by omega) (by omega)
    hh1 hh2 hmi1 hmi2 hs1 hs2)

/-! ### `gmtime` inverts the civil day count -/

theorem yearSpan_nonneg (a : Int) (n : Nat) : 0 ≤ yearSpan a n := by
  induction n with
  | zero => simp [yearSpan]
  | succ k ih => rw [yearSpan]; have := daysInYear_ge (a + k); omega

theorem yearSpan_ge (a : Int) (n : Nat) : 365 * (n : Int) ≤ yearSpan a n := by
  induction n with
  | zero => simp [yearSpan]
  | succ k ih => rw [yearSpan]; have := daysInYear_ge (a + k); push_cast; omega

theorem yearSpan_succ_front (a : Int) (n : Nat) :
    yearSpan a (n + 1) = daysInYear a + yearSpan (a + 1) n := by
  induction n with
  | zero => simp [yearSpan]
  | succ k ih =>
    rw [yearSpan, ih, yearSpan]
    have e : a + ((k + 1 : Nat) : Int) = a + 1 + (k : Int) := by push_cast; ring
    rw [e]; ring

theorem yearForward_span (k : Nat) : ∀ (fuel : Nat) (a r : Int), k ≤ fuel → 0 ≤ r →
    r < daysInYear (a + k) → yearForward fuel a (yearSpan a k + r) = (a + k, r) := by
  induction k with
  | zero =>
    intro fuel a r _ h0 h1
    simp only [yearSpan, Nat.cast_zero, add_zero, zero_add] at h1 ⊢
    cases fuel with
    | zero => rfl
    | succ f => rw [yearForward, if_pos h1]
  | succ k ih =>
    intro fuel a r hf h0 h1
    cases fuel with
    | zero => omega
    | succ f =>
      have hs := yearSpan_nonneg (a + 1) k
      have hge : ¬ (yearSpan a (k + 1) + r < daysInYear a) := by
        rw [yearSpan_succ_front]; omega
      rw [yearForward, if_neg hge]
      have e : yearSpan a (k + 1) + r - daysInYear a = yearSpan (a + 1) k + r := by
        rw [yearSpan_succ_front]; ring
      have e2 : a + ((k + 1 : Nat) : Int) = a + 1 + (k : Int) := by push_cast; ring
      rw [e, e2]
      rw [e2] at h1
      exact ih f (a + 1) r (by omega) h0 h1

theorem yearBackward_span (k : Nat) : ∀ (fuel : Nat) (a r : Int), k ≤ fuel → 0 ≤ r →
    r < daysInYear (a - k) → yearBackward fuel a (r - yearSpan (a - k) k) = (a - k, r) := by
  induction k with
  | zero =>
    intro fuel a r _ h0 _
    simp only [yearSpan, Nat.cast_zero, sub_zero]
    cases fuel with
    | zero => rfl
    | succ f => rw [yearBackward, if_pos h0]
  | succ k ih =>
    intro fuel a r hf h0 h1
    cases fuel with
    | zero => omega
    | succ f =>
      have hs := yearSpan_nonneg (a - ((k + 1 : Nat) : Int) + 1) k
      have hneg : ¬ (0 ≤ r - yearSpan (a - ((k + 1 : Nat) : Int)) (k + 1)) := by
        rw [yearSpan_succ_front]; omega
      rw [yearBackward, if_neg hneg]
      have e2 : a - ((k + 1 : Nat) : Int) = a - 1 - (k : Int) := by push_cast; ring
      have e3 : a - 1 - (k : Int) + (k : Int) = a - 1 := by ring
      have e : r - yearSpan (a - 1 - (k : Int)) (k + 1) + daysInYear (a - 1)
          = r - yearSpan (a - 1 - (k : Int)) k := by
        rw [yearSpan, e3]; ring
      rw [e2, e]
      rw [e2] at h1
      exact ih f (a - 1) r (by omega) h0 h1

theorem daysInMonth_nonneg (y : Int) (m : Nat) : 0 ≤ daysInMonth y m := by
  unfold daysInMonth
  split <;> first | decide | (split <;> decide)

theorem monthSpan_le_add (y : Int) (a j : Nat) : monthSpan y a ≤ monthSpan y (a + j) := by
  induction j with
  | zero => simp
  | succ k ih =>
    rw [← Nat.add_assoc, monthSpan]
    have := daysInMonth_nonneg y (a + k + 1)
    omega

theorem monthForward_from (y : Int) (j : Nat) : ∀ (fuel m0 : Nat) (r : Int), j ≤ fuel →
    0 ≤ r → r < daysInMonth y (m0 + 1 + j) →
    monthForward fuel y (m0 + 1) (monthSpan y (m0 + j) - monthSpan y m0 + r)
      = (m0 + 1 + j, r) := by
  induction j with
  | zero =>
    intro fuel m0 r _ h0 h1
    simp only [Nat.add_zero, sub_self, zero_add] at h1 ⊢
    cases fuel with
    | zero => rfl
    | succ f => rw [monthForward, if_pos h1]
  | succ k ih =>
    intro fuel m0 r hf h0 h1
    cases fuel with
    | zero => omega
    | succ f =>
      have hmono := monthSpan_le_add y (m0 + 1) k
      have hs : monthSpan y (m0 + 1) = monthSpan y m0 + daysInMonth y (m0 + 1) := rfl
      have e1 : m0 + (k + 1) = m0 + 1 + k := by omega
      have e2 : m0 + 1 + (k + 1) = m0 + 1 + 1 + k := by omega
      rw [e1]
      rw [e2] at h1
      have hge : ¬ (monthSpan y (m0 + 1 + k) - monthSpan y m0 + r < daysInMonth y (m0 + 1)) := by
        omega
      rw [monthForward, if_neg hge]
      have e : monthSpan y (m0 + 1 + k) - monthSpan y m0 + r - daysInMonth y (m0 + 1)
          = monthSpan y (m0 + 1 + k) - monthSpan y (m0 + 1) + r := by
        rw [hs]; ring
      rw [e, e2]
      exact ih f (m0 + 1) r (by omega) h0 h1

theorem monthForward_span (y : Int) (m : Nat) (d : Int) (hv : validDate y m d) :
    monthForward 11 y 1 (monthSpan y (m - 1) + (d - 1)) = (m, d - 1) := by
  obtain ⟨h1, h2, h3, h4⟩ := hv
  have h := monthForward_from y (m - 1) 11 0 (d - 1) (by omega) (by omega)
    (by rw [show 0 + 1 + (m - 1) = m by omega]; omega)
  rw [show 0 + 1 + (m - 1) = m by omega] at h
  simpa [monthSpan] using h

theorem dayOfYear_bounds (y : Int) (m : Nat) (d : Int) (hv : validDate y m d) :
    0 ≤ monthSpan y (m - 1) + (d - 1) ∧ monthSpan y (m - 1) + (d - 1) < daysInYear y := by
  obtain ⟨h1, h2, h3, h4⟩ := hv
  rw [monthSpan_eq y (m - 1) (by omega)]
  unfold daysInYear
  by_cases hl : gregorianLeap y = true <;>
    interval_cases m <;>
    simp only [daysInMonth, hl, if_true, if_false, Bool.false_eq_true] at h4 <;>
    simp [mdays, hl] <;> omega

/-- The walk over years of `gmtime` finds the year and the day of the year. -/
theorem year_walk_civilDays (y : Int) (m : Nat) (d : Int) (hv : validDate y m d) :
    (if 0 ≤ civilDays y m d then yearForward (civilDays y m d).natAbs 1970 (civilDays y m d)
      else yearBackward (civilDays y m d).natAbs 1970 (civilDays y m d))
      = (y, monthSpan y (m - 1) + (d - 1)) := by
  obtain ⟨hr0, hr1⟩ := dayOfYear_bounds y m d hv
  unfold civilDays
  simp only [add_assoc]
  generalize monthSpan y (m - 1) + (d - 1) = r at hr0 hr1
  by_cases h : 1970 ≤ y
  · rw [if_pos h]
    have e : (((y - 1970).toNat : Nat) : Int) = y - 1970 := Int.toNat_of_nonneg (by omega)
    have hy : (1970 : Int) + ((y - 1970).toNat : Nat) = y := by rw [e]; ring
    have hs := yearSpan_ge 1970 (y - 1970).toNat
    generalize (y - 1970).toNat = k at e hy hs
    have hpos : 0 ≤ yearSpan 1970 k + r := by omega
    rw [if_pos hpos]
    have hfuel : k ≤ (yearSpan 1970 k + r).natAbs := by omega
    rw [yearForward_span k _ 1970 r hfuel hr0 (by rw [hy]; exact hr1), hy]
  · rw [if_neg h]
    have e : (((1970 - y).toNat : Nat) : Int) = 1970 - y := Int.toNat_of_nonneg (by omega)
    have hy : (1970 : Int) - ((1970 - y).toNat : Nat) = y := by rw [e]; ring
    have hs := yearSpan_ge (y + 1) ((1970 - y).toNat - 1)
    have hk : (1970 - y).toNat = ((1970 - y).toNat - 1) + 1 := by omega
    have hf : yearSpan y (1970 - y).toNat
        = daysInYear y + yearSpan (y + 1) ((1970 - y).toNat - 1) := by
      rw [hk, yearSpan_succ_front]; simp
    generalize (1970 - y).toNat = k at e hy hs hf hk
    generalize yearSpan (y + 1) (k - 1) = S at hs hf
    have hneg : ¬ (0 ≤ -yearSpan y k + r) := by omega
    rw [if_neg hneg]
    have hfuel : k ≤ (-yearSpan y k + r).natAbs := by omega
    have h2 := yearBackward_span k (-yearSpan y k + r).natAbs 1970 r hfuel hr0
      (by rw [hy]; exact hr1)
    rw [hy] at h2
    rw [← h2]
    congr 1
    ring

/-- On a valid civil date-time `gmtime` returns its fields. -/
theorem gmtime_civil (y : Int) (m : Nat) (d h mi s : Int) (hv : validDate y m d)
    (hy1 : -2000000000 ≤ y) (hy2 : y ≤ 2000000000)
    (hh1 : 0 ≤ h) (hh2 : h < 24) (hmi1 : 0 ≤ mi) (hmi2 : mi < 60)
    (hs1 : 0 ≤ s) (hs2 : s < 60) :
    gmtime (86400 * civilDays y m d + h * 3600 + mi * 60 + s)
      = some { tm_sec := s, tm_min := mi, tm_hour := h, tm_mday := d,
               tm_mon := (m : Int) - 1, tm_year := y - 1900,
               tm_wday := (4 + civilDays y m d) % 7,
               tm_yday := monthSpan y (m - 1) + (d - 1), tm_isdst := 0 } := by
  have hw := year_walk_civilDays y m d hv
  have hmf := monthForward_span y m d hv
  generalize civilDays y m d = D at hw
  have hdays : (86400 * D + h * 3600 + mi * 60 + s) / 86400 = D := by omega
  have hrem : (86400 * D + h * 3600 + mi * 60 + s) % 86400 = h * 3600 + mi * 60 + s := by omega
  unfold gmtime
  simp only [hdays, hrem, hw, hmf]
  have hwr : wrap32 (y - 1900) = y - 1900 := wrap32_of_range (by omega) (by omega)
  rw [if_neg (by rw [hwr]; simp)]
  have a1 : (h * 3600 + mi * 60 + s) % 60 = s := by omega
  have a2 : (h * 3600 + mi * 60 + s) / 60 % 60 = mi := by omega
  have a3 : (h * 3600 + mi * 60 + s) / 3600 = h := by omega
  rw [a1, a2, a3]
  simp

theorem gm_time_t_zero (t : Int) (h1 : -9223372036854775808 ≤ t)
    (h2 : t < 9223372036854775808) : gm_time_t t 0 = t := by
  have e : gm_time_t t 0 = wrap64 (t + 0) := by
    unfold gm_time_t
    rfl
  rw [e, add_zero]
  exact wrap64_of_range h1 h2

theorem civilDays_bounds (y : Int) (m : Nat) (d : Int) (hv : validDate y m d)
    (hy1 : 1583 ≤ y) (hy2 : y ≤ 6000) :
    -141349 ≤ civilDays y m d ∧ civilDays y m d ≤ 1472300 := by
  obtain ⟨hr0, hr1⟩ := dayOfYear_bounds y m d hv
  have hdy := daysInYear_le y
  have hc := civilDays_closed y m d hv.1 hv.2.1
  have hms := monthSpan_eq y (m - 1) (by have := hv.2.1; omega)
  generalize (if 2 ≤ m - 1 ∧ gregorianLeap y = true then (1 : Int) else 0) = I at hc hms
  generalize mdays.getD (m - 1) 0 = M0 at hc hms
  have hb : 383 ≤ (y - 1) / 4 - (y - 1) / 100 + (y - 1) / 400
      ∧ (y - 1) / 4 - (y - 1) / 100 + (y - 1) / 400 ≤ 1455 := by omega
  generalize (y - 1) / 4 - (y - 1) / 100 + (y - 1) / 400 = L at hc hb
  generalize monthSpan y (m - 1) = M at hc hr0 hr1 hms
  omega

/-- C1 (amended): for every calendar moment with year >= 1583, month 1-12, a day that
exists in that month, a civil day count D from 1970-01-01 of at most 2147483647 (the
dates up to 11 July 5881580: the count is held in an `int`), hour in 0..596523, minute
in 0..35791394 (the ranges in which the `int` products `tm_hour * 60*60` and
`tm_min * 60` stay exact) and second >= 0 in an `int`, `tm_to_time_t` succeeds and
returns `86400 * D + hour*3600 + minute*60 + second`. -/
theorem tm_to_time_t_civil_seconds (tm : Tm)
    (hy1 : 1583 ≤ tm.tm_year + 1900)
    (hm1 : 0 ≤ tm.tm_mon) (hm2 : tm.tm_mon ≤ 11)
    (hd : validDate (tm.tm_year + 1900) (tm.tm_mon.toNat + 1) tm.tm_mday)
    (hD : civilDays (tm.tm_year + 1900) (tm.tm_mon.toNat + 1) tm.tm_mday ≤ 2147483647)
    (hh1 : 0 ≤ tm.tm_hour) (hh2 : tm.tm_hour ≤ 596523)
    (hmi1 : 0 ≤ tm.tm_min) (hmi2 : tm.tm_min ≤ 35791394)
    (hs1 : 0 ≤ tm.tm_sec) (hs2 : tm.tm_sec ≤ 2147483647) :
    tm_to_time_t tm = some (86400 * civilDays (tm.tm_year + 1900) (tm.tm_mon.toNat + 1) tm.tm_mday
      + tm.tm_hour * 3600 + tm.tm_min * 60 + tm.tm_sec) := by
  have hdm := daysInMonth_le (tm.tm_year + 1900) (tm.tm_mon.toNat + 1)
  obtain ⟨_, _, hd1, hd2⟩ := hd
  exact tm_to_time_t_of_days tm (tm.tm_year + 1900) (tm.tm_mon.toNat + 1) (by ring)
    (by push_cast; omega) hy1 (by omega) (by omega) hD (by omega) (by omega)
    hh1 hh2 hmi1 hmi2 hs1 hs2

/-- C1 (witness): the amended statement at 2024-03-05 10:00:00 and at the last moment
it covers, 5881580-07-11 596523:35791394:2147483647. -/
theorem tm_to_time_t_civil_seconds_witness :
    tm_to_time_t (civilTm 2024 3 5 10 0 0)
      = some (86400 * civilDays 2024 3 5 + 10 * 3600 + 0 * 60 + 0)
    ∧ tm_to_time_t (civilTm 5881580 7 11 596523 35791394 2147483647)
      = some (86400 * civilDays 5881580 7 11 + 596523 * 3600 + 35791394 * 60 + 2147483647) :=
  ⟨tm_to_time_t_civil_seconds (civilTm 2024 3 5 10 0 0) (by decide) (by decide) (by decide)
    (by decide) (by show civilDays 2024 3 5 ≤ 2147483647; rw [civilDays_closed 2024 3 5 (by decide) (by decide)]; decide)
    (by decide) (by decide) (by decide) (by decide) (by decide) (by decide),
   tm_to_time_t_civil_seconds (civilTm 5881580 7 11 596523 35791394 2147483647) (by decide)
    (by decide) (by decide) (by decide)
    (by show civilDays 5881580 7 11 ≤ 2147483647; rw [civilDays_closed 5881580 7 11 (by decide) (by decide)]; decide)
    (by decide) (by decide) (by decide) (by decide) (by decide) (by decide)⟩

/-- C1 (counterexample): 2024-03-05 with hour 596524 is a valid date from 1583 on with
hour, minute, second >= 0; the `int` product `tm_hour * 60*60` leaves the range of
`int` and `tm_to_time_t` returns -437884096, while the civil day count 19787 gives
3857083200 seconds.  At 5881580-07-12 00:00:00, the first date whose day count
2147483648 does not fit an `int`, `tm_to_time_t` returns -185542587187200. -/
theorem tm_to_time_t_hour_596524 :
    ((1583 ≤ (civilTm 2024 3 5 596524 0 0).tm_year + 1900 ∧ validDate 2024 3 5)
      ∧ tm_to_time_t (civilTm 2024 3 5 596524 0 0) = some (-437884096)
      ∧ 86400 * civilDays 2024 3 5 + 596524 * 3600 + 0 * 60 + 0 = 3857083200)
    ∧ ((1583 ≤ (civilTm 5881580 7 12 0 0 0).tm_year + 1900 ∧ validDate 5881580 7 12)
      ∧ tm_to_time_t (civilTm 5881580 7 12 0 0 0) = some (-185542587187200)
      ∧ 86400 * civilDays 5881580 7 12 + 0 * 3600 + 0 * 60 + 0 = 185542587187200) := by
  refine ⟨⟨⟨by decide, by decide⟩, by decide, ?_⟩, ⟨⟨by decide, by decide⟩, by decide, ?_⟩⟩
  · rw [civilDays_closed 2024 3 5 (by decide) (by decide)]
    decide
  · rw [civilDays_closed 5881580 7 12 (by decide) (by decide)]
    decide

/-- Converting a valid date-time of the years 1583..6000 and breaking the result down
again with `time_to_tm` at offset code 0 returns every field. -/
theorem time_to_tm_tm_to_time_t (y : Int) (m : Nat) (d h mi s : Int) (hv : validDate y m d)
    (hy1 : 1583 ≤ y) (hy2 : y ≤ 6000)
    (hh1 : 0 ≤ h) (hh2 : h < 24) (hmi1 : 0 ≤ mi) (hmi2 : mi < 60)
    (hs1 : 0 ≤ s) (hs2 : s < 60) :
    ∃ t, tm_to_time_t (civilTm y m d h mi s) = some t
      ∧ t = 86400 * civilDays y m d + h * 3600 + mi * 60 + s
      ∧ time_to_tm t 0 = some { civilTm y m d h mi s with
          tm_wday := (4 + civilDays y m d) % 7,
          tm_yday := monthSpan y (m - 1) + (d - 1) } := by
  have hdm := daysInMonth_le y m
  have hb := civilDays_bounds y m d hv hy1 hy2
  obtain ⟨hv1, hv2, hv3, hv4⟩ := hv
  have h1 := tm_to_time_t_in_range (civilTm y m d h mi s) y m rfl rfl hy1 hy2 hv1 hv2
    (by show -1000 ≤ d; omega) (by show d ≤ 1000; omega) hh1 (by show h ≤ 596523; omega)
    hmi1 (by show mi ≤ 35791394; omega) hs1 (by show s ≤ 2147483647; omega)
  refine ⟨_, h1, rfl, ?_⟩
  show time_to_tm (86400 * civilDays y m d + h * 3600 + mi * 60 + s) 0 = _
  unfold time_to_tm
  rw [gm_time_t_zero _ (by omega) (by omega)]
  exact gmtime_civil y m d h mi s ⟨hv1, hv2, hv3, hv4⟩ (by omega) (by omega) hh1 hh2 hmi1 hmi2
    hs1 hs2

/-- C2: for every year Y in [1583, 2999] and every valid (month, day) of that year,
converting (Y, month, day, 00:00:00) with `tm_to_time_t` succeeds, and breaking the
timestamp down again with `time_to_tm` (offset code 0, i.e. UTC) reproduces
(Y, month, day); hence two different valid dates never have the same timestamp. -/
theorem tm_to_time_t_time_to_tm_roundtrip :
    (∀ (Y : Int) (m : Nat) (d : Int), 1583 ≤ Y → Y ≤ 2999 → validDate Y m d →
      ∃ t tm, tm_to_time_t (civilTm Y m d 0 0 0) = some t ∧ time_to_tm t 0 = some tm
        ∧ tm.tm_year + 1900 = Y ∧ tm.tm_mon + 1 = (m : Int) ∧ tm.tm_mday = d)
    ∧ (∀ (Y : Int) (m : Nat) (d : Int) (Y' : Int) (m' : Nat) (d' : Int),
        1583 ≤ Y → Y ≤ 2999 → validDate Y m d →
        1583 ≤ Y' → Y' ≤ 2999 → validDate Y' m' d' →
        tm_to_time_t (civilTm Y m d 0 0 0) = tm_to_time_t (civilTm Y' m' d' 0 0 0) →
        Y = Y' ∧ m = m' ∧ d = d') := by
  constructor
  · intro Y m d h1 h2 hv
    obtain ⟨t, ht, _, htm⟩ := time_to_tm_tm_to_time_t Y m d 0 0 0 hv h1 (by omega)
      (by decide) (by decide) (by decide) (by decide) (by decide) (by decide)
    refine ⟨t, _, ht, htm, ?_, ?_, ?_⟩
    · show Y - 1900 + 1900 = Y
      ring
    · show (m : Int) - 1 + 1 = m
      ring
    · rfl
  · intro Y m d Y' m' d' h1 h2 hv h1' h2' hv' heq
    obtain ⟨t, ht, _, htm⟩ := time_to_tm_tm_to_time_t Y m d 0 0 0 hv h1 (by omega)
      (by decide) (by decide) (by decide) (by decide) (by decide) (by decide)
    obtain ⟨t', ht', _, htm'⟩ := time_to_tm_tm_to_time_t Y' m' d' 0 0 0 hv' h1' (by omega)
      (by decide) (by decide) (by decide) (by decide) (by decide) (by decide)
    rw [ht, ht'] at heq
    have e : t = t' := Option.some.inj heq
    rw [e, htm'] at htm
    have e2 := Option.some.inj htm
    have ey : Y' - 1900 = Y - 1900 := congrArg Tm.tm_year e2
    have em : (m' : Int) - 1 = (m : Int) - 1 := congrArg Tm.tm_mon e2
    have ed : d' = d := congrArg Tm.tm_mday e2
    refine ⟨by omega, by omega, ed.symm⟩

/-- C2 (witness): the round trip at the leap day 2000-02-29. -/
theorem tm_to_time_t_time_to_tm_roundtrip_witness :
    ∃ t tm, tm_to_time_t (civilTm 2000 2 29 0 0 0) = some t ∧ time_to_tm t 0 = some tm
      ∧ tm.tm_year + 1900 = 2000 ∧ tm.tm_mon + 1 = ((2 : Nat) : Int) ∧ tm.tm_mday = 29 :=
  tm_to_time_t_time_to_tm_roundtrip.1 2000 2 29 (by decide) (by decide) (by decide)

/-! ### Date order resolution -/

theorem not_after_10_days_true_iff (n1 n2 n3 : Int) (order : DateFormat) (now_tm : Option Tm) :
    not_after_10_days n1 n2 n3 order now_tm = some true
      ↔ passesReferenceTest n1 n2 n3 order now_tm := by
  unfold not_after_10_days passesReferenceTest
  cases now_tm with
  | none => simp
  | some now =>
    cases hd : days_between now (init_and_fill_tm n1 n2 n3 order).2 with
    | none => simp [hd]
    | some d => simp [hd]

theorem could_be_a_month_false_of_gt (n : Int) (h : n > 70) : could_be_a_month n = false := by
  unfold could_be_a_month
  have : ¬ (n < 13) := by omega
  simp [this]

theorem could_be_a_day_false_of_gt (n : Int) (h : n > 70) : could_be_a_day n = false := by
  unfold could_be_a_day
  have : ¬ (n < 32) := by omega
  simp [this]

/-- The year-month-day case of the year-first branch. -/
theorem get_date_order_ymd (n1 n2 n3 : Int) (separator : Char) (now_tm : Option Tm)
    (h : n1 > 70) (h2 : 0 < n2 ∧ n2 < 13) (h3 : 0 < n3 ∧ n3 < 32) :
    get_date_order n1 n2 n3 separator now_tm = some DateFormat.YYYY_MM_DD := by
  unfold get_date_order
  have c : n1 > 70 ∧ could_be_a_month n2 = true ∧ could_be_a_day n3 = true := by
    refine ⟨h, ?_, ?_⟩
    · simp [could_be_a_month, h2.1, h2.2]
    · simp [could_be_a_day, h3.1, h3.2]
  rw [if_pos c]

/-- C6: for every n1 > 70, every separator and every reference moment (even an absent
one), `get_date_order` returns YYYY_MM_DD when n2 is in 1..12 and n3 is in 1..31;
otherwise YYYY_DD_MM when n2 is in 1..31 and n3 is in 1..12; otherwise INVALID. The
reference moment is not consulted. -/
theorem get_date_order_year_first (n1 n2 n3 : Int) (separator : Char) (now_tm : Option Tm)
    (h : n1 > 70) :
    get_date_order n1 n2 n3 separator now_tm
      = some (if (0 < n2 ∧ n2 < 13) ∧ (0 < n3 ∧ n3 < 32) then DateFormat.YYYY_MM_DD
              else if (0 < n2 ∧ n2 < 32) ∧ (0 < n3 ∧ n3 < 13) then DateFormat.YYYY_DD_MM
              else DateFormat.INVALID) := by
  unfold get_date_order
  simp only [could_be_a_month_false_of_gt n1 h, could_be_a_day_false_of_gt n1 h]
  simp only [could_be_a_month, could_be_a_day, Bool.and_eq_true, decide_eq_true_eq, h, true_and,
    Bool.false_eq_true, false_and, and_false, if_false]
  split
  · rfl
  · split <;> rfl

/-- C6 (witness): 2024-03-05 read year first, with no reference moment at all. -/
theorem get_date_order_year_first_witness :
    get_date_order 2024 3 5 '-' none
      = some (if (0 < (3 : Int) ∧ (3 : Int) < 13) ∧ (0 < (5 : Int) ∧ (5 : Int) < 32)
              then DateFormat.YYYY_MM_DD
              else if (0 < (3 : Int) ∧ (3 : Int) < 32) ∧ (0 < (5 : Int) ∧ (5 : Int) < 13)
              then DateFormat.YYYY_DD_MM
              else DateFormat.INVALID) :=
  get_date_order_year_first 2024 3 5 '-' none (by decide)


theorem not_after_10_days_false_iff (n1 n2 n3 : Int) (order : DateFormat) (now : Tm) :
    not_after_10_days n1 n2 n3 order (some now) = some false
      ↔ ∃ d, days_between now (init_and_fill_tm n1 n2 n3 order).2 = some d ∧ 10 < d := by
  unfold not_after_10_days
  cases hd : days_between now (init_and_fill_tm n1 n2 n3 order).2 with
  | none => simp [hd]
  | some d => simp [hd]

/-- C4 (counterexample): the triple 01/02/03 against the reference 2003-06-15 is not
INVALID: the month-day-year reading, 2 January 2003, lies 164 days before the
reference and is accepted, although it is not within 10 days of it. -/
theorem get_date_order_accepts_past_date :
    get_date_order 1 2 3 '/' (some (civilTm 2003 6 15 0 0 0)) = some DateFormat.MM_DD_YYYY
      ∧ days_between (civilTm 2003 6 15 0 0 0) (init_and_fill_tm 1 2 3 DateFormat.MM_DD_YYYY).2
          = some (-164)
      ∧ ¬ (|(-164 : Int)| ≤ 10) := by
  refine ⟨by decide, by decide, by decide⟩

/-- C4 (amended): `get_date_order` returns DD_MM_YYYY or MM_DD_YYYY only when the fields
of that reading are in range and `days_between(reference, candidate)` is at most 10,
that is, when the candidate lies no more than 10 days after the reference moment; a
candidate any number of days before the reference passes. When n1 <= 70 and no
reading qualifies in this sense (every reading is out of range or more than 10 days
after the reference), the result is INVALID. The triple 01/02/03 against the
reference 2003-06-15 resolves to MM_DD_YYYY. -/
theorem get_date_order_reference_test :
    (∀ (n1 n2 n3 : Int) (separator : Char) (now_tm : Option Tm),
      (get_date_order n1 n2 n3 separator now_tm = some DateFormat.DD_MM_YYYY →
        dayMonthYearInRange n1 n2 n3
          ∧ passesReferenceTest n1 n2 n3 DateFormat.DD_MM_YYYY now_tm)
      ∧ (get_date_order n1 n2 n3 separator now_tm = some DateFormat.MM_DD_YYYY →
        monthDayYearInRange n1 n2 n3
          ∧ passesReferenceTest n1 n2 n3 DateFormat.MM_DD_YYYY now_tm))
    ∧ (∀ (n1 n2 n3 : Int) (separator : Char) (now : Tm), n1 ≤ 70 →
        (monthDayYearInRange n1 n2 n3 → ∃ d,
          days_between now (init_and_fill_tm n1 n2 n3 DateFormat.MM_DD_YYYY).2 = some d
            ∧ 10 < d) →
        (dayMonthYearInRange n1 n2 n3 → ∃ d,
          days_between now (init_and_fill_tm n1 n2 n3 DateFormat.DD_MM_YYYY).2 = some d
            ∧ 10 < d) →
        get_date_order n1 n2 n3 separator (some now) = some DateFormat.INVALID)
    ∧ get_date_order 1 2 3 '/' (some (civilTm 2003 6 15 0 0 0))
        = some DateFormat.MM_DD_YYYY := by
  refine ⟨?_, ?_, by decide⟩
  · intro n1 n2 n3 separator now_tm
    unfold get_date_order dayMonthYearInRange monthDayYearInRange
    simp only [← not_after_10_days_true_iff]
    generalize not_after_10_days n1 n2 n3 DateFormat.MM_DD_YYYY now_tm = rM
    generalize not_after_10_days n1 n2 n3 DateFormat.DD_MM_YYYY now_tm = rD
    by_cases c1 : n1 > 70 ∧ could_be_a_month n2 = true ∧ could_be_a_day n3 = true
    · rw [if_pos c1]; simp
    · by_cases c2 : n1 > 70 ∧ could_be_a_day n2 = true ∧ could_be_a_month n3 = true
      · rw [if_neg c1, if_pos c2]; simp
      · rw [if_neg c1, if_neg c2]
        clear c1 c2
        generalize could_be_a_month n1 = a
        generalize could_be_a_day n2 = b
        generalize could_be_a_year n3 = c
        generalize could_be_a_day n1 = d
        generalize could_be_a_month n2 = e
        by_cases cs : separator = '.'
        · simp only [cs, ne_eq, not_true_eq_false, true_and, false_and, if_false]
          revert a b c d e rM rD
          decide
        · simp only [cs, ne_eq, not_false_eq_true, true_and, false_and, if_false]
          revert a b c d e rM rD
          decide
  · intro n1 n2 n3 separator now h70 hM hD
    unfold monthDayYearInRange at hM
    unfold dayMonthYearInRange at hD
    rw [← not_after_10_days_false_iff] at hM hD
    unfold get_date_order
    have c1 : ¬ (n1 > 70 ∧ could_be_a_month n2 = true ∧ could_be_a_day n3 = true) := by omega
    have c2 : ¬ (n1 > 70 ∧ could_be_a_day n2 = true ∧ could_be_a_month n3 = true) := by omega
    rw [if_neg c1, if_neg c2]
    clear c1 c2
    revert hM hD
    generalize not_after_10_days n1 n2 n3 DateFormat.MM_DD_YYYY (some now) = rM
    generalize not_after_10_days n1 n2 n3 DateFormat.DD_MM_YYYY (some now) = rD
    generalize could_be_a_month n1 = a
    generalize could_be_a_day n2 = b
    generalize could_be_a_year n3 = c
    generalize could_be_a_day n1 = d
    generalize could_be_a_month n2 = e
    by_cases cs : separator = '.'
    · simp only [cs, ne_eq, not_true_eq_false, true_and, false_and, if_false]
      revert a b c d e rM rD
      decide
    · simp only [cs, ne_eq, not_false_eq_true, true_and, false_and, if_false]
      revert a b c d e rM rD
      decide

/-- C4 (witness): the amended statement at 01/02/03: against 2003-06-15 the
month-day-year result comes with an in-range, passing reading; against 2002-06-15
with separator `.` both readings lie more than 10 days ahead and the result is
INVALID. -/
theorem get_date_order_reference_test_witness :
    (monthDayYearInRange 1 2 3
      ∧ passesReferenceTest 1 2 3 DateFormat.MM_DD_YYYY (some (civilTm 2003 6 15 0 0 0)))
    ∧ get_date_order 1 2 3 '.' (some (civilTm 2002 6 15 0 0 0)) = some DateFormat.INVALID :=
  ⟨(get_date_order_reference_test.1 1 2 3 '/' (some (civilTm 2003 6 15 0 0 0))).2 (by decide),
   get_date_order_reference_test.2.1 1 2 3 '.' (civilTm 2002 6 15 0 0 0) (by decide)
     (fun _ => ⟨201, by decide, by decide⟩) (fun _ => ⟨231, by decide, by decide⟩)⟩

/-- C5: for every triple with n1 <= 70 whose month-day-year reading and day-month-year
reading are both accepted candidates (fields in range and passing the reference-date
test), `get_date_order` returns MM_DD_YYYY when the separator is `/` or `-` and
DD_MM_YYYY when the separator is `.`. The triple 01/02/03 with reference 2003-01-15
resolves to MM_DD_YYYY, which `fill_date_in_tm` stores as 2 January 2003. -/
theorem get_date_order_precedence :
    (∀ (n1 n2 n3 : Int) (separator : Char) (now_tm : Option Tm), n1 ≤ 70 →
      monthDayYearInRange n1 n2 n3 →
      passesReferenceTest n1 n2 n3 DateFormat.MM_DD_YYYY now_tm →
      dayMonthYearInRange n1 n2 n3 →
      passesReferenceTest n1 n2 n3 DateFormat.DD_MM_YYYY now_tm →
      (separator = '/' ∨ separator = '-' →
        get_date_order n1 n2 n3 separator now_tm = some DateFormat.MM_DD_YYYY)
      ∧ (separator = '.' →
        get_date_order n1 n2 n3 separator now_tm = some DateFormat.DD_MM_YYYY))
    ∧ get_date_order 1 2 3 '/' (some (civilTm 2003 1 15 0 0 0)) = some DateFormat.MM_DD_YYYY
    ∧ (init_and_fill_tm 1 2 3 DateFormat.MM_DD_YYYY).2
        = { civilTm 2003 1 2 0 0 0 with tm_isdst := -1 } := by
  refine ⟨?_, by decide, by decide⟩
  intro n1 n2 n3 separator now_tm h70 hM hMa hD hDa
  rw [← not_after_10_days_true_iff] at hMa hDa
  unfold monthDayYearInRange at hM
  unfold dayMonthYearInRange at hD
  have c1 : ¬ (n1 > 70 ∧ could_be_a_month n2 = true ∧ could_be_a_day n3 = true) := by omega
  have c2 : ¬ (n1 > 70 ∧ could_be_a_day n2 = true ∧ could_be_a_month n3 = true) := by omega
  unfold get_date_order
  rw [if_neg c1, if_neg c2]
  constructor
  · intro hs
    have hne : separator ≠ '.' := by
      rcases hs with h | h <;> rw [h] <;> decide
    rw [if_pos ⟨hne, hM⟩, hMa]
  · intro hs
    have hne : ¬ (separator ≠ '.' ∧ could_be_a_month n1 = true ∧ could_be_a_day n2 = true
        ∧ could_be_a_year n3 = true) := fun h => h.1 hs
    rw [if_neg hne, if_pos hD, hDa]

/-- C5 (witness): 01/02/03 against the reference 2003-06-15, where both the
month-day-year and the day-month-year reading are accepted candidates. -/
theorem get_date_order_precedence_witness :
    (('/' = '/' ∨ '/' = '-') →
      get_date_order 1 2 3 '/' (some (civilTm 2003 6 15 0 0 0)) = some DateFormat.MM_DD_YYYY)
    ∧ (('/' : Char) = '.' →
      get_date_order 1 2 3 '/' (some (civilTm 2003 6 15 0 0 0)) = some DateFormat.DD_MM_YYYY) :=
  get_date_order_precedence.1 1 2 3 '/' (some (civilTm 2003 6 15 0 0 0)) (by decide)
    (by decide) ⟨_, -164, rfl, by decide, by decide⟩
    (by decide) ⟨_, -134, rfl, by decide, by decide⟩

/-! ### Failure of `tm_to_time_t` -/

set_option maxRecDepth 100000 in
/-- C7 (counterexample): 2024-03-05 with hour, minute and second still unset (-1) has
year >= 1583 and a month within 1-12, and `tm_to_time_t` fails on it; accordingly
`parse_date_basic` fails on the text 2024-03-05, which sets no time of day. -/
theorem tm_to_time_t_unset_time_fails :
    (1583 ≤ (civilTm 2024 3 5 (-1) (-1) (-1)).tm_year + 1900
      ∧ 0 ≤ (civilTm 2024 3 5 (-1) (-1) (-1)).tm_mon
      ∧ (civilTm 2024 3 5 (-1) (-1) (-1)).tm_mon ≤ 11)
    ∧ tm_to_time_t (civilTm 2024 3 5 (-1) (-1) (-1)) = none
    ∧ parse_date_basic utcEnv "2024-03-05".toList = Parsed.failure := by
  refine ⟨by decide, by decide, by decide⟩

/-- C7 (amended): `tm_to_time_t` fails exactly when the year (`tm_year + 1900` as an
`int`) is below 1583, or the month is outside 1-12 (`tm_mon` outside 0..11), or one of
hour, minute, second is negative. A moment whose hour, minute or second is unset
(negative) therefore fails; such fields are taken as 0 only by
`set_time_to_0_if_time_is_invalid`, which `days_between` applies before converting. -/
theorem tm_to_time_t_fails_iff :
    (∀ tm : Tm, tm_to_time_t tm = none ↔
      (iadd tm.tm_year 1900 < 1583 ∨ tm.tm_mon < 0 ∨ tm.tm_mon > 11
        ∨ tm.tm_hour < 0 ∨ tm.tm_min < 0 ∨ tm.tm_sec < 0))
    ∧ (∀ tm : Tm, (tm.tm_hour < 0 ∨ tm.tm_min < 0 ∨ tm.tm_sec < 0) →
        tm_to_time_t tm = none
        ∧ tm_to_time_t (set_time_to_0_if_time_is_invalid tm)
            = tm_to_time_t { tm with tm_hour := 0, tm_min := 0, tm_sec := 0 }) := by
  have key : ∀ tm : Tm, tm_to_time_t tm = none ↔
      (iadd tm.tm_year 1900 < 1583 ∨ tm.tm_mon < 0 ∨ tm.tm_mon > 11
        ∨ tm.tm_hour < 0 ∨ tm.tm_min < 0 ∨ tm.tm_sec < 0) := by
    intro tm
    unfold tm_to_time_t YEAR_MIN
    by_cases g1 : iadd tm.tm_year 1900 < 1583
    · simp [g1]
    · by_cases g2 : tm.tm_mon < 0 ∨ tm.tm_mon > 11
      · simp only [g1, g2, if_true, if_false, true_iff]
        tauto
      · by_cases g3 : tm.tm_hour < 0 ∨ tm.tm_min < 0 ∨ tm.tm_sec < 0
        · simp only [g1, g2, g3, if_true, if_false, true_iff]
          tauto
        · simp only [g1, g2, g3, if_false]
          constructor
          · intro h; cases h
          · intro h; tauto
  refine ⟨key, ?_⟩
  intro tm h
  refine ⟨(key tm).2 (by tauto), ?_⟩
  unfold set_time_to_0_if_time_is_invalid
  rw [if_pos h]

/-- C7 (witness): the amended statement at 2024-03-05 with the time of day unset. -/
theorem tm_to_time_t_fails_iff_witness :
    tm_to_time_t (civilTm 2024 3 5 (-1) (-1) (-1)) = none
      ∧ tm_to_time_t (set_time_to_0_if_time_is_invalid (civilTm 2024 3 5 (-1) (-1) (-1)))
          = tm_to_time_t { civilTm 2024 3 5 (-1) (-1) (-1) with
              tm_hour := 0, tm_min := 0, tm_sec := 0 } :=
  tm_to_time_t_fails_iff.2 (civilTm 2024 3 5 (-1) (-1) (-1)) (by decide)

/-- C8 (counterexample): 29 February 1900 does not exist (1900 is not a leap year),
yet `tm_to_time_t` accepts it and returns the timestamp of 1 March 1900; likewise day
0 and day 32 of January 2001 are accepted. -/
theorem tm_to_time_t_accepts_1900_02_29 :
    ¬ validDate 1900 2 29
      ∧ tm_to_time_t (civilTm 1900 2 29 0 0 0) = some (-2203891200)
      ∧ tm_to_time_t (civilTm 1900 3 1 0 0 0) = some (-2203891200)
      ∧ tm_to_time_t (civilTm 2001 1 0 0 0 0) = some 978220800
      ∧ tm_to_time_t (civilTm 2001 1 32 0 0 0) = some 980985600 := by
  decide

/-- C8 (amended): `tm_to_time_t` does not validate the day of month. For every moment
with year 1583..6000, month 1-12, hour in 0..596523, minute in 0..35791394, second in
0..2147483647 and ANY day field in -1000..1000 it succeeds, counting `day - 1` days
from the first of the month (so an impossible day denotes a day of a neighbouring
month). In particular it accepts 29 February of 2000 and of 2400, with their civil
day counts. -/
theorem tm_to_time_t_day_unchecked :
    (∀ tm : Tm, 1583 ≤ tm.tm_year + 1900 → tm.tm_year + 1900 ≤ 6000 →
      0 ≤ tm.tm_mon → tm.tm_mon ≤ 11 → -1000 ≤ tm.tm_mday → tm.tm_mday ≤ 1000 →
      0 ≤ tm.tm_hour → tm.tm_hour ≤ 596523 → 0 ≤ tm.tm_min → tm.tm_min ≤ 35791394 →
      0 ≤ tm.tm_sec → tm.tm_sec ≤ 2147483647 →
      tm_to_time_t tm = some (86400 * (civilDays (tm.tm_year + 1900) (tm.tm_mon.toNat + 1) 1
        + (tm.tm_mday - 1)) + tm.tm_hour * 3600 + tm.tm_min * 60 + tm.tm_sec))
    ∧ tm_to_time_t (civilTm 2000 2 29 0 0 0) = some (86400 * civilDays 2000 2 29)
    ∧ tm_to_time_t (civilTm 2400 2 29 0 0 0) = some (86400 * civilDays 2400 2 29) := by
  refine ⟨?_, ?_, ?_⟩
  · intro tm hy1 hy2 hm1 hm2 hd1 hd2 hh1 hh2 hmi1 hmi2 hs1 hs2
    have h := tm_to_time_t_in_range tm (tm.tm_year + 1900) (tm.tm_mon.toNat + 1) (by ring)
      (by push_cast; omega) hy1 hy2 (by omega) (by omega) hd1 hd2 hh1 hh2 hmi1 hmi2 hs1 hs2
    rw [h]
    unfold civilDays
    congr 1
    ring
  · have h := tm_to_time_t_in_range (civilTm 2000 2 29 0 0 0) 2000 2 rfl rfl (by decide)
      (by decide) (by decide) (by decide) (by decide) (by decide) (by decide) (by decide)
      (by decide) (by decide) (by decide) (by decide)
    rw [h]
    show some (86400 * civilDays 2000 2 29 + 0 * 3600 + 0 * 60 + 0) = _
    simp
  · have h := tm_to_time_t_in_range (civilTm 2400 2 29 0 0 0) 2400 2 rfl rfl (by decide)
      (by decide) (by decide) (by decide) (by decide) (by decide) (by decide) (by decide)
      (by decide) (by decide) (by decide) (by decide)
    rw [h]
    show some (86400 * civilDays 2400 2 29 + 0 * 3600 + 0 * 60 + 0) = _
    simp

/-- C8 (witness): the amended statement at the impossible date 29 February 1900. -/
theorem tm_to_time_t_day_unchecked_witness :
    tm_to_time_t (civilTm 1900 2 29 0 0 0)
      = some (86400 * (civilDays ((civilTm 1900 2 29 0 0 0).tm_year + 1900)
          ((civilTm 1900 2 29 0 0 0).tm_mon.toNat + 1) 1 + ((civilTm 1900 2 29 0 0 0).tm_mday - 1))
        + (civilTm 1900 2 29 0 0 0).tm_hour * 3600 + (civilTm 1900 2 29 0 0 0).tm_min * 60
        + (civilTm 1900 2 29 0 0 0).tm_sec) :=
  tm_to_time_t_day_unchecked.1 (civilTm 1900 2 29 0 0 0) (by decide) (by decide) (by decide)
    (by decide) (by decide) (by decide) (by decide) (by decide) (by decide) (by decide)
    (by decide) (by decide)

/-! ### Offset decoding -/

theorem gm_time_t_of_nonneg (t tz : Int) (h0 : 0 ≤ tz) (h1 : tz ≤ 2147483647)
    (hm : (tz / 100) * 60 + tz % 100 ≤ 35791394)
    (ht1 : -9223372036854775808 ≤ t + 60 * ((tz / 100) * 60 + tz % 100))
    (ht2 : t + 60 * ((tz / 100) * 60 + tz % 100) < 9223372036854775808) :
    gm_time_t t tz = t + 60 * ((tz / 100) * 60 + tz % 100) := by
  unfold gm_time_t
  have hneg : ¬ (tz < 0) := by omega
  simp only [hneg, if_false]
  rw [tdiv_of_nonneg tz 100 h0 (by decide), tmod_of_nonneg tz 100 h0 (by decide)]
  have e1 : imul (tz / 100) 60 = tz / 100 * 60 := wrap32_of_range (by omega) (by omega)
  have e2 : iadd (tz / 100 * 60) (tz % 100) = tz / 100 * 60 + tz % 100 :=
    wrap32_of_range (by omega) (by omega)
  rw [e1, e2]
  have hm0 : 0 ≤ tz / 100 * 60 + tz % 100 := by omega
  generalize tz / 100 * 60 + tz % 100 = m at hm ht1 ht2 hm0
  have e3 : imul m 60 = m * 60 := wrap32_of_range (by omega) (by omega)
  have e4 : ladd t (m * 60) = t + m * 60 := wrap64_of_range (by omega) (by omega)
  rw [e3, e4]
  ring

theorem gm_time_t_of_neg (t tz : Int) (h0 : tz < 0) (h1 : -2147483647 ≤ tz)
    (hm : ((-tz) / 100) * 60 + (-tz) % 100 ≤ 35791394)
    (ht1 : -9223372036854775808 ≤ t - 60 * (((-tz) / 100) * 60 + (-tz) % 100))
    (ht2 : t - 60 * (((-tz) / 100) * 60 + (-tz) % 100) < 9223372036854775808) :
    gm_time_t t tz = t - 60 * (((-tz) / 100) * 60 + (-tz) % 100) := by
  unfold gm_time_t
  simp only [h0, if_true]
  have e0 : ineg tz = -tz := wrap32_of_range (by omega) (by omega)
  rw [e0, tdiv_of_nonneg (-tz) 100 (by omega) (by decide),
    tmod_of_nonneg (-tz) 100 (by omega) (by decide)]
  have e1 : imul (-tz / 100) 60 = -tz / 100 * 60 := wrap32_of_range (by omega) (by omega)
  have e2 : iadd (-tz / 100 * 60) (-tz % 100) = -tz / 100 * 60 + -tz % 100 :=
    wrap32_of_range (by omega) (by omega)
  rw [e1, e2]
  have hm0 : 0 ≤ -tz / 100 * 60 + -tz % 100 := by omega
  generalize -tz / 100 * 60 + -tz % 100 = m at hm ht1 ht2 hm0
  have e5 : ineg m = -m := wrap32_of_range (by omega) (by omega)
  have e3 : imul (-m) 60 = -m * 60 := wrap32_of_range (by omega) (by omega)
  have e4 : ladd t (-m * 60) = t + -m * 60 := wrap64_of_range (by omega) (by omega)
  rw [e5, e3, e4]
  ring

/-- C9 (counterexample): for the code 2000000000 the decoded minute count
1200000000 fits an `int`, but `minutes * 60` does not: `gm_time_t` returns
-1014444032 where the digit-grouped formula gives 72000000000. -/
theorem gm_time_t_code_2000000000 :
    gm_time_t 0 2000000000 = -1014444032
      ∧ (0 : Int) + 60 * Int.sign 2000000000
          * ((|(2000000000 : Int)| / 100) * 60 + |(2000000000 : Int)| % 100) = 72000000000 := by
  constructor
  · decide
  · rw [abs_of_nonneg (by decide)]
    decide

/-- C9 (amended): the decimal offset code is decoded digit-grouped: for every code tz
of magnitude at most 2147483647 whose decoded minute count
`(|tz| / 100) * 60 + |tz| % 100` is at most 35791394 (so that `minutes * 60` fits an
`int`) and every timestamp t for which the sum fits a 64-bit `time_t`,
`gm_time_t(t, tz) = t + 60 * sgn(tz) * ((|tz| / 100) * 60 + |tz| % 100)`. Code -530
decodes to -330 minutes and code +0100 to 60 minutes. -/
theorem gm_time_t_digit_grouped :
    (∀ t tz : Int, |tz| ≤ 2147483647 → (|tz| / 100) * 60 + |tz| % 100 ≤ 35791394 →
      -9223372036854775808 ≤ t + 60 * Int.sign tz * ((|tz| / 100) * 60 + |tz| % 100) →
      t + 60 * Int.sign tz * ((|tz| / 100) * 60 + |tz| % 100) < 9223372036854775808 →
      gm_time_t t tz = t + 60 * Int.sign tz * ((|tz| / 100) * 60 + |tz| % 100))
    ∧ gm_time_t 0 (-530) = 60 * (-330)
    ∧ gm_time_t 0 100 = 60 * 60 := by
  refine ⟨?_, by decide, by decide⟩
  intro t tz h1 hm ht1 ht2
  rcases lt_trichotomy tz 0 with hneg | hzero | hpos
  · rw [abs_of_neg hneg] at h1 hm ht1 ht2 ⊢
    rw [Int.sign_eq_neg_one_of_neg hneg] at ht1 ht2 ⊢
    rw [gm_time_t_of_neg t tz hneg (by omega) hm (by linarith) (by linarith)]
    ring
  · subst hzero
    have h := gm_time_t_of_nonneg t 0 (by decide) (by decide) (by decide)
      (by simpa using ht1) (by simpa using ht2)
    rw [h]
    simp
  · rw [abs_of_pos hpos] at h1 hm ht1 ht2 ⊢
    rw [Int.sign_eq_one_of_pos hpos] at ht1 ht2 ⊢
    rw [gm_time_t_of_nonneg t tz (by omega) h1 hm (by linarith) (by linarith)]
    ring

/-- C9 (witness): the amended statement at t = 1709632800 and code -530. -/
theorem gm_time_t_digit_grouped_witness :
    gm_time_t 1709632800 (-530)
      = 1709632800 + 60 * Int.sign (-530) * ((|(-530 : Int)| / 100) * 60 + |(-530 : Int)| % 100) :=
  gm_time_t_digit_grouped.1 1709632800 (-530) (by rw [abs_of_neg (by decide)]; decide)
    (by rw [abs_of_neg (by decide)]; decide) (by rw [abs_of_neg (by decide)]; decide)
    (by rw [abs_of_neg (by decide)]; decide)

/-! ### Digits and the C library number parsers -/

theorem digitChar_toNat (d : Nat) (h : d < 10) : (digitChar d).toNat = 48 + d := by
  interval_cases d <;> rfl

theorem isdigit_digitChar (d : Nat) (h : d < 10) : isdigit (digitChar d) = true := by
  interval_cases d <;> rfl

theorem isspace_digitChar (d : Nat) (h : d < 10) : isspace (digitChar d) = false := by
  interval_cases d <;> rfl

theorem isalpha_digitChar (d : Nat) (h : d < 10) : isalpha (digitChar d) = false := by
  interval_cases d <;> rfl

theorem digitChar_ne_minus (d : Nat) (h : d < 10) : digitChar d ≠ '-' := by
  interval_cases d <;> decide

theorem digitChar_ne_plus (d : Nat) (h : d < 10) : digitChar d ≠ '+' := by
  interval_cases d <;> decide

theorem digitChar_ne_colon (d : Nat) (h : d < 10) : digitChar d ≠ ':' := by
  interval_cases d <;> decide

theorem digitChar_ne_NUL (d : Nat) (h : d < 10) : digitChar d ≠ NUL := by
  interval_cases d <;> decide

theorem isspace_of_isdigit (c : Char) (h : isdigit c = true) : isspace c = false := by
  unfold isdigit at h
  unfold isspace
  simp only [Bool.and_eq_true, decide_eq_true_eq] at h
  have h1 : ¬ (c.toNat = 32) := by omega
  have h2 : ¬ (c.toNat ≤ 13) := by omega
  simp [h1, h2]

theorem ne_of_isdigit (c c' : Char) (h : isdigit c = true) (h' : isdigit c' = false) :
    c ≠ c' := by
  intro e
  rw [e, h'] at h
  cases h

theorem takeWhile_isdigit_run (ds rest : List Char) (hds : ∀ c ∈ ds, isdigit c = true)
    (hrest : isdigit (chr rest) = false) : (ds ++ rest).takeWhile isdigit = ds := by
  induction ds with
  | nil =>
    cases rest with
    | nil => rfl
    | cons c tl =>
      have : isdigit c = false := hrest
      simp [List.takeWhile, this]
  | cons d tl ih =>
    have hd : isdigit d = true := hds d (List.mem_cons_self d tl)
    have htl : ∀ c ∈ tl, isdigit c = true := fun c hc => hds c (List.mem_cons_of_mem d hc)
    simp [List.takeWhile, hd, ih htl]

theorem numberPrefix_of_digit (c : Char) (tl : List Char) (hc : isdigit c = true) :
    numberPrefix (c :: tl) = (0, false, 0, (c :: tl).takeWhile isdigit) := by
  have hs := isspace_of_isdigit c hc
  have h1 : ¬ (c = '-') := ne_of_isdigit c '-' hc (by decide)
  have h2 : ¬ (c = '+') := ne_of_isdigit c '+' hc (by decide)
  unfold numberPrefix
  simp [List.takeWhile, hs, chr, h1, h2]

theorem strtoul_of_digits (d : Char) (ds rest : List Char) (hd : isdigit d = true)
    (hds : ∀ c ∈ ds, isdigit c = true) (hrest : isdigit (chr rest) = false)
    (hv : (digitsValue (d :: ds) : Int) ≤ ULONG_MAX) :
    strtoul (d :: (ds ++ rest)) = ((digitsValue (d :: ds) : Int), ds.length + 1) := by
  have hall : ∀ c ∈ d :: ds, isdigit c = true := by
    intro c hc
    rcases List.mem_cons.1 hc with h | h
    · rw [h]; exact hd
    · exact hds c h
  have ht := takeWhile_isdigit_run (d :: ds) rest hall hrest
  rw [List.cons_append] at ht
  unfold strtoul
  rw [numberPrefix_of_digit d _ hd, ht]
  have hgt : ¬ ((digitsValue (d :: ds) : Int) > ULONG_MAX) := by omega
  simp [hgt]

theorem strtol_of_digits (d : Char) (ds rest : List Char) (hd : isdigit d = true)
    (hds : ∀ c ∈ ds, isdigit c = true) (hrest : isdigit (chr rest) = false)
    (hv : (digitsValue (d :: ds) : Int) ≤ LONG_MAX) :
    strtol (d :: (ds ++ rest)) = ((digitsValue (d :: ds) : Int), ds.length + 1) := by
  have hall : ∀ c ∈ d :: ds, isdigit c = true := by
    intro c hc
    rcases List.mem_cons.1 hc with h | h
    · rw [h]; exact hd
    · exact hds c h
  have ht := takeWhile_isdigit_run (d :: ds) rest hall hrest
  rw [List.cons_append] at ht
  unfold strtol
  rw [numberPrefix_of_digit d _ hd, ht]
  have hgt : ¬ ((digitsValue (d :: ds) : Int) > LONG_MAX) := by omega
  have hlt : ¬ ((digitsValue (d :: ds) : Int) < LONG_MIN) := by
    unfold LONG_MIN; omega
  simp [hgt, hlt]

theorem digitsValue_two (a b : Nat) (ha : a < 10) (hb : b < 10) :
    digitsValue [digitChar a, digitChar b] = 10 * a + b := by
  simp [digitsValue, digitChar_toNat, ha, hb]

theorem digitsValue_four (a b c d : Nat) (ha : a < 10) (hb : b < 10) (hc : c < 10)
    (hd : d < 10) :
    digitsValue [digitChar a, digitChar b, digitChar c, digitChar d]
      = 1000 * a + 100 * b + 10 * c + d := by
  simp [digitsValue, digitChar_toNat, ha, hb, hc, hd]
  ring

/-- The number parsers on two digits. -/
theorem strtoul_two (a b : Nat) (rest : List Char) (ha : a < 10) (hb : b < 10)
    (hrest : isdigit (chr rest) = false) :
    strtoul (digitChar a :: digitChar b :: rest) = (((10 * a + b : Nat) : Int), 2) := by
  have h := strtoul_of_digits (digitChar a) [digitChar b] rest (isdigit_digitChar a ha)
    (by simp [isdigit_digitChar b hb]) hrest
    (by rw [digitsValue_two a b ha hb]; unfold ULONG_MAX; omega)
  rw [digitsValue_two a b ha hb] at h
  exact h

theorem strtol_two (a b : Nat) (rest : List Char) (ha : a < 10) (hb : b < 10)
    (hrest : isdigit (chr rest) = false) :
    strtol (digitChar a :: digitChar b :: rest) = (((10 * a + b : Nat) : Int), 2) := by
  have h := strtol_of_digits (digitChar a) [digitChar b] rest (isdigit_digitChar a ha)
    (by simp [isdigit_digitChar b hb]) hrest
    (by rw [digitsValue_two a b ha hb]; unfold LONG_MAX; omega)
  rw [digitsValue_two a b ha hb] at h
  exact h

theorem strtoul_four (a b c d : Nat) (rest : List Char) (ha : a < 10) (hb : b < 10)
    (hc : c < 10) (hd : d < 10) (hrest : isdigit (chr rest) = false) :
    strtoul (digitChar a :: digitChar b :: digitChar c :: digitChar d :: rest)
      = (((1000 * a + 100 * b + 10 * c + d : Nat) : Int), 4) := by
  have h := strtoul_of_digits (digitChar a) [digitChar b, digitChar c, digitChar d] rest
    (isdigit_digitChar a ha)
    (by simp [isdigit_digitChar b hb, isdigit_digitChar c hc, isdigit_digitChar d hd]) hrest
    (by rw [digitsValue_four a b c d ha hb hc hd]; unfold ULONG_MAX; omega)
  rw [digitsValue_four a b c d ha hb hc hd] at h
  exact h

theorem strtol_four (a b c d : Nat) (rest : List Char) (ha : a < 10) (hb : b < 10)
    (hc : c < 10) (hd : d < 10) (hrest : isdigit (chr rest) = false) :
    strtol (digitChar a :: digitChar b :: digitChar c :: digitChar d :: rest)
      = (((1000 * a + 100 * b + 10 * c + d : Nat) : Int), 4) := by
  have h := strtol_of_digits (digitChar a) [digitChar b, digitChar c, digitChar d] rest
    (isdigit_digitChar a ha)
    (by simp [isdigit_digitChar b hb, isdigit_digitChar c hc, isdigit_digitChar d hd]) hrest
    (by rw [digitsValue_four a b c d ha hb hc hd]; unfold LONG_MAX; omega)
  rw [digitsValue_four a b c d ha hb hc hd] at h
  exact h

/-! ### `match_tz` -/

theorem strtoul_consumed (d : Char) (ds rest : List Char) (hd : isdigit d = true)
    (hds : ∀ c ∈ ds, isdigit c = true) (hrest : isdigit (chr rest) = false) :
    (strtoul (d :: (ds ++ rest))).2 = ds.length + 1 := by
  have hall : ∀ c ∈ d :: ds, isdigit c = true := by
    intro c hc
    rcases List.mem_cons.1 hc with h | h
    · rw [h]; exact hd
    · exact hds c h
  have ht := takeWhile_isdigit_run (d :: ds) rest hall hrest
  rw [List.cons_append] at ht
  unfold strtoul
  rw [numberPrefix_of_digit d _ hd, ht]
  simp

theorem match_tz_hhmm (s : Char) (h1 h2 m1 m2 : Nat) (rest : List Char) (offp pc : Int)
    (hs : s = '+' ∨ s = '-') (hh1 : h1 < 10) (hh2 : h2 < 10) (hm1 : m1 < 10) (hm2 : m2 < 10)
    (hrest : isdigit (chr rest) = false) :
    match_tz (s :: digitChar h1 :: digitChar h2 :: digitChar m1 :: digitChar m2 :: rest) offp pc
      = if 10 * h1 + h2 < 24 ∧ 10 * m1 + m2 < 60 then
          (0, signOf s * (60 * ((10 * h1 + h2 : Nat) : Int) + ((10 * m1 + m2 : Nat) : Int)), 5)
        else (-1, offp, 0) := by
  unfold match_tz
  have hg : (chr (s :: digitChar h1 :: digitChar h2 :: digitChar m1 :: digitChar m2 :: rest) = '-'
      ∨ chr (s :: digitChar h1 :: digitChar h2 :: digitChar m1 :: digitChar m2 :: rest) = '+')
      ∧ isdigit (chr (List.drop 1
          (s :: digitChar h1 :: digitChar h2 :: digitChar m1 :: digitChar m2 :: rest))) = true := by
    refine ⟨?_, isdigit_digitChar h1 hh1⟩
    show s = '-' ∨ s = '+'
    tauto
  rw [if_neg (not_not.2 hg)]
  simp only [List.drop_succ_cons, List.drop_zero, strtoul_four h1 h2 m1 m2 rest hh1 hh2 hm1 hm2 hrest]
  have hw : wrap32 ((1000 * h1 + 100 * h2 + 10 * m1 + m2 : Nat) : Int)
      = ((1000 * h1 + 100 * h2 + 10 * m1 + m2 : Nat) : Int) :=
    wrap32_of_range (by omega) (by omega)
  rw [hw]
  have hd : (((1000 * h1 + 100 * h2 + 10 * m1 + m2 : Nat) : Int)).tdiv 100
      = ((10 * h1 + h2 : Nat) : Int) := by
    rw [tdiv_of_nonneg _ _ (by omega) (by decide)]; omega
  have hm : (((1000 * h1 + 100 * h2 + 10 * m1 + m2 : Nat) : Int)).tmod 100
      = ((10 * m1 + m2 : Nat) : Int) := by
    rw [tmod_of_nonneg _ _ (by omega) (by decide)]; omega
  simp only [Nat.cast_ofNat, if_true, hd, hm]
  by_cases hc : 10 * h1 + h2 < 24 ∧ 10 * m1 + m2 < 60
  · have hc' : ((10 * m1 + m2 : Nat) : Int) < 60 ∧ ((10 * h1 + h2 : Nat) : Int) < 24 := by omega
    rw [if_pos hc, if_pos hc']
    have e1 : imul ((10 * h1 + h2 : Nat) : Int) 60 = ((10 * h1 + h2 : Nat) : Int) * 60 :=
      wrap32_of_range (by omega) (by omega)
    have e2 : iadd (((10 * h1 + h2 : Nat) : Int) * 60) ((10 * m1 + m2 : Nat) : Int)
        = ((10 * h1 + h2 : Nat) : Int) * 60 + ((10 * m1 + m2 : Nat) : Int) :=
      wrap32_of_range (by omega) (by omega)
    rw [e1, e2]
    rcases hs with hs | hs
    · subst hs
      simp [chr, signOf]
      omega
    · subst hs
      have e3 : ineg (((10 * h1 + h2 : Nat) : Int) * 60 + ((10 * m1 + m2 : Nat) : Int))
          = -(((10 * h1 + h2 : Nat) : Int) * 60 + ((10 * m1 + m2 : Nat) : Int)) :=
        wrap32_of_range (by omega) (by omega)
      simp only [chr, List.headD_cons, if_true, e3, signOf]
      simp
      omega
  · have hc' : ¬ (((10 * m1 + m2 : Nat) : Int) < 60 ∧ ((10 * h1 + h2 : Nat) : Int) < 24) := by
      omega
    rw [if_neg hc, if_neg hc']

theorem match_tz_offset_value (s : Char) (hh mm : Nat) (hs : s = '+' ∨ s = '-')
    (hh24 : hh < 24) (hmm : mm < 60) :
    (if chr (s :: ([] : List Char)) = '-' then ineg (iadd (imul (hh : Int) 60) (mm : Int))
      else iadd (imul (hh : Int) 60) (mm : Int))
      = signOf s * (60 * (hh : Int) + (mm : Int)) := by
  have e1 : imul (hh : Int) 60 = (hh : Int) * 60 := wrap32_of_range (by omega) (by omega)
  have e2 : iadd ((hh : Int) * 60) (mm : Int) = (hh : Int) * 60 + (mm : Int) :=
    wrap32_of_range (by omega) (by omega)
  have e3 : ineg ((hh : Int) * 60 + (mm : Int)) = -((hh : Int) * 60 + (mm : Int)) :=
    wrap32_of_range (by omega) (by omega)
  rw [e1, e2, e3]
  rcases hs with hs | hs
  · subst hs
    simp [chr, signOf]
    omega
  · subst hs
    simp [chr, signOf]
    omega

theorem match_tz_hh_colon_mm (s : Char) (h1 h2 m1 m2 : Nat) (rest : List Char) (offp pc : Int)
    (hs : s = '+' ∨ s = '-') (hh1 : h1 < 10) (hh2 : h2 < 10) (hm1 : m1 < 10) (hm2 : m2 < 10)
    (hrest : isdigit (chr rest) = false) :
    match_tz (s :: digitChar h1 :: digitChar h2 :: ':' :: digitChar m1 :: digitChar m2 :: rest)
        offp pc
      = if 10 * h1 + h2 < 24 ∧ 10 * m1 + m2 < 60 then
          (0, signOf s * (60 * ((10 * h1 + h2 : Nat) : Int) + ((10 * m1 + m2 : Nat) : Int)), 6)
        else (-1, offp, 0) := by
  unfold match_tz
  have hg : (chr (s :: digitChar h1 :: digitChar h2 :: ':' :: digitChar m1 :: digitChar m2
        :: rest) = '-'
      ∨ chr (s :: digitChar h1 :: digitChar h2 :: ':' :: digitChar m1 :: digitChar m2
        :: rest) = '+')
      ∧ isdigit (chr (List.drop 1 (s :: digitChar h1 :: digitChar h2 :: ':' :: digitChar m1
        :: digitChar m2 :: rest))) = true := by
    refine ⟨?_, isdigit_digitChar h1 hh1⟩
    show s = '-' ∨ s = '+'
    tauto
  rw [if_neg (not_not.2 hg)]
  have hcolon : isdigit (chr (':' :: digitChar m1 :: digitChar m2 :: rest)) = false := rfl
  simp only [List.drop_succ_cons, List.drop_zero,
    strtoul_two h1 h2 (':' :: digitChar m1 :: digitChar m2 :: rest) hh1 hh2 hcolon,
    strtoul_two m1 m2 rest hm1 hm2 hrest]
  have hw : wrap32 ((10 * h1 + h2 : Nat) : Int) = ((10 * h1 + h2 : Nat) : Int) :=
    wrap32_of_range (by omega) (by omega)
  have hw2 : wrap32 ((10 * m1 + m2 : Nat) : Int) = ((10 * m1 + m2 : Nat) : Int) :=
    wrap32_of_range (by omega) (by omega)
  rw [hw, hw2]
  have hc0 : chr (':' :: digitChar m1 :: digitChar m2 :: rest) = ':' := rfl
  simp only [Nat.cast_ofNat, Nat.reduceAdd, List.drop_succ_cons,
    List.drop_zero, hc0, if_true, if_false, ne_eq, not_true_eq_false, Nat.reduceEqDiff,
    Int.reduceSub, Nat.cast_ofNat, Int.reduceEq]
  by_cases hc : 10 * h1 + h2 < 24 ∧ 10 * m1 + m2 < 60
  · have hc' : ((10 * m1 + m2 : Nat) : Int) < 60 ∧ ((10 * h1 + h2 : Nat) : Int) < 24 := by omega
    have hv := match_tz_offset_value s (10 * h1 + h2) (10 * m1 + m2) hs hc.1 hc.2
    simp only [chr, List.headD_cons] at hv ⊢
    simp only [hc, hc', hv, and_self, if_true]
  · have hc' : ¬ (((10 * m1 + m2 : Nat) : Int) < 60 ∧ ((10 * h1 + h2 : Nat) : Int) < 24) := by
      omega
    simp only [hc, hc', if_false]

theorem match_tz_hh (s : Char) (h1 h2 : Nat) (rest : List Char) (offp pc : Int)
    (hs : s = '+' ∨ s = '-') (hh1 : h1 < 10) (hh2 : h2 < 10)
    (hrest : isdigit (chr rest) = false) (hcolon : chr rest ≠ ':') :
    match_tz (s :: digitChar h1 :: digitChar h2 :: rest) offp pc
      = if 10 * h1 + h2 < 24 then
          (0, signOf s * (60 * ((10 * h1 + h2 : Nat) : Int)), 3)
        else (-1, offp, 0) := by
  unfold match_tz
  have hg : (chr (s :: digitChar h1 :: digitChar h2 :: rest) = '-'
      ∨ chr (s :: digitChar h1 :: digitChar h2 :: rest) = '+')
      ∧ isdigit (chr (List.drop 1 (s :: digitChar h1 :: digitChar h2 :: rest))) = true := by
    refine ⟨?_, isdigit_digitChar h1 hh1⟩
    show s = '-' ∨ s = '+'
    tauto
  rw [if_neg (not_not.2 hg)]
  simp only [List.drop_succ_cons, List.drop_zero, strtoul_two h1 h2 rest hh1 hh2 hrest]
  have hw : wrap32 ((10 * h1 + h2 : Nat) : Int) = ((10 * h1 + h2 : Nat) : Int) :=
    wrap32_of_range (by omega) (by omega)
  rw [hw]
  simp only [Nat.cast_ofNat, Nat.reduceAdd, List.drop_succ_cons,
    List.drop_zero, hcolon, if_true, if_false, ne_eq, not_true_eq_false, Nat.reduceEqDiff,
    Int.reduceSub, Nat.cast_ofNat, Int.reduceEq]
  by_cases hc : 10 * h1 + h2 < 24
  · have hc' : (0 : Int) < 60 ∧ ((10 * h1 + h2 : Nat) : Int) < 24 := by omega
    have hv := match_tz_offset_value s (10 * h1 + h2) 0 hs hc (by decide)
    simp only [chr, List.headD_cons, Nat.cast_zero, add_zero] at hv ⊢
    simp only [hc, hc', hv, and_self, if_true]
  · have hc' : ¬ ((0 : Int) < 60 ∧ ((10 * h1 + h2 : Nat) : Int) < 24) := by
      omega
    simp only [hc, hc', if_false]

theorem match_tz_other_length (s : Char) (ds rest : List Char) (offp pc : Int)
    (hs : s = '+' ∨ s = '-') (hds : ∀ c ∈ ds, isdigit c = true)
    (hrest : isdigit (chr rest) = false) (h2 : ds.length ≠ 2) (h4 : ds.length ≠ 4) :
    match_tz (s :: (ds ++ rest)) offp pc = (-1, offp, if ds = [] then pc else 0) := by
  unfold match_tz
  cases ds with
  | nil =>
    have hg : ¬ ((chr (s :: ([] ++ rest)) = '-' ∨ chr (s :: ([] ++ rest)) = '+')
        ∧ isdigit (chr (List.drop 1 (s :: ([] ++ rest)))) = true) := by
      intro h
      have h' : isdigit (chr rest) = true := h.2
      rw [hrest] at h'
      cases h'
    rw [if_pos hg]
    simp
  | cons d tl =>
    have hd : isdigit d = true := hds d (List.mem_cons_self d tl)
    have htl : ∀ c ∈ tl, isdigit c = true := fun c hc => hds c (List.mem_cons_of_mem d hc)
    have hg : (chr (s :: (d :: tl ++ rest)) = '-' ∨ chr (s :: (d :: tl ++ rest)) = '+')
        ∧ isdigit (chr (List.drop 1 (s :: (d :: tl ++ rest)))) = true := by
      refine ⟨?_, hd⟩
      show s = '-' ∨ s = '+'
      tauto
    rw [if_neg (not_not.2 hg)]
    have hn := strtoul_consumed d tl rest hd htl hrest
    simp only [List.drop_succ_cons, List.drop_zero, List.cons_append, hn]
    have n4 : ¬ (((tl.length + 1 : Nat) : Int) = 4) := by
      simp only [List.length_cons] at h4; omega
    have n2 : ((tl.length + 1 : Nat) : Int) ≠ 2 := by
      simp only [List.length_cons] at h2; omega
    simp only [n4, n2, if_false, if_true, ne_eq, not_false_eq_true]
    simp

/-- C10: `match_tz` decodes and validates explicit offsets. For every sign s and
digits, on a text that starts with the token s HHMM, s HH:MM or s HH (the token ends
where the digits end; the bare form s HH is not followed by a colon), it returns 0,
sets the offset to s * (60*HH + MM) minutes (MM = 0 for the bare form) and consumes
exactly the token (5, 6 or 3 characters) whenever HH < 24 and MM < 60; whenever
HH >= 24 or MM >= 60 it returns -1, consumes nothing and leaves the offset unchanged.
Whenever the digit run after the sign has a length other than 2 or 4 it returns -1,
consumes nothing and leaves the offset unchanged (with no digit at all the count of
consumed characters is left as the caller set it, which is 0). -/
theorem match_tz_explicit_offset :
    (∀ (s : Char) (h1 h2 m1 m2 : Nat) (rest : List Char) (offp pc : Int),
      (s = '+' ∨ s = '-') → h1 < 10 → h2 < 10 → m1 < 10 → m2 < 10 →
      isdigit (chr rest) = false →
      (match_tz (s :: digitChar h1 :: digitChar h2 :: digitChar m1 :: digitChar m2 :: rest)
          offp pc
        = if 10 * h1 + h2 < 24 ∧ 10 * m1 + m2 < 60 then
            (0, signOf s * (60 * ((10 * h1 + h2 : Nat) : Int) + ((10 * m1 + m2 : Nat) : Int)), 5)
          else (-1, offp, 0))
      ∧ (match_tz (s :: digitChar h1 :: digitChar h2 :: ':' :: digitChar m1 :: digitChar m2
          :: rest) offp pc
        = if 10 * h1 + h2 < 24 ∧ 10 * m1 + m2 < 60 then
            (0, signOf s * (60 * ((10 * h1 + h2 : Nat) : Int) + ((10 * m1 + m2 : Nat) : Int)), 6)
          else (-1, offp, 0))
      ∧ (chr rest ≠ ':' →
          match_tz (s :: digitChar h1 :: digitChar h2 :: rest) offp pc
            = if 10 * h1 + h2 < 24 then
                (0, signOf s * (60 * ((10 * h1 + h2 : Nat) : Int)), 3)
              else (-1, offp, 0)))
    ∧ (∀ (s : Char) (ds rest : List Char) (offp pc : Int),
        (s = '+' ∨ s = '-') → (∀ c ∈ ds, isdigit c = true) → isdigit (chr rest) = false →
        ds.length ≠ 2 → ds.length ≠ 4 →
        match_tz (s :: (ds ++ rest)) offp pc = (-1, offp, if ds = [] then pc else 0)) := by
  constructor
  · intro s h1 h2 m1 m2 rest offp pc hs hh1 hh2 hm1 hm2 hrest
    exact ⟨match_tz_hhmm s h1 h2 m1 m2 rest offp pc hs hh1 hh2 hm1 hm2 hrest,
      match_tz_hh_colon_mm s h1 h2 m1 m2 rest offp pc hs hh1 hh2 hm1 hm2 hrest,
      fun hcolon => match_tz_hh s h1 h2 rest offp pc hs hh1 hh2 hrest hcolon⟩
  · intro s ds rest offp pc hs hds hrest h2 h4
    exact match_tz_other_length s ds rest offp pc hs hds hrest h2 h4

/-- C10 (witness): the statement at the tokens -0530, -05:30 and -05 followed by a
space, and at the three-digit run of +123. -/
theorem match_tz_explicit_offset_witness :
    (match_tz ('-' :: digitChar 0 :: digitChar 5 :: digitChar 3 :: digitChar 0 :: [' ']) (-1) 0
        = if 10 * 0 + 5 < 24 ∧ 10 * 3 + 0 < 60 then
            (0, signOf '-' * (60 * ((10 * 0 + 5 : Nat) : Int) + ((10 * 3 + 0 : Nat) : Int)), 5)
          else (-1, -1, 0))
      ∧ match_tz ('+' :: (['1', '2', '3'] ++ [' '])) (-1) 0
          = (-1, -1, if ['1', '2', '3'] = ([] : List Char) then 0 else 0) :=
  ⟨(match_tz_explicit_offset.1 '-' 0 5 3 0 [' '] (-1) 0 (by decide) (by decide) (by decide)
      (by decide) (by decide) (by decide)).1,
   match_tz_explicit_offset.2 '+' ['1', '2', '3'] [' '] (-1) 0 (by decide) (by decide)
      (by decide) (by decide) (by decide)⟩

/-! ### `printf` conversions -/

theorem nat_digitChar_eq (d : Nat) (h : d < 10) : Nat.digitChar d = digitChar d := by
  interval_cases d <;> rfl

theorem toDigitsCore_last (f n : Nat) (ds : List Char) (hf : 0 < f) (hn : n < 10) :
    Nat.toDigitsCore 10 f n ds = digitChar n :: ds := by
  cases f with
  | zero => omega
  | succ k =>
    have h0 : n / 10 = 0 := by omega
    have h1 : n % 10 = n := by omega
    simp [Nat.toDigitsCore, h0, h1, nat_digitChar_eq n hn]

theorem toDigitsCore_step (f n : Nat) (ds : List Char) (hf : 0 < f) (hn : 10 ≤ n) :
    Nat.toDigitsCore 10 f n ds
      = Nat.toDigitsCore 10 (f - 1) (n / 10) (digitChar (n % 10) :: ds) := by
  cases f with
  | zero => omega
  | succ k =>
    have h0 : ¬ (n / 10 = 0) := by omega
    simp [Nat.toDigitsCore, h0, nat_digitChar_eq (n % 10) (by omega)]

theorem natDigits_one (n : Nat) (hn : n < 10) : natDigits n = [digitChar n] := by
  unfold natDigits Nat.toDigits
  exact toDigitsCore_last (n + 1) n [] (by omega) hn

theorem natDigits_two (n : Nat) (h1 : 10 ≤ n) (h2 : n < 100) :
    natDigits n = [digitChar (n / 10), digitChar (n % 10)] := by
  unfold natDigits Nat.toDigits
  rw [toDigitsCore_step (n + 1) n [] (by omega) h1,
    toDigitsCore_last (n + 1 - 1) (n / 10) _ (by omega) (by omega)]

theorem natDigits_four (n : Nat) (h1 : 1000 ≤ n) (h2 : n < 10000) :
    natDigits n = [digitChar (n / 1000), digitChar (n / 100 % 10), digitChar (n / 10 % 10),
      digitChar (n % 10)] := by
  unfold natDigits Nat.toDigits
  rw [toDigitsCore_step (n + 1) n [] (by omega) (by omega),
    toDigitsCore_step (n + 1 - 1) (n / 10) _ (by omega) (by omega),
    toDigitsCore_step (n + 1 - 1 - 1) (n / 10 / 10) _ (by omega) (by omega),
    toDigitsCore_last (n + 1 - 1 - 1 - 1) (n / 10 / 10 / 10) _ (by omega) (by omega)]
  have e1 : n / 10 / 10 / 10 = n / 1000 := by omega
  have e2 : n / 10 / 10 % 10 = n / 100 % 10 := by omega
  rw [e1, e2]

theorem fmt_0d_two (n : Nat) (h : n < 100) :
    fmt_0d 2 (n : Int) = [digitChar (n / 10), digitChar (n % 10)] := by
  unfold fmt_0d
  have hneg : ¬ ((n : Int) < 0) := by omega
  rw [if_neg hneg, Int.natAbs_ofNat]
  by_cases h10 : n < 10
  · rw [natDigits_one n h10]
    have e0 : n / 10 = 0 := by omega
    have e1 : n % 10 = n := by omega
    rw [e0, e1]
    rfl
  · rw [natDigits_two n (by omega) h]
    rfl

theorem fmt_0d_four (n : Nat) (h1 : 1000 ≤ n) (h2 : n < 10000) :
    fmt_0d 4 (n : Int) = [digitChar (n / 1000), digitChar (n / 100 % 10),
      digitChar (n / 10 % 10), digitChar (n % 10)] := by
  unfold fmt_0d
  have hneg : ¬ ((n : Int) < 0) := by omega
  rw [if_neg hneg, Int.natAbs_ofNat, natDigits_four n h1 h2]
  rfl

/-! ### The strict ISO form -/

theorem cstring_of_no_NUL (l : List Char) (h : ∀ c ∈ l, c ≠ NUL) : cstring l = l := by
  unfold cstring
  induction l with
  | nil => rfl
  | cons a tl ih =>
    have ha : a ≠ NUL := h a (List.mem_cons_self a tl)
    have htl : ∀ c ∈ tl, c ≠ NUL := fun c hc => h c (List.mem_cons_of_mem a hc)
    have e := ih htl
    simp only [List.takeWhile, ha, ne_eq, not_false_eq_true, decide_True]
    rw [e]

theorem isoStrictLiteral_no_NUL (Y M D h mi s : Nat) (sign : Char) (oh om : Nat)
    (hY : Y < 10000) (hM : M < 100) (hD : D < 100) (hh : h < 100) (hmi : mi < 100)
    (hs : s < 100) (hsign : sign = '+' ∨ sign = '-') (hoh : oh < 100) (hom : om < 100) :
    ∀ c ∈ isoStrictLiteral Y M D h mi s sign oh om, c ≠ NUL := by
  have hsg : sign ≠ NUL := by
    rcases hsign with e | e <;> rw [e] <;> decide
  simp only [isoStrictLiteral, List.mem_cons, List.mem_singleton, forall_eq_or_imp, forall_eq,
    List.not_mem_nil, false_imp_iff, implies_true, and_true]
  repeat' constructor
  all_goals first
    | exact hsg
    | exact digitChar_ne_NUL _ (by omega)
    | decide

/-- The offset in minutes that a sign and the fields HH and MM denote. -/
theorem offsetCode_of_sign (sign : Char) (oh om : Nat) (hsign : sign = '+' ∨ sign = '-')
    (hom : om < 60) :
    offsetCode (signOf sign * (60 * (oh : Int) + (om : Int)))
      = signOf sign * (100 * (oh : Int) + (om : Int)) := by
  unfold offsetCode
  rcases Nat.eq_zero_or_pos (60 * oh + om) with h0 | hpos
  · have e1 : oh = 0 := by omega
    have e2 : om = 0 := by omega
    subst e1; subst e2
    simp
  · rcases hsign with e | e
    · subst e
      have es : signOf '+' = 1 := by decide
      rw [es, one_mul, one_mul]
      have ep : (60 * (oh : Int) + (om : Int)) = ((60 * oh + om : Nat) : Int) := by push_cast; ring
      rw [ep, Int.natAbs_ofNat, Int.sign_eq_one_of_pos (by omega), one_mul]
      have a1 : (60 * oh + om) / 60 = oh := by omega
      have a2 : (60 * oh + om) % 60 = om := by omega
      rw [a1, a2]
      ring
    · subst e
      have es : signOf '-' = -1 := by decide
      rw [es]
      have ep : (-1 : Int) * (60 * (oh : Int) + (om : Int)) = -((60 * oh + om : Nat) : Int) := by
        push_cast; ring
      rw [ep, Int.natAbs_neg, Int.natAbs_ofNat, Int.sign_eq_neg_one_of_neg (by omega)]
      have a1 : (60 * oh + om) / 60 = oh := by omega
      have a2 : (60 * oh + om) % 60 = om := by omega
      rw [a1, a2]
      ring

theorem gm_time_t_offsetCode (t : Int) (sign : Char) (oh om : Nat)
    (hsign : sign = '+' ∨ sign = '-') (hoh : oh < 24) (hom : om < 60)
    (ht1 : -9000000000000000000 ≤ t) (ht2 : t ≤ 9000000000000000000) :
    gm_time_t t (signOf sign * (100 * (oh : Int) + (om : Int)))
      = t + 60 * (signOf sign * (60 * (oh : Int) + (om : Int))) := by
  rcases hsign with e | e
  · subst e
    have es : signOf '+' = 1 := by decide
    rw [es, one_mul, one_mul]
    have a1 : (100 * (oh : Int) + (om : Int)) / 100 = oh := by omega
    have a2 : (100 * (oh : Int) + (om : Int)) % 100 = om := by omega
    rw [gm_time_t_of_nonneg t _ (by omega) (by omega) (by rw [a1, a2]; omega)
      (by rw [a1, a2]; omega) (by rw [a1, a2]; omega), a1, a2]
    ring
  · subst e
    have es : signOf '-' = -1 := by decide
    rw [es]
    rcases Nat.eq_zero_or_pos (100 * oh + om) with h0 | hpos
    · have e1 : oh = 0 := by omega
      have e2 : om = 0 := by omega
      subst e1; subst e2
      have h := gm_time_t_of_nonneg t 0 (by decide) (by decide) (by decide) (by omega) (by omega)
      simp only [Nat.cast_zero, mul_zero, add_zero] at h ⊢
      rw [h]
      simp
    · have en : -(-1 * (100 * (oh : Int) + (om : Int))) = 100 * (oh : Int) + (om : Int) := by ring
      have a1 : (100 * (oh : Int) + (om : Int)) / 100 = oh := by omega
      have a2 : (100 * (oh : Int) + (om : Int)) % 100 = om := by omega
      rw [gm_time_t_of_neg t _ (by omega) (by omega) (by rw [en, a1, a2]; omega)
        (by rw [en, a1, a2]; omega) (by rw [en, a1, a2]; omega), en, a1, a2]
      ring

/-- The strict ISO rendering of the timestamp of a civil date-time at an offset. -/
theorem show_date_iso_strict_civil (env : Env) (Y M D h mi s : Nat) (sign : Char) (oh om : Nat)
    (hY1 : 1583 ≤ Y) (hY2 : Y ≤ 2999) (hv : validDate (Y : Int) M (D : Int))
    (hh : h < 24) (hmi : mi < 60) (hs : s < 60) (hsign : sign = '+' ∨ sign = '-')
    (hoh : oh < 24) (hom : om < 60) (hnz : sign = '+' ∨ 1 ≤ 60 * oh + om) :
    show_date env
        (86400 * civilDays (Y : Int) M (D : Int) + (h : Int) * 3600 + (mi : Int) * 60 + (s : Int)
          - 60 * (signOf sign * (60 * (oh : Int) + (om : Int))))
        (signOf sign * (100 * (oh : Int) + (om : Int))) date_mode.DATE_ISO8601_STRICT
      = some (isoStrictLiteral Y M D h mi s sign oh om) := by
  have hb := civilDays_bounds (Y : Int) M (D : Int) hv (by omega) (by omega)
  have hdm := daysInMonth_le (Y : Int) M
  have hD : D < 32 := by have := hv.2.2.2; omega
  have hM : M ≤ 12 := hv.2.1
  have hsv : signOf sign = 1 ∨ signOf sign = -1 := by
    rcases hsign with e | e <;> rw [e]
    · left; decide
    · right; decide
  have hgm := gm_time_t_offsetCode
    (86400 * civilDays (Y : Int) M (D : Int) + (h : Int) * 3600 + (mi : Int) * 60 + (s : Int)
      - 60 * (signOf sign * (60 * (oh : Int) + (om : Int)))) sign oh om hsign hoh hom
    (by rcases hsv with e | e <;> rw [e] <;> omega)
    (by rcases hsv with e | e <;> rw [e] <;> omega)
  have hts : 86400 * civilDays (Y : Int) M (D : Int) + (h : Int) * 3600 + (mi : Int) * 60 + (s : Int)
      - 60 * (signOf sign * (60 * (oh : Int) + (om : Int)))
      + 60 * (signOf sign * (60 * (oh : Int) + (om : Int)))
      = 86400 * civilDays (Y : Int) M (D : Int) + (h : Int) * 3600 + (mi : Int) * 60 + (s : Int) := by
    ring
  rw [hts] at hgm
  have hg := gmtime_civil (Y : Int) M (D : Int) (h : Int) (mi : Int) (s : Int) hv (by omega)
    (by omega) (by omega) (by omega) (by omega) (by omega) (by omega) (by omega)
  unfold show_date time_to_tm
  simp only [hgm, hg, reduceCtorEq, if_false]
  have eY : iadd ((Y : Int) - 1900) 1900 = (Y : Int) := by
    have e : (Y : Int) - 1900 + 1900 = (Y : Int) := by ring
    rw [iadd, e]; exact wrap32_of_range (by omega) (by omega)
  have eM : iadd ((M : Int) - 1) 1 = (M : Int) := by
    have e : (M : Int) - 1 + 1 = (M : Int) := by ring
    rw [iadd, e]; exact wrap32_of_range (by omega) (by omega)
  have esign : (if signOf sign * (100 * (oh : Int) + (om : Int)) ≥ 0 then '+' else '-') = sign := by
    rcases hsign with e | e
    · subst e
      have es : signOf '+' = 1 := by decide
      rw [es, one_mul, if_pos (by omega)]
    · subst e
      have es : signOf '-' = -1 := by decide
      have hk : 1 ≤ 60 * oh + om := by
        rcases hnz with hc | hc
        · exact absurd hc (by decide)
        · exact hc
      rw [es, if_neg (by omega)]
  have eabs : (if signOf sign * (100 * (oh : Int) + (om : Int)) < 0
        then ineg (signOf sign * (100 * (oh : Int) + (om : Int)))
        else signOf sign * (100 * (oh : Int) + (om : Int)))
      = ((100 * oh + om : Nat) : Int) := by
    rcases hsv with e | e
    · rw [e, one_mul, if_neg (by omega)]; push_cast; ring
    · rw [e]
      by_cases hz : (-1 : Int) * (100 * (oh : Int) + (om : Int)) < 0
      · rw [if_pos hz]
        have : ineg (-1 * (100 * (oh : Int) + (om : Int))) = -(-1 * (100 * (oh : Int) + (om : Int))) :=
          wrap32_of_range (by omega) (by omega)
        rw [this]; push_cast; ring
      · rw [if_neg hz]; push_cast; omega
  have ediv : (((100 * oh + om : Nat) : Int)).tdiv 100 = (oh : Int) := by
    rw [tdiv_of_nonneg _ _ (by omega) (by decide)]; omega
  have emod : (((100 * oh + om : Nat) : Int)).tmod 100 = (om : Int) := by
    rw [tmod_of_nonneg _ _ (by omega) (by decide)]; omega
  simp only [eY, eM, esign, eabs, ediv, emod]
  rw [fmt_0d_four Y (by omega) (by omega), fmt_0d_two M (by omega), fmt_0d_two D (by omega),
    fmt_0d_two h (by omega), fmt_0d_two mi (by omega), fmt_0d_two s (by omega),
    fmt_0d_two oh (by omega), fmt_0d_two om (by omega)]
  exact congrArg some (cstring_of_no_NUL _ (isoStrictLiteral_no_NUL Y M D h mi s sign oh om
    (by omega) (by omega) (by omega) (by omega) (by omega) (by omega) hsign (by omega)
    (by omega)))

/-! ### The token classifiers on the tokens of the strict ISO form -/

theorem match_alpha_of_not_alpha (date : List Char) (tm : Tm) (offset pc : Int)
    (h : isalpha (chr date) = false) : match_alpha date tm offset pc = (-1, tm, offset, pc) := by
  unfold match_alpha
  rw [if_pos h]

theorem match_tz_of_not_sign (date : List Char) (offp pc : Int)
    (h1 : chr date ≠ '-') (h2 : chr date ≠ '+') : match_tz date offp pc = (-1, offp, pc) := by
  unfold match_tz
  have hg : ¬ ((chr date = '-' ∨ chr date = '+') ∧ isdigit (chr (date.drop 1)) = true) := by
    tauto
  rw [if_pos hg]

theorem match_alpha_T_digit (d : Nat) (hd : d < 10) (rest : List Char) (tm : Tm)
    (offset pc : Int) :
    match_alpha ('T' :: digitChar d :: rest) tm offset pc = (-1, tm, offset, pc) := by
  interval_cases d <;> rfl

theorem fill_date_in_tm_civil (Y M D : Nat) (tm : Tm) (hY1 : 1583 ≤ Y) (hY2 : Y ≤ 9999)
    (hM : M ≤ 12) :
    fill_date_in_tm (Y : Int) (M : Int) (D : Int) tm
      = { tm with tm_year := (Y : Int) - 1900, tm_mon := (M : Int) - 1, tm_mday := (D : Int) } := by
  unfold fill_date_in_tm normalized_year_for_tm normalized_month_for_tm normalized_year
  have c1 : ¬ (70 < (Y : Int) ∧ (Y : Int) ≤ 99) := by omega
  have c2 : ¬ (0 ≤ (Y : Int) ∧ (Y : Int) < 38) := by omega
  rw [if_neg c1, if_neg c2]
  have e1 : isub (Y : Int) 1900 = (Y : Int) - 1900 := wrap32_of_range (by omega) (by omega)
  have e2 : isub (M : Int) 1 = (M : Int) - 1 := wrap32_of_range (by omega) (by omega)
  rw [e1, e2]

/-- The numbers read after a four-character year: `-MM-DD`. -/
theorem multi_number_read_two_two (c : Char) (a b : Nat) (y1 y2 y3 y4 : Char)
    (rest : List Char) (ha : a < 100) (hb : b < 100)
    (hc : isdigit c = false)
    (hrest : isdigit (chr rest) = false) :
    multi_number_read c
        (y1 :: y2 :: y3 :: y4 :: c :: digitChar (a / 10) :: digitChar (a % 10) :: c
          :: digitChar (b / 10) :: digitChar (b % 10) :: rest) 4
      = ((a : Int), (b : Int), 10) := by
  have hcd : isdigit (chr (c :: digitChar (b / 10) :: digitChar (b % 10) :: rest)) = false := hc
  have hs2 := strtol_two (a / 10) (a % 10)
    (c :: digitChar (b / 10) :: digitChar (b % 10) :: rest) (by omega) (by omega) hcd
  have ea : 10 * (a / 10) + a % 10 = a := by omega
  rw [ea] at hs2
  have hs3 := strtol_two (b / 10) (b % 10) rest (by omega) (by omega) hrest
  have eb : 10 * (b / 10) + b % 10 = b := by omega
  rw [eb] at hs3
  unfold multi_number_read
  have d5 : List.drop (4 + 1) (y1 :: y2 :: y3 :: y4 :: c :: digitChar (a / 10)
        :: digitChar (a % 10) :: c :: digitChar (b / 10) :: digitChar (b % 10) :: rest)
      = digitChar (a / 10) :: digitChar (a % 10) :: c :: digitChar (b / 10)
        :: digitChar (b % 10) :: rest := rfl
  rw [d5, hs2]
  have d7 : List.drop (4 + 1 + ((a : Int), 2).2) (y1 :: y2 :: y3 :: y4 :: c :: digitChar (a / 10)
        :: digitChar (a % 10) :: c :: digitChar (b / 10) :: digitChar (b % 10) :: rest)
      = c :: digitChar (b / 10) :: digitChar (b % 10) :: rest := rfl
  have d8 : List.drop (4 + 1 + ((a : Int), 2).2 + 1) (y1 :: y2 :: y3 :: y4 :: c
        :: digitChar (a / 10) :: digitChar (a % 10) :: c :: digitChar (b / 10)
        :: digitChar (b % 10) :: rest)
      = digitChar (b / 10) :: digitChar (b % 10) :: rest := rfl
  rw [d7, d8, hs3]
  have hg : chr (c :: digitChar (b / 10) :: digitChar (b % 10) :: rest) = c
      ∧ isdigit (chr (digitChar (b / 10) :: digitChar (b % 10) :: rest)) = true :=
    ⟨rfl, isdigit_digitChar (b / 10) (by omega)⟩
  rw [if_pos hg]
  rfl

/-- The numbers read after a two-character hour: `:MM:SS`. -/
theorem multi_number_read_time (c : Char) (a b : Nat) (y1 y2 : Char)
    (rest : List Char) (ha : a < 100) (hb : b < 100)
    (hc : isdigit c = false)
    (hrest : isdigit (chr rest) = false) :
    multi_number_read c
        (y1 :: y2 :: c :: digitChar (a / 10) :: digitChar (a % 10) :: c
          :: digitChar (b / 10) :: digitChar (b % 10) :: rest) 2
      = ((a : Int), (b : Int), 8) := by
  have hcd : isdigit (chr (c :: digitChar (b / 10) :: digitChar (b % 10) :: rest)) = false := hc
  have hs2 := strtol_two (a / 10) (a % 10)
    (c :: digitChar (b / 10) :: digitChar (b % 10) :: rest) (by omega) (by omega) hcd
  have ea : 10 * (a / 10) + a % 10 = a := by omega
  rw [ea] at hs2
  have hs3 := strtol_two (b / 10) (b % 10) rest (by omega) (by omega) hrest
  have eb : 10 * (b / 10) + b % 10 = b := by omega
  rw [eb] at hs3
  unfold multi_number_read
  have d5 : List.drop (2 + 1) (y1 :: y2 :: c :: digitChar (a / 10)
        :: digitChar (a % 10) :: c :: digitChar (b / 10) :: digitChar (b % 10) :: rest)
      = digitChar (a / 10) :: digitChar (a % 10) :: c :: digitChar (b / 10)
        :: digitChar (b % 10) :: rest := rfl
  rw [d5, hs2]
  have d7 : List.drop (2 + 1 + ((a : Int), 2).2) (y1 :: y2 :: c :: digitChar (a / 10)
        :: digitChar (a % 10) :: c :: digitChar (b / 10) :: digitChar (b % 10) :: rest)
      = c :: digitChar (b / 10) :: digitChar (b % 10) :: rest := rfl
  have d8 : List.drop (2 + 1 + ((a : Int), 2).2 + 1) (y1 :: y2 :: c
        :: digitChar (a / 10) :: digitChar (a % 10) :: c :: digitChar (b / 10)
        :: digitChar (b % 10) :: rest)
      = digitChar (b / 10) :: digitChar (b % 10) :: rest := rfl
  rw [d7, d8, hs3]
  have hg : chr (c :: digitChar (b / 10) :: digitChar (b % 10) :: rest) = c
      ∧ isdigit (chr (digitChar (b / 10) :: digitChar (b % 10) :: rest)) = true :=
    ⟨rfl, isdigit_digitChar (b / 10) (by omega)⟩
  rw [if_pos hg]
  rfl

theorem multi_number_fill_date (env : Env) (Y M D : Nat) (e : Nat) (tm : Tm) (now : Int)
    (hY1 : 1583 ≤ Y) (hY2 : Y ≤ 9999) (hM1 : 1 ≤ M) (hM2 : M ≤ 12) (hD1 : 1 ≤ D) (hD2 : D ≤ 31) :
    multi_number_fill env (wrapU64 (Y : Int)) '-' (M : Int) (D : Int) e tm now
      = some ((e : Int), { tm with tm_year := (Y : Int) - 1900, tm_mon := (M : Int) - 1,
                                   tm_mday := (D : Int) }) := by
  have hwY : wrap32 (wrapU64 (Y : Int)) = (Y : Int) := by
    have : wrapU64 (Y : Int) = (Y : Int) := by unfold wrapU64; omega
    rw [this]; exact wrap32_of_range (by omega) (by omega)
  have hwM : wrap32 (M : Int) = (M : Int) := wrap32_of_range (by omega) (by omega)
  have hwD : wrap32 (D : Int) = (D : Int) := wrap32_of_range (by omega) (by omega)
  have hgo := get_date_order_ymd (Y : Int) (M : Int) (D : Int) '-'
    (gmtime (if now = 0 then env.time_now else now)) (by omega) (by omega) (by omega)
  unfold multi_number_fill
  have c1 : ¬ ('-' = ':') := by decide
  have c2 : ('-' : Char) = '-' ∨ ('-' : Char) = '/' ∨ ('-' : Char) = '.' := Or.inl rfl
  rw [if_neg c1, if_pos c2]
  simp only [hwY, hwM, hwD, hgo]
  rw [fill_date_in_tm_civil Y M D tm hY1 hY2 hM2]

theorem multi_number_fill_time (env : Env) (h mi s : Nat) (e : Nat) (tm : Tm) (now : Int)
    (hh : h ≤ 24) (hmi : mi < 60) (hs : s ≤ 60) :
    multi_number_fill env (wrapU64 (h : Int)) ':' (mi : Int) (s : Int) e tm now
      = some ((e : Int), { tm with tm_hour := (h : Int), tm_min := (mi : Int),
                                   tm_sec := (s : Int) }) := by
  have hwh : wrap32 (wrapU64 (h : Int)) = (h : Int) := by
    have : wrapU64 (h : Int) = (h : Int) := by unfold wrapU64; omega
    rw [this]; exact wrap32_of_range (by omega) (by omega)
  have hwm : wrap32 (mi : Int) = (mi : Int) := wrap32_of_range (by omega) (by omega)
  have hws : wrap32 (s : Int) = (s : Int) := wrap32_of_range (by omega) (by omega)
  have hneg : ¬ ((s : Int) < 0) := by omega
  unfold multi_number_fill
  rw [if_pos rfl]
  simp only [hneg, if_false, hwh, hwm, hws]
  have c : could_be_a_hour (h : Int) = true ∧ could_be_a_minute (mi : Int) = true
      ∧ could_be_a_second (s : Int) = true := by
    refine ⟨?_, ?_, ?_⟩
    · simp [could_be_a_hour]; omega
    · simp [could_be_a_minute]; omega
    · simp [could_be_a_second]; omega
  rw [if_pos c]
  rfl

theorem match_digit_date (env : Env) (Y M D : Nat) (rest : List Char) (st : PState)
    (hY1 : 1583 ≤ Y) (hY2 : Y ≤ 9999) (hM1 : 1 ≤ M) (hM2 : M ≤ 12) (hD1 : 1 ≤ D) (hD2 : D ≤ 31)
    (hrest : isdigit (chr rest) = false) :
    match_digit env
        (digitChar (Y / 1000) :: digitChar (Y / 100 % 10) :: digitChar (Y / 10 % 10)
          :: digitChar (Y % 10) :: '-' :: digitChar (M / 10) :: digitChar (M % 10) :: '-'
          :: digitChar (D / 10) :: digitChar (D % 10) :: rest) st
      = some (0, { st with
          tm := { st.tm with tm_year := (Y : Int) - 1900, tm_mon := (M : Int) - 1,
                             tm_mday := (D : Int) },
          parsed_chars := 10 }) := by
  have hs := strtol_four (Y / 1000) (Y / 100 % 10) (Y / 10 % 10) (Y % 10)
    ('-' :: digitChar (M / 10) :: digitChar (M % 10) :: '-' :: digitChar (D / 10)
      :: digitChar (D % 10) :: rest) (by omega) (by omega) (by omega) (by omega) rfl
  have eY : 1000 * (Y / 1000) + 100 * (Y / 100 % 10) + 10 * (Y / 10 % 10) + Y % 10 = Y := by omega
  rw [eY] at hs
  have hr := multi_number_read_two_two '-' M D (digitChar (Y / 1000)) (digitChar (Y / 100 % 10))
    (digitChar (Y / 10 % 10)) (digitChar (Y % 10)) rest (by omega) (by omega) rfl hrest
  have hf := multi_number_fill_date env Y M D 10 st.tm 0 hY1 hY2 hM1 hM2 hD1 hD2
  have hmm : match_multi_number env (wrapU64 (Y : Int)) '-'
      (digitChar (Y / 1000) :: digitChar (Y / 100 % 10) :: digitChar (Y / 10 % 10)
        :: digitChar (Y % 10) :: '-' :: digitChar (M / 10) :: digitChar (M % 10) :: '-'
        :: digitChar (D / 10) :: digitChar (D % 10) :: rest) 4 st.tm 0
      = some (((10 : Nat) : Int),
          { st.tm with tm_year := (Y : Int) - 1900, tm_mon := (M : Int) - 1,
                       tm_mday := (D : Int) }) := by
    unfold match_multi_number
    rw [hr]
    exact hf
  unfold match_digit
  have hguard : (isdigit (chr (digitChar (Y / 1000) :: digitChar (Y / 100 % 10)
        :: digitChar (Y / 10 % 10) :: digitChar (Y % 10) :: '-' :: digitChar (M / 10)
        :: digitChar (M % 10) :: '-' :: digitChar (D / 10) :: digitChar (D % 10) :: rest)) = true
      ∨ chr (digitChar (Y / 1000) :: digitChar (Y / 100 % 10)
        :: digitChar (Y / 10 % 10) :: digitChar (Y % 10) :: '-' :: digitChar (M / 10)
        :: digitChar (M % 10) :: '-' :: digitChar (D / 10) :: digitChar (D % 10) :: rest) = '-'
      ∨ chr (digitChar (Y / 1000) :: digitChar (Y / 100 % 10)
        :: digitChar (Y / 10 % 10) :: digitChar (Y % 10) :: '-' :: digitChar (M / 10)
        :: digitChar (M % 10) :: '-' :: digitChar (D / 10) :: digitChar (D % 10) :: rest) = '+')
      ∧ isdigit (chr (List.drop 1 (digitChar (Y / 1000) :: digitChar (Y / 100 % 10)
        :: digitChar (Y / 10 % 10) :: digitChar (Y % 10) :: '-' :: digitChar (M / 10)
        :: digitChar (M % 10) :: '-' :: digitChar (D / 10) :: digitChar (D % 10) :: rest)))
        = true :=
    ⟨Or.inl (isdigit_digitChar _ (by omega)), isdigit_digitChar _ (by omega)⟩
  rw [if_neg (not_not.2 hguard), hs]
  have hep : ¬ (((Y : Int) ≥ 100000000 ∨ (Y : Int) ≤ -100000000) ∧ nodate st.tm = true) := by
    omega
  have hsg : ¬ (chr (digitChar (Y / 1000) :: digitChar (Y / 100 % 10)
        :: digitChar (Y / 10 % 10) :: digitChar (Y % 10) :: '-' :: digitChar (M / 10)
        :: digitChar (M % 10) :: '-' :: digitChar (D / 10) :: digitChar (D % 10) :: rest) = '-'
      ∨ chr (List.drop 1 (digitChar (Y / 1000) :: digitChar (Y / 100 % 10)
        :: digitChar (Y / 10 % 10) :: digitChar (Y % 10) :: '-' :: digitChar (M / 10)
        :: digitChar (M % 10) :: '-' :: digitChar (D / 10) :: digitChar (D % 10) :: rest))
        = '+') := by
    intro h
    rcases h with h | h
    · exact digitChar_ne_minus _ (by omega) h
    · exact digitChar_ne_plus _ (by omega) h
  have hc : chr (List.drop 4 (digitChar (Y / 1000) :: digitChar (Y / 100 % 10)
        :: digitChar (Y / 10 % 10) :: digitChar (Y % 10) :: '-' :: digitChar (M / 10)
        :: digitChar (M % 10) :: '-' :: digitChar (D / 10) :: digitChar (D % 10) :: rest))
      = '-' := rfl
  have hcm : ('-' = ':' ∨ '-' = '.' ∨ '-' = '/' ∨ ('-' : Char) = '-')
      ∧ isdigit (chr (List.drop (4 + 1) (digitChar (Y / 1000) :: digitChar (Y / 100 % 10)
        :: digitChar (Y / 10 % 10) :: digitChar (Y % 10) :: '-' :: digitChar (M / 10)
        :: digitChar (M % 10) :: '-' :: digitChar (D / 10) :: digitChar (D % 10) :: rest)))
        = true :=
    ⟨Or.inr (Or.inr (Or.inr rfl)), isdigit_digitChar _ (by omega)⟩
  dsimp only
  rw [if_neg hep]
  dsimp only
  rw [if_neg hsg, hc, if_pos hcm, hmm]
  dsimp only
  rw [if_pos (by decide)]
  rfl

theorem match_digit_time (env : Env) (h mi s : Nat) (rest : List Char) (st : PState)
    (hh : h ≤ 24) (hmi : mi < 60) (hs : s ≤ 60) (hrest : isdigit (chr rest) = false) :
    match_digit env
        (digitChar (h / 10) :: digitChar (h % 10) :: ':' :: digitChar (mi / 10)
          :: digitChar (mi % 10) :: ':' :: digitChar (s / 10) :: digitChar (s % 10) :: rest) st
      = some (0, { st with
          tm := { st.tm with tm_hour := (h : Int), tm_min := (mi : Int), tm_sec := (s : Int) },
          parsed_chars := 8 }) := by
  have hst := strtol_two (h / 10) (h % 10)
    (':' :: digitChar (mi / 10) :: digitChar (mi % 10) :: ':' :: digitChar (s / 10)
      :: digitChar (s % 10) :: rest) (by omega) (by omega) rfl
  have eh : 10 * (h / 10) + h % 10 = h := by omega
  rw [eh] at hst
  have hr := multi_number_read_time ':' mi s (digitChar (h / 10)) (digitChar (h % 10)) rest
    (by omega) (by omega) rfl hrest
  have hf := multi_number_fill_time env h mi s 8 st.tm 0 hh hmi hs
  have hmm : match_multi_number env (wrapU64 (h : Int)) ':'
      (digitChar (h / 10) :: digitChar (h % 10) :: ':' :: digitChar (mi / 10)
        :: digitChar (mi % 10) :: ':' :: digitChar (s / 10) :: digitChar (s % 10) :: rest)
      2 st.tm 0
      = some (((8 : Nat) : Int),
          { st.tm with tm_hour := (h : Int), tm_min := (mi : Int), tm_sec := (s : Int) }) := by
    unfold match_multi_number
    rw [hr]
    exact hf
  unfold match_digit
  have hguard : (isdigit (chr (digitChar (h / 10) :: digitChar (h % 10) :: ':'
        :: digitChar (mi / 10) :: digitChar (mi % 10) :: ':' :: digitChar (s / 10)
        :: digitChar (s % 10) :: rest)) = true
      ∨ chr (digitChar (h / 10) :: digitChar (h % 10) :: ':'
        :: digitChar (mi / 10) :: digitChar (mi % 10) :: ':' :: digitChar (s / 10)
        :: digitChar (s % 10) :: rest) = '-'
      ∨ chr (digitChar (h / 10) :: digitChar (h % 10) :: ':'
        :: digitChar (mi / 10) :: digitChar (mi % 10) :: ':' :: digitChar (s / 10)
        :: digitChar (s % 10) :: rest) = '+')
      ∧ isdigit (chr (List.drop 1 (digitChar (h / 10) :: digitChar (h % 10) :: ':'
        :: digitChar (mi / 10) :: digitChar (mi % 10) :: ':' :: digitChar (s / 10)
        :: digitChar (s % 10) :: rest))) = true :=
    ⟨Or.inl (isdigit_digitChar _ (by omega)), isdigit_digitChar _ (by omega)⟩
  rw [if_neg (not_not.2 hguard), hst]
  have hep : ¬ (((h : Int) ≥ 100000000 ∨ (h : Int) ≤ -100000000) ∧ nodate st.tm = true) := by
    omega
  have hsg : ¬ (chr (digitChar (h / 10) :: digitChar (h % 10) :: ':'
        :: digitChar (mi / 10) :: digitChar (mi % 10) :: ':' :: digitChar (s / 10)
        :: digitChar (s % 10) :: rest) = '-'
      ∨ chr (List.drop 1 (digitChar (h / 10) :: digitChar (h % 10) :: ':'
        :: digitChar (mi / 10) :: digitChar (mi % 10) :: ':' :: digitChar (s / 10)
        :: digitChar (s % 10) :: rest)) = '+') := by
    intro h
    rcases h with h | h
    · exact digitChar_ne_minus _ (by omega) h
    · exact digitChar_ne_plus _ (by omega) h
  have hc : chr (List.drop 2 (digitChar (h / 10) :: digitChar (h % 10) :: ':'
        :: digitChar (mi / 10) :: digitChar (mi % 10) :: ':' :: digitChar (s / 10)
        :: digitChar (s % 10) :: rest)) = ':' := rfl
  have hcm : (':' = ':' ∨ ':' = '.' ∨ ':' = '/' ∨ (':' : Char) = '-')
      ∧ isdigit (chr (List.drop (2 + 1) (digitChar (h / 10) :: digitChar (h % 10) :: ':'
        :: digitChar (mi / 10) :: digitChar (mi % 10) :: ':' :: digitChar (s / 10)
        :: digitChar (s % 10) :: rest))) = true :=
    ⟨Or.inl rfl, isdigit_digitChar _ (by omega)⟩
  dsimp only
  rw [if_neg hep]
  dsimp only
  rw [if_neg hsg, hc, if_pos hcm, hmm]
  dsimp only
  rw [if_pos (by decide)]
  rfl

theorem match_digit_of_not_number (env : Env) (date : List Char) (st : PState)
    (h1 : isdigit (chr date) = false) (h2 : chr date ≠ '-') (h3 : chr date ≠ '+') :
    match_digit env date st = some (-1, st) := by
  unfold match_digit
  have hg : ¬ ((isdigit (chr date) = true ∨ chr date = '-' ∨ chr date = '+')
      ∧ isdigit (chr (date.drop 1)) = true) := by
    rw [h1]
    intro h
    rcases h.1 with h | h | h
    · cases h
    · exact h2 h
    · exact h3 h
  rw [if_pos hg]

/-- A round of the parser at a number: neither a name nor a numeric zone. -/
theorem parse_step_digit (env : Env) (date : List Char) (st st1 : PState)
    (h1 : isalpha (chr date) = false) (h2 : chr date ≠ '-') (h3 : chr date ≠ '+')
    (h : match_digit env date { st with parsed_chars := 0 } = some (0, st1)) :
    parse_step env date st = some st1 := by
  unfold parse_step
  rw [match_alpha_of_not_alpha date st.tm st.offset 0 h1]
  dsimp only
  rw [if_neg (by decide), match_tz_of_not_sign date st.offset 0 h2 h3]
  dsimp only
  rw [if_neg (by decide)]
  have e : ({ st with tm := st.tm, offset := st.offset, parsed_chars := 0 } : PState)
      = { st with parsed_chars := 0 } := rfl
  rw [e, h]
  rfl

/-- A round of the parser at the letter T before a digit: one character is skipped. -/
theorem parse_step_T (env : Env) (d : Nat) (hd : d < 10) (rest : List Char) (st : PState) :
    parse_step env ('T' :: digitChar d :: rest) st = some { st with parsed_chars := 1 } := by
  have n1 : chr ('T' :: digitChar d :: rest) ≠ '-' := by
    show 'T' ≠ '-'
    decide
  have n2 : chr ('T' :: digitChar d :: rest) ≠ '+' := by
    show 'T' ≠ '+'
    decide
  unfold parse_step
  rw [match_alpha_T_digit d hd rest st.tm st.offset 0]
  dsimp only
  rw [if_neg (by decide), match_tz_of_not_sign ('T' :: digitChar d :: rest) st.offset 0 n1 n2]
  dsimp only
  rw [if_neg (by decide), match_digit_of_not_number env ('T' :: digitChar d :: rest) _ rfl n1 n2]
  rfl

/-- A round of the parser at a numeric zone `±HH:MM`. -/
theorem parse_step_zone (env : Env) (sign : Char) (oh om : Nat) (rest : List Char)
    (st : PState) (hsign : sign = '+' ∨ sign = '-') (hoh : oh < 24) (hom : om < 60)
    (hrest : isdigit (chr rest) = false) :
    parse_step env
        (sign :: digitChar (oh / 10) :: digitChar (oh % 10) :: ':' :: digitChar (om / 10)
          :: digitChar (om % 10) :: rest) st
      = some { st with offset := signOf sign * (60 * (oh : Int) + (om : Int)),
                       parsed_chars := 6 } := by
  have hna : isalpha (chr (sign :: digitChar (oh / 10) :: digitChar (oh % 10) :: ':'
      :: digitChar (om / 10) :: digitChar (om % 10) :: rest)) = false := by
    rcases hsign with e | e <;> rw [e] <;> rfl
  have htz := match_tz_hh_colon_mm sign (oh / 10) (oh % 10) (om / 10) (om % 10) rest st.offset 0
    hsign (by omega) (by omega) (by omega) (by omega) hrest
  have e1 : 10 * (oh / 10) + oh % 10 = oh := by omega
  have e2 : 10 * (om / 10) + om % 10 = om := by omega
  rw [e1, e2, if_pos ⟨hoh, hom⟩] at htz
  unfold parse_step
  rw [match_alpha_of_not_alpha _ st.tm st.offset 0 hna]
  dsimp only
  rw [if_neg (by decide), htz]
  dsimp only
  rw [if_pos rfl]

theorem parse_loop_step (env : Env) (fuel : Nat) (date : List Char) (st st1 : PState) (k : Nat)
    (hne : ¬ (chr date = NUL ∨ chr date = '\n')) (hs : parse_step env date st = some st1)
    (hk : st1.parsed_chars = (k : Int)) :
    parse_loop env (fuel + 1) date st = parse_loop env fuel (date.drop k) st1 := by
  rw [parse_loop, if_neg hne, hs]
  dsimp only
  rw [hk, Int.toNat_ofNat]

theorem parse_loop_end (env : Env) (fuel : Nat) (date : List Char) (st : PState)
    (h : chr date = NUL ∨ chr date = '\n') :
    parse_loop env (fuel + 1) date st = some st := by
  rw [parse_loop, if_pos h]

theorem digitChar_not_end (d : Nat) (hd : d < 10) (rest : List Char) :
    ¬ (chr (digitChar d :: rest) = NUL ∨ chr (digitChar d :: rest) = '\n') := by
  intro h
  rcases h with h | h
  · exact digitChar_ne_NUL d hd h
  · have : isdigit (digitChar d) = false := by
      have e : digitChar d = '\n' := h
      rw [e]; rfl
    rw [isdigit_digitChar d hd] at this
    cases this

/-- The state in which the loop of `parse_date_basic` ends on a strict ISO literal. -/
theorem parse_loop_iso_strict (env : Env) (Y M D h mi s : Nat) (sign : Char) (oh om : Nat)
    (hY1 : 1583 ≤ Y) (hY2 : Y ≤ 9999) (hM1 : 1 ≤ M) (hM2 : M ≤ 12) (hD1 : 1 ≤ D) (hD2 : D ≤ 31)
    (hh : h ≤ 24) (hmi : mi < 60) (hs : s ≤ 60) (hsign : sign = '+' ∨ sign = '-')
    (hoh : oh < 24) (hom : om < 60) :
    parse_loop env 26 (isoStrictLiteral Y M D h mi s sign oh om)
        { tm := unsetTm, offset := -1, tm_gmt := 0, parsed_chars := 0 }
      = some { tm := { unsetTm with tm_year := (Y : Int) - 1900, tm_mon := (M : Int) - 1,
                                    tm_mday := (D : Int), tm_hour := (h : Int),
                                    tm_min := (mi : Int), tm_sec := (s : Int) },
               offset := signOf sign * (60 * (oh : Int) + (om : Int)),
               tm_gmt := 0, parsed_chars := 6 } := by
  have hsd : isdigit sign = false := by
    rcases hsign with e | e <;> rw [e] <;> rfl
  have hsne : ¬ (sign = NUL ∨ sign = '\n') := by
    rcases hsign with e | e <;> rw [e] <;> decide
  unfold isoStrictLiteral
  -- the date
  have s1 := parse_step_digit env
    (digitChar (Y / 1000) :: digitChar (Y / 100 % 10) :: digitChar (Y / 10 % 10)
      :: digitChar (Y % 10) :: '-' :: digitChar (M / 10) :: digitChar (M % 10) :: '-'
      :: digitChar (D / 10) :: digitChar (D % 10)
      :: ('T' :: digitChar (h / 10) :: digitChar (h % 10) :: ':' :: digitChar (mi / 10)
        :: digitChar (mi % 10) :: ':' :: digitChar (s / 10) :: digitChar (s % 10) :: sign
        :: digitChar (oh / 10) :: digitChar (oh % 10) :: ':' :: digitChar (om / 10)
        :: [digitChar (om % 10)]))
    { tm := unsetTm, offset := -1, tm_gmt := 0, parsed_chars := 0 } _
    (isalpha_digitChar _ (by omega)) (digitChar_ne_minus _ (by omega))
    (digitChar_ne_plus _ (by omega))
    (match_digit_date env Y M D _ _ hY1 hY2 hM1 hM2 hD1 hD2 rfl)
  rw [parse_loop_step env 25 _ _ _ 10 (digitChar_not_end _ (by omega) _) s1 rfl]
  -- the letter T
  have s2 := parse_step_T env (h / 10) (by omega)
    (digitChar (h % 10) :: ':' :: digitChar (mi / 10)
        :: digitChar (mi % 10) :: ':' :: digitChar (s / 10) :: digitChar (s % 10) :: sign
        :: digitChar (oh / 10) :: digitChar (oh % 10) :: ':' :: digitChar (om / 10)
        :: [digitChar (om % 10)])
    { tm := { unsetTm with tm_year := (Y : Int) - 1900, tm_mon := (M : Int) - 1,
                           tm_mday := (D : Int) },
      offset := -1, tm_gmt := 0, parsed_chars := 10 }
  have d10 : List.drop 10 (digitChar (Y / 1000) :: digitChar (Y / 100 % 10)
      :: digitChar (Y / 10 % 10)
      :: digitChar (Y % 10) :: '-' :: digitChar (M / 10) :: digitChar (M % 10) :: '-'
      :: digitChar (D / 10) :: digitChar (D % 10)
      :: ('T' :: digitChar (h / 10) :: digitChar (h % 10) :: ':' :: digitChar (mi / 10)
        :: digitChar (mi % 10) :: ':' :: digitChar (s / 10) :: digitChar (s % 10) :: sign
        :: digitChar (oh / 10) :: digitChar (oh % 10) :: ':' :: digitChar (om / 10)
        :: [digitChar (om % 10)]))
      = 'T' :: digitChar (h / 10) :: digitChar (h % 10) :: ':' :: digitChar (mi / 10)
        :: digitChar (mi % 10) :: ':' :: digitChar (s / 10) :: digitChar (s % 10) :: sign
        :: digitChar (oh / 10) :: digitChar (oh % 10) :: ':' :: digitChar (om / 10)
        :: [digitChar (om % 10)] := rfl
  have hT : ∀ l : List Char, ¬ (chr ('T' :: l) = NUL ∨ chr ('T' :: l) = '\n') := by
    intro l
    show ¬ ('T' = NUL ∨ 'T' = '\n')
    decide
  rw [d10, parse_loop_step env 24 _ _ _ 1 (hT _) s2 rfl]
  -- the time
  have s3 := parse_step_digit env
    (digitChar (h / 10) :: digitChar (h % 10) :: ':' :: digitChar (mi / 10)
        :: digitChar (mi % 10) :: ':' :: digitChar (s / 10) :: digitChar (s % 10)
        :: (sign :: digitChar (oh / 10) :: digitChar (oh % 10) :: ':' :: digitChar (om / 10)
        :: [digitChar (om % 10)]))
    { tm := { unsetTm with tm_year := (Y : Int) - 1900, tm_mon := (M : Int) - 1,
                           tm_mday := (D : Int) },
      offset := -1, tm_gmt := 0, parsed_chars := 1 } _
    (isalpha_digitChar _ (by omega)) (digitChar_ne_minus _ (by omega))
    (digitChar_ne_plus _ (by omega))
    (match_digit_time env h mi s _ _ hh hmi hs hsd)
  have d1 : List.drop 1 ('T' :: digitChar (h / 10) :: digitChar (h % 10) :: ':'
        :: digitChar (mi / 10)
        :: digitChar (mi % 10) :: ':' :: digitChar (s / 10) :: digitChar (s % 10) :: sign
        :: digitChar (oh / 10) :: digitChar (oh % 10) :: ':' :: digitChar (om / 10)
        :: [digitChar (om % 10)])
      = digitChar (h / 10) :: digitChar (h % 10) :: ':' :: digitChar (mi / 10)
        :: digitChar (mi % 10) :: ':' :: digitChar (s / 10) :: digitChar (s % 10)
        :: (sign :: digitChar (oh / 10) :: digitChar (oh % 10) :: ':' :: digitChar (om / 10)
        :: [digitChar (om % 10)]) := rfl
  rw [d1, parse_loop_step env 23 _ _ _ 8 (digitChar_not_end _ (by omega) _) s3 rfl]
  -- the zone
  have s4 := parse_step_zone env sign oh om []
    { tm := { unsetTm with tm_year := (Y : Int) - 1900, tm_mon := (M : Int) - 1,
                           tm_mday := (D : Int), tm_hour := (h : Int),
                           tm_min := (mi : Int), tm_sec := (s : Int) },
      offset := -1, tm_gmt := 0, parsed_chars := 8 } hsign hoh hom rfl
  have d8 : List.drop 8 (digitChar (h / 10) :: digitChar (h % 10) :: ':' :: digitChar (mi / 10)
        :: digitChar (mi % 10) :: ':' :: digitChar (s / 10) :: digitChar (s % 10)
        :: (sign :: digitChar (oh / 10) :: digitChar (oh % 10) :: ':' :: digitChar (om / 10)
        :: [digitChar (om % 10)]))
      = sign :: digitChar (oh / 10) :: digitChar (oh % 10) :: ':' :: digitChar (om / 10)
        :: digitChar (om % 10) :: [] := rfl
  have hsne2 : ∀ l : List Char, ¬ (chr (sign :: l) = NUL ∨ chr (sign :: l) = '\n') :=
    fun _ => hsne
  rw [d8, parse_loop_step env 22 _ _ _ 6 (hsne2 _) s4 rfl]
  exact parse_loop_end env 21 _ _ (Or.inl rfl)

/-! ### Round trip through the strict ISO form -/

/-- The result of `parse_date_basic` on a strict ISO literal whose offset is not the
value -1. -/
theorem parse_date_basic_iso_strict (env : Env) (Y M D h mi s : Nat) (sign : Char) (oh om : Nat)
    (hY1 : 1583 ≤ Y) (hY2 : Y ≤ 2999) (hv : validDate (Y : Int) M (D : Int))
    (hh : h < 24) (hmi : mi < 60) (hs : s < 60) (hsign : sign = '+' ∨ sign = '-')
    (hoh : oh < 24) (hom : om < 60) (hne : sign = '+' ∨ 60 * oh + om ≠ 1) :
    parse_date_basic env (isoStrictLiteral Y M D h mi s sign oh om)
      = Parsed.success
          (86400 * civilDays (Y : Int) M (D : Int) + (h : Int) * 3600 + (mi : Int) * 60 + (s : Int)
            - 60 * (signOf sign * (60 * (oh : Int) + (om : Int))))
          (signOf sign * (60 * (oh : Int) + (om : Int))) := by
  have hdm := daysInMonth_le (Y : Int) M
  have hb := civilDays_bounds (Y : Int) M (D : Int) hv (by omega) (by omega)
  obtain ⟨hM1, hM2, hD1, hD2⟩ := hv
  have hloop := parse_loop_iso_strict env Y M D h mi s sign oh om hY1 (by omega) hM1 hM2
    (by omega) (by omega) (by omega) hmi (by omega) hsign hoh hom
  have hsv : signOf sign = 1 ∨ signOf sign = -1 := by
    rcases hsign with e | e <;> rw [e]
    · left; decide
    · right; decide
  have hoff : signOf sign * (60 * (oh : Int) + (om : Int)) ≠ -1 := by
    rcases hsign with e | e
    · subst e
      have es : signOf '+' = 1 := by decide
      rw [es]; omega
    · subst e
      have es : signOf '-' = -1 := by decide
      have hk : 60 * oh + om ≠ 1 := by
        rcases hne with hc | hc
        · exact absurd hc (by decide)
        · exact hc
      rw [es]; omega
  have htm := tm_to_time_t_in_range
    { unsetTm with tm_year := (Y : Int) - 1900, tm_mon := (M : Int) - 1,
                   tm_mday := (D : Int), tm_hour := (h : Int),
                   tm_min := (mi : Int), tm_sec := (s : Int) }
    (Y : Int) M rfl rfl (by omega) (by omega) hM1 hM2
    (by show -1000 ≤ (D : Int); omega) (by show (D : Int) ≤ 1000; omega)
    (by show 0 ≤ (h : Int); omega) (by show (h : Int) ≤ 596523; omega)
    (by show 0 ≤ (mi : Int); omega) (by show (mi : Int) ≤ 35791394; omega)
    (by show 0 ≤ (s : Int); omega) (by show (s : Int) ≤ 2147483647; omega)
  have hat : ¬ (chr (isoStrictLiteral Y M D h mi s sign oh om) = '@') := by
    intro e
    have e2 : digitChar (Y / 1000) = '@' := e
    have : isdigit (digitChar (Y / 1000)) = false := by rw [e2]; rfl
    rw [isdigit_digitChar _ (by omega)] at this
    cases this
  have hlen : (isoStrictLiteral Y M D h mi s sign oh om).length + 1 = 26 := rfl
  unfold parse_date_basic
  rw [if_neg hat]
  dsimp only
  rw [hlen, hloop]
  dsimp only
  rw [htm]
  dsimp only
  rw [if_neg hoff, if_pos rfl]
  have e1 : imul (signOf sign * (60 * (oh : Int) + (om : Int))) 60
      = signOf sign * (60 * (oh : Int) + (om : Int)) * 60 := by
    rcases hsv with e | e <;> rw [e] <;> exact wrap32_of_range (by omega) (by omega)
  rw [e1]
  have e2 : lsub (86400 * civilDays (Y : Int) M (D : Int) + (h : Int) * 3600 + (mi : Int) * 60
        + (s : Int)) (signOf sign * (60 * (oh : Int) + (om : Int)) * 60)
      = 86400 * civilDays (Y : Int) M (D : Int) + (h : Int) * 3600 + (mi : Int) * 60 + (s : Int)
        - signOf sign * (60 * (oh : Int) + (om : Int)) * 60 := by
    rcases hsv with e | e <;> rw [e] <;> exact wrap64_of_range (by omega) (by omega)
  rw [e2]
  congr 1
  ring

set_option maxRecDepth 100000 in
/-- C3 (counterexample): the literal 2024-03-05T10:00:00-00:00 has the strict ISO shape
and a valid offset (0 hours, 0 minutes, sign `-`); `parse_date_basic` returns the
offset 0, which `show_date` prints as `+00:00`, so the literal is not reproduced. The
literal with offset -00:01 is not reproduced either: its offset -1 is the value that
marks an unset offset, and the offset inferred from the local zone replaces it. -/
theorem iso_strict_negative_zero_not_reproduced :
    isoStrictLiteral 2024 3 5 10 0 0 '-' 0 0 = "2024-03-05T10:00:00-00:00".toList
      ∧ parse_date_basic utcEnv "2024-03-05T10:00:00-00:00".toList
          = Parsed.success 1709632800 0
      ∧ show_date utcEnv 1709632800 (offsetCode 0) date_mode.DATE_ISO8601_STRICT
          = some "2024-03-05T10:00:00+00:00".toList
      ∧ "2024-03-05T10:00:00+00:00".toList ≠ "2024-03-05T10:00:00-00:00".toList
      ∧ parse_date_basic utcEnv "2024-03-05T10:00:00-00:01".toList
          = Parsed.success 1709632800 0 := by
  refine ⟨by decide, by decide, by decide, by decide, by decide⟩

/-- C3 (amended): round trip through the strict ISO form. For every literal L of the
shape YYYY-MM-DDTHH:MM:SS±HH:MM that denotes a valid civil date-time with
1583 <= YYYY <= 2999 and an offset with hours < 24 and minutes < 60 whose sign is `+`
or whose magnitude is at least 2 minutes, in every environment `parse_date_basic(L)`
succeeds with the offset m = ±(60*HH + MM) minutes and the timestamp of the civil
date-time minus 60*m, and `show_date(t, HHMM-code of m, DATE_ISO8601_STRICT)`
reproduces L character for character. -/
theorem iso_strict_round_trip (env : Env) (Y M D h mi s : Nat) (sign : Char) (oh om : Nat)
    (hY1 : 1583 ≤ Y) (hY2 : Y ≤ 2999) (hv : validDate (Y : Int) M (D : Int))
    (hh : h < 24) (hmi : mi < 60) (hs : s < 60) (hsign : sign = '+' ∨ sign = '-')
    (hoh : oh < 24) (hom : om < 60) (hmag : sign = '+' ∨ 2 ≤ 60 * oh + om) :
    ∃ t m, parse_date_basic env (isoStrictLiteral Y M D h mi s sign oh om) = Parsed.success t m
      ∧ m = signOf sign * (60 * (oh : Int) + (om : Int))
      ∧ t = 86400 * civilDays (Y : Int) M (D : Int) + (h : Int) * 3600 + (mi : Int) * 60
              + (s : Int) - 60 * m
      ∧ show_date env t (offsetCode m) date_mode.DATE_ISO8601_STRICT
          = some (isoStrictLiteral Y M D h mi s sign oh om) := by
  have hp := parse_date_basic_iso_strict env Y M D h mi s sign oh om hY1 hY2 hv hh hmi hs hsign
    hoh hom (by rcases hmag with e | e; exact Or.inl e; exact Or.inr (by omega))
  refine ⟨_, _, hp, rfl, rfl, ?_⟩
  rw [offsetCode_of_sign sign oh om hsign hom]
  exact show_date_iso_strict_civil env Y M D h mi s sign oh om hY1 hY2 hv hh hmi hs hsign hoh
    hom (by rcases hmag with e | e; exact Or.inl e; exact Or.inr (by omega))

/-- C3 (witness): the round trip at the literal 2024-03-05T10:00:00+02:00. -/
theorem iso_strict_round_trip_witness :
    isoStrictLiteral 2024 3 5 10 0 0 '+' 2 0 = "2024-03-05T10:00:00+02:00".toList
      ∧ ∃ t m, parse_date_basic utcEnv (isoStrictLiteral 2024 3 5 10 0 0 '+' 2 0)
            = Parsed.success t m
          ∧ m = signOf '+' * (60 * ((2 : Nat) : Int) + ((0 : Nat) : Int))
          ∧ t = 86400 * civilDays ((2024 : Nat) : Int) 3 ((5 : Nat) : Int) + ((10 : Nat) : Int) * 3600
                  + ((0 : Nat) : Int) * 60 + ((0 : Nat) : Int) - 60 * m
          ∧ show_date utcEnv t (offsetCode m) date_mode.DATE_ISO8601_STRICT
              = some (isoStrictLiteral 2024 3 5 10 0 0 '+' 2 0) :=
  ⟨by decide, iso_strict_round_trip utcEnv 2024 3 5 10 0 0 '+' 2 0 (by decide) (by decide)
    (by decide) (by decide) (by decide) (by decide) (by decide) (by decide) (by decide)
    (by decide)⟩

/-! ### The overflow test -/

/-- C18: with a 64-bit `unsigned long` and a 64-bit signed `time_t`,
`date_overflows t` is true exactly when `t` is above `LONG_MAX`, which is when `t` is
`ULONG_MAX` or its narrowing to `time_t` is negative; it is false exactly on the `t`
from 0 to `LONG_MAX`. -/
theorem date_overflows_iff (t : Int) (h0 : 0 ≤ t) (h1 : t ≤ ULONG_MAX) :
    (date_overflows t = 1 ↔ t > LONG_MAX)
    ∧ (date_overflows t = 1 ↔ (t = ULONG_MAX ∨ wrap64 t < 0))
    ∧ (date_overflows t = 0 ↔ t ≤ LONG_MAX) := by
  unfold ULONG_MAX at h1
  have hw : wrap64 t = if t ≤ 9223372036854775807 then t else t - 18446744073709551616 := by
    unfold wrap64
    split <;> omega
  have key : date_overflows t = if t > 9223372036854775807 then 1 else 0 := by
    unfold date_overflows ULONG_MAX wrapU64
    rw [hw]
    by_cases hb : t ≤ 9223372036854775807
    · have e1 : t % 18446744073709551616 = t := by omega
      have hne : t ≠ 18446744073709551615 := by omega
      simp only [hb, if_true, e1, hne, if_false]
      simp
      omega
    · by_cases ht : t = 18446744073709551615
      · simp [ht]
      · have e1 : (t - 18446744073709551616) % 18446744073709551616 = t := by omega
        have h3 : t - 18446744073709551616 < 1 := by omega
        have h4 : ¬ t < 1 := by omega
        have h5 : t > 9223372036854775807 := by omega
        simp [hb, ht, e1, h3, h4, h5]
  unfold LONG_MAX ULONG_MAX
  rw [key, hw]
  refine ⟨?_, ?_, ?_⟩
  · split <;> simp_all
  · by_cases hb : t ≤ 9223372036854775807
    · have h5 : ¬ t > 9223372036854775807 := by omega
      simp only [h5, if_false, hb, if_true]
      constructor
      · intro h; exact absurd h (by decide)
      · intro h; omega
    · have h5 : t > 9223372036854775807 := by omega
      simp only [h5, if_true, hb, if_false, true_iff]
      right; omega
  · by_cases hb : t ≤ 9223372036854775807
    · have h5 : ¬ t > 9223372036854775807 := by omega
      simp [h5, hb]
    · have h5 : t > 9223372036854775807 := by omega
      simp [h5, hb]

/-- C18 (witness): the statement at 2^63, the first value above `LONG_MAX`, and at
`LONG_MAX` itself. -/
theorem date_overflows_iff_witness :
    ((date_overflows 9223372036854775808 = 1 ↔ (9223372036854775808 : Int) > LONG_MAX)
      ∧ (date_overflows 9223372036854775808 = 1 ↔
          ((9223372036854775808 : Int) = ULONG_MAX ∨ wrap64 9223372036854775808 < 0))
      ∧ (date_overflows 9223372036854775808 = 0 ↔ (9223372036854775808 : Int) ≤ LONG_MAX))
    ∧ ((date_overflows 9223372036854775807 = 1 ↔ (9223372036854775807 : Int) > LONG_MAX)
      ∧ (date_overflows 9223372036854775807 = 1 ↔
          ((9223372036854775807 : Int) = ULONG_MAX ∨ wrap64 9223372036854775807 < 0))
      ∧ (date_overflows 9223372036854775807 = 0 ↔ (9223372036854775807 : Int) ≤ LONG_MAX)) :=
  ⟨date_overflows_iff 9223372036854775808 (by decide) (by decide),
   date_overflows_iff 9223372036854775807 (by decide) (by decide)⟩

/-! ### The relative format -/

theorem Q_second (n : Int) :
    fmt_d n ++ (Q_ " second ago" " seconds ago" n).toList
      = countText n "second" ++ " ago".toList := by
  unfold Q_ countText; split <;> simp

theorem Q_minute (n : Int) :
    fmt_d n ++ (Q_ " minute ago" " minutes ago" n).toList
      = countText n "minute" ++ " ago".toList := by
  unfold Q_ countText; split <;> simp

theorem Q_hour (n : Int) :
    fmt_d n ++ (Q_ " hour ago" " hours ago" n).toList
      = countText n "hour" ++ " ago".toList := by
  unfold Q_ countText; split <;> simp

theorem Q_day (n : Int) :
    fmt_d n ++ (Q_ " day ago" " days ago" n).toList
      = countText n "day" ++ " ago".toList := by
  unfold Q_ countText; split <;> simp

theorem Q_week (n : Int) :
    fmt_d n ++ (Q_ " week ago" " weeks ago" n).toList
      = countText n "week" ++ " ago".toList := by
  unfold Q_ countText; split <;> simp

theorem Q_month (n : Int) :
    fmt_d n ++ (Q_ " month ago" " months ago" n).toList
      = countText n "month" ++ " ago".toList := by
  unfold Q_ countText; split <;> simp

theorem Q_year_ago (n : Int) :
    fmt_d n ++ (Q_ " year ago" " years ago" n).toList
      = countText n "year" ++ " ago".toList := by
  unfold Q_ countText; split <;> simp

theorem Q_year (n : Int) :
    fmt_d n ++ (Q_ " year" " years" n).toList = countText n "year" := by
  unfold Q_ countText; split <;> simp

/-- The text of `show_date_relative` where the subtraction is defined, with every
count and unit joined by the selection `Q_` written as a count text. -/
theorem show_date_relative_unfold (time now : Int) (hf : ¬ now < time)
    (h : now - time ≤ 9223372036854775807) :
    show_date_relative time now =
      (if now - time < 90 then some (countText (now - time) "second" ++ " ago".toList)
      else if (now - time + 30) / 60 < 90 then
        some (countText ((now - time + 30) / 60) "minute" ++ " ago".toList)
      else if ((now - time + 30) / 60 + 30) / 60 < 36 then
        some (countText (((now - time + 30) / 60 + 30) / 60) "hour" ++ " ago".toList)
      else if (((now - time + 30) / 60 + 30) / 60 + 12) / 24 < 14 then
        some (countText ((((now - time + 30) / 60 + 30) / 60 + 12) / 24) "day" ++ " ago".toList)
      else if (((now - time + 30) / 60 + 30) / 60 + 12) / 24 < 70 then
        some (countText (((((now - time + 30) / 60 + 30) / 60 + 12) / 24 + 3) / 7) "week"
          ++ " ago".toList)
      else if (((now - time + 30) / 60 + 30) / 60 + 12) / 24 < 365 then
        some (countText (((((now - time + 30) / 60 + 30) / 60 + 12) / 24 + 15) / 30) "month"
          ++ " ago".toList)
      else if (((now - time + 30) / 60 + 30) / 60 + 12) / 24 < 1825 then
        (if (((((now - time + 30) / 60 + 30) / 60 + 12) / 24) * 12 * 2 + 365) / (365 * 2) % 12
            ≠ 0 then
          some (countText ((((((now - time + 30) / 60 + 30) / 60 + 12) / 24) * 12 * 2 + 365)
              / (365 * 2) / 12) "year" ++ ", ".toList
            ++ countText ((((((now - time + 30) / 60 + 30) / 60 + 12) / 24) * 12 * 2 + 365)
              / (365 * 2) % 12) "month" ++ " ago".toList)
        else
          some (countText ((((((now - time + 30) / 60 + 30) / 60 + 12) / 24) * 12 * 2 + 365)
              / (365 * 2) / 12) "year" ++ " ago".toList))
      else
        some (countText (((((now - time + 30) / 60 + 30) / 60 + 12) / 24 + 183) / 365) "year"
          ++ " ago".toList)) := by
  have e0 : wrapU64 (now - time) = now - time := by unfold wrapU64; omega
  have e1 : wrapU64 (now - time + 30) = now - time + 30 := by unfold wrapU64; omega
  have hdef : ¬ (now - time > LONG_MAX) := by unfold LONG_MAX; omega
  unfold show_date_relative
  simp only [hf, hdef, if_false, e0, e1, Q_second, Q_minute, Q_hour, Q_day, Q_week, Q_month,
    Q_year_ago, Q_year, List.append_assoc]

/-- The text of `show_date_relative` is the text of the bucket of the elapsed time,
wherever the subtraction `now - time` is defined. -/
theorem show_date_relative_text (time now : Int) (h : now - time ≤ 9223372036854775807) :
    show_date_relative time now = some (relativeAge now time).text := by
  by_cases hf : now < time
  · unfold show_date_relative relativeAge
    simp only [hf, if_true]
    rfl
  · rw [show_date_relative_unfold time now hf h]
    unfold relativeAge
    simp only [hf, if_false]
    generalize now - time = e
    generalize (((e + 30) / 60 + 30) / 60 + 12) / 24 = d
    have e2 : d * 12 * 2 = d * 24 := by ring
    have e3 : (365 : Int) * 2 = 730 := by norm_num
    rw [e2, e3]
    split_ifs <;> rfl

/-- C15 (amended): `show_date_relative` equals the bucket definition for every `now`
and `time` whose difference `now - time` is at most `LONG_MAX`, the pairs for which the
subtraction of the two `time_t` values is defined: "in the future" when `now < time`,
else seconds, minutes, hours, days, weeks, months, years and months, or years by the
thresholds of the claim. -/
theorem show_date_relative_buckets (time now : Int)
    (h : now - time ≤ LONG_MAX) :
    show_date_relative time now = some (relativeAge now time).text := by
  unfold LONG_MAX at h
  by_cases hf : now < time
  · unfold show_date_relative relativeAge
    simp only [hf, if_true]
    rfl
  · rw [show_date_relative_unfold time now hf h]
    unfold relativeAge
    simp only [hf, if_false]
    generalize now - time = e
    generalize (((e + 30) / 60 + 30) / 60 + 12) / 24 = d
    have e2 : d * 12 * 2 = d * 24 := by ring
    have e3 : (365 : Int) * 2 = 730 := by norm_num
    rw [e2, e3]
    split_ifs <;> rfl

/-- C15 (witness): the amended statement at the five ages the claim names: 89 seconds,
91 seconds (2 minutes), 13 days, 14 days (2 weeks) and exactly 365 days, which falls
into the branch of years and months and reads 1 year; and at the greatest difference
it covers, `LONG_MAX` seconds. -/
theorem show_date_relative_buckets_witness :
    (show_date_relative 1700000000 1700000089
        = some (relativeAge 1700000089 1700000000).text
      ∧ show_date_relative 1700000000 1700000089 = some "89 seconds ago".toList)
    ∧ (show_date_relative 1700000000 1700000091
        = some (relativeAge 1700000091 1700000000).text
      ∧ show_date_relative 1700000000 1700000091 = some "2 minutes ago".toList)
    ∧ (show_date_relative 0 (13 * 86400) = some (relativeAge (13 * 86400) 0).text
      ∧ show_date_relative 0 (13 * 86400) = some "13 days ago".toList)
    ∧ (show_date_relative 0 (14 * 86400) = some (relativeAge (14 * 86400) 0).text
      ∧ show_date_relative 0 (14 * 86400) = some "2 weeks ago".toList)
    ∧ (show_date_relative 0 (365 * 86400) = some (relativeAge (365 * 86400) 0).text
      ∧ relativeAge (365 * 86400) 0 = .years 1
      ∧ show_date_relative 0 (365 * 86400) = some "1 year ago".toList)
    ∧ (show_date_relative 0 LONG_MAX = some (relativeAge LONG_MAX 0).text
      ∧ show_date_relative 0 LONG_MAX = some "292471208678 years ago".toList) :=
  ⟨⟨show_date_relative_buckets 1700000000 1700000089 (by decide), by decide⟩,
   ⟨show_date_relative_buckets 1700000000 1700000091 (by decide), by decide⟩,
   ⟨show_date_relative_buckets 0 (13 * 86400) (by decide), by decide⟩,
   ⟨show_date_relative_buckets 0 (14 * 86400) (by decide), by decide⟩,
   ⟨show_date_relative_buckets 0 (365 * 86400) (by decide), by decide, by decide⟩,
   ⟨show_date_relative_buckets 0 LONG_MAX (by decide), by decide⟩⟩

/-- C15 (counterexample): for `time` = -1 and `now` = `LONG_MAX`, two `time_t` values
with `now >= time`, the difference `now - time` is 2^63, one more than `LONG_MAX`: the
signed subtraction is undefined and `show_date_relative` has no defined text, where
the bucket definition gives 292471208678 years. -/
theorem show_date_relative_undefined :
    (LONG_MIN ≤ -1 ∧ LONG_MAX - -1 = 9223372036854775808)
    ∧ show_date_relative (-1) LONG_MAX = none
    ∧ relativeAge LONG_MAX (-1) = .years 292471208678
    ∧ show_date_relative (-1) LONG_MAX ≠ some (relativeAge LONG_MAX (-1)).text := by
  decide

/-! ### Evaluations of the structured parser -/

set_option maxRecDepth 100000 in
/-- C11 (code at the failing input): the token -0001 is accepted by `match_tz` and
gives the offset -1, the value that stands for "unset". A later zone abbreviation
(EST) or four-digit number (0530) then overwrites it, and without them
`parse_date_basic` replaces it by the inferred local offset (0 in `utcEnv`). The
token -0002 in the same places is kept. -/
theorem offset_minus_one_treated_as_unset :
    match_tz "-0001".toList (-1) 0 = (0, -1, 5)
    ∧ match_alpha "EST".toList unsetTm (-1) 0 = (0, unsetTm, -300, 3)
    ∧ (match_digit_guess 530 4
        { tm := unsetTm, offset := -1, tm_gmt := 0, parsed_chars := 0 }).offset = 330
    ∧ parse_date_basic utcEnv "2005-04-07 10:00:00 -0001".toList = .success 1112868000 0
    ∧ parse_date_basic utcEnv "2005-04-07 10:00:00 -0001 EST".toList
        = .success 1112886000 (-300)
    ∧ parse_date_basic utcEnv "2005-04-07 10:00:00 -0001 0530".toList
        = .success 1112848200 330
    ∧ parse_date_basic utcEnv "2005-04-07 10:00:00 -0002".toList = .success 1112868120 (-2)
    ∧ parse_date_basic utcEnv "2005-04-07 10:00:00 -0002 EST".toList
        = .success 1112868120 (-2)
    ∧ parse_date_basic utcEnv "2005-04-07 10:00:00 -0002 0530".toList
        = .success 1112868120 (-2) := by
  decide

set_option maxRecDepth 100000 in
/-- C14 (code at the failing input): after the sign of the offset the fast path reads
the number with `strtol`, which skips white space and takes a sign of its own, so the
texts "@0 + 123" and "@0 +-123" take the fast path although the sign is not
followed by four decimal digits; a number of seconds below `LONG_MIN` is accepted
clamped. -/
theorem object_header_date_not_strict :
    (∀ env, parse_date_basic env "@0 + 123".toList = .success 0 83)
    ∧ (∀ env, parse_date_basic env "@0 +-123".toList = .success 0 (-83))
    ∧ (∀ env, parse_date_basic env "@0 +0123".toList = .success 0 83)
    ∧ match_object_header_date "0 + 123".toList = some (0, 83)
    ∧ match_object_header_date "-9223372036854775809 +0000".toList
        = some (-9223372036854775808, 0) := by
  refine ⟨fun _ => ?_, fun _ => ?_, fun _ => ?_, ?_, ?_⟩
  · rfl
  · rfl
  · rfl
  · decide
  · decide

set_option maxRecDepth 100000 in
/-- C16 (code at the failing input): the text s = "2005-04-07 10:00:00 +05:" has no
line break, yet `parse_date_basic` gives another timestamp and offset for s followed
by a line break and "3": the minutes of the offset are read with `strtoul`, which
skips the line break as white space. In the same way the fast path fails on "@12 +"
and succeeds on "@12 +", a line break and "123". -/
theorem text_after_line_break_is_read :
    '\n' ∉ "2005-04-07 10:00:00 +05:".toList
    ∧ parse_date_basic utcEnv "2005-04-07 10:00:00 +05:".toList = .success 1112868000 0
    ∧ parse_date_basic utcEnv ("2005-04-07 10:00:00 +05:".toList ++ '\n' :: "3".toList)
        = .success 1112849820 303
    ∧ match_tz ("+05:".toList ++ '\n' :: "3".toList) (-1) 0 = (0, 303, 6)
    ∧ '\n' ∉ "@12 +".toList
    ∧ parse_date_basic utcEnv "@12 +".toList = .failure
    ∧ parse_date_basic utcEnv ("@12 +".toList ++ '\n' :: "123".toList) = .success 12 83 := by
  decide

set_option maxRecDepth 100000 in
/-- C17 (code at the failing input): `match_digit` returns -1 on a number of one
digit, because its guard asks for a digit in the second character: on "5 Apr 05"
nothing is set, and the loop of `parse_date_basic` on "1 Apr 05" takes the day
from the last token (day 5, no year). With two digits, "01 Apr 05" fills day 1,
month April (3) and year 2005 (105). -/
theorem match_digit_one_digit_day :
    match_digit utcEnv "5 Apr 05".toList
        { tm := unsetTm, offset := -1, tm_gmt := 0, parsed_chars := 0 }
      = some (-1, { tm := unsetTm, offset := -1, tm_gmt := 0, parsed_chars := 0 })
    ∧ match_digit utcEnv "05 Apr 05".toList
        { tm := unsetTm, offset := -1, tm_gmt := 0, parsed_chars := 0 }
      = some (0, { tm := { unsetTm with tm_mday := 5 }, offset := -1, tm_gmt := 0,
                   parsed_chars := 2 })
    ∧ parse_loop utcEnv 10 "1 Apr 05".toList
        { tm := unsetTm, offset := -1, tm_gmt := 0, parsed_chars := 0 }
      = some { tm := { unsetTm with tm_mday := 5, tm_mon := 3 }, offset := -1, tm_gmt := 0,
               parsed_chars := 2 }
    ∧ parse_loop utcEnv 10 "01 Apr 05".toList
        { tm := unsetTm, offset := -1, tm_gmt := 0, parsed_chars := 0 }
      = some { tm := { unsetTm with tm_mday := 1, tm_mon := 3, tm_year := 105 }, offset := -1,
               tm_gmt := 0, parsed_chars := 2 } := by
  decide

/-! ### Letters and `match_string` -/

theorem toupper_of_not_lower (c : Char) (h : ¬ (97 ≤ c.toNat ∧ c.toNat ≤ 122)) :
    toupper c = c := by
  unfold toupper
  rw [if_neg h]

theorem lower_cases (c : Char) (h1 : 97 ≤ c.toNat) (h2 : c.toNat ≤ 122) (P : Char → Prop)
    (hP : ∀ k, 97 ≤ k → k ≤ 122 → P (Char.ofNat k)) : P c := by
  have hc : c = Char.ofNat c.toNat := (Char.ofNat_toNat c).symm
  rw [hc]
  exact hP c.toNat h1 h2

theorem isalpha_toupper (c : Char) : isalpha (toupper c) = isalpha c := by
  by_cases h : 97 ≤ c.toNat ∧ c.toNat ≤ 122
  · refine lower_cases c h.1 h.2 (fun c => isalpha (toupper c) = isalpha c) ?_
    intro k h1 h2
    interval_cases k <;> rfl
  · rw [toupper_of_not_lower c h]

theorem toupper_toupper (c : Char) : toupper (toupper c) = toupper c := by
  by_cases h : 97 ≤ c.toNat ∧ c.toNat ≤ 122
  · refine lower_cases c h.1 h.2 (fun c => toupper (toupper c) = toupper c) ?_
    intro k h1 h2
    interval_cases k <;> rfl
  · rw [toupper_of_not_lower c h, toupper_of_not_lower c h]

theorem toupper_of_not_alpha (c : Char) (h : isalpha c = false) : toupper c = c := by
  apply toupper_of_not_lower
  intro hl
  unfold isalpha at h
  simp only [Bool.or_eq_false_iff, Bool.and_eq_false_iff, decide_eq_false_iff_not] at h
  omega

theorem isalpha_ne_NUL (c : Char) (h : isalpha c = true) : c ≠ NUL := by
  intro e
  rw [e] at h
  exact absurd h (by decide)

theorem isalnum_of_isalpha (c : Char) (h : isalpha c = true) : isalnum c = true := by
  unfold isalnum
  rw [h]
  rfl

theorem isalpha_of_not_isalnum (c : Char) (h : isalnum c = false) : isalpha c = false := by
  unfold isalnum at h
  simp only [Bool.or_eq_false_iff] at h
  exact h.1

/-- The function `match_string` on a text that starts with a run `cs` of letters
followed by a character that is neither a letter nor a digit (or by the end),
against a string of letters: the length of the run when the run is, up to letter
case, the beginning of the string, else 0. -/
theorem match_string_from_run (cs rest : List Char) (hcs : ∀ c ∈ cs, isalpha c = true)
    (hrest : isalnum (chr rest) = false) :
    ∀ (other : List Char) (i : Nat), (∀ c ∈ other, isalpha c = true) →
      match_string_from i (cs ++ rest) other
        = if (cs.map toupper).isPrefixOf (other.map toupper) = true then i + cs.length
          else 0 := by
  induction cs with
  | nil =>
    intro other i hother
    simp only [List.nil_append, List.map_nil, List.isPrefixOf, List.length_nil, Nat.add_zero,
      if_true]
    cases rest with
    | nil => rfl
    | cons c tl =>
      have hc : isalnum c = false := hrest
      have hca : isalpha c = false := isalpha_of_not_isalnum c hc
      unfold match_string_from
      by_cases h0 : c = NUL
      · rw [if_pos h0]
      · rw [if_neg h0]
        have hne : c ≠ chr other ∧ toupper c ≠ toupper (chr other) := by
          cases other with
          | nil =>
            have : chr ([] : List Char) = NUL := rfl
            rw [this, toupper_of_not_alpha c hca]
            exact ⟨h0, h0⟩
          | cons b o =>
            have hb : isalpha b = true := hother b (List.mem_cons_self _ _)
            have : chr (b :: o) = b := rfl
            rw [this, toupper_of_not_alpha c hca]
            constructor
            · intro e; rw [e, hb] at hca; cases hca
            · intro e
              have := isalpha_toupper b
              rw [← e, hca, hb] at this
              cases this
        rw [if_neg hne.1, if_neg hne.2, if_pos hc]
  | cons a cs ih =>
    intro other i hother
    have ha : isalpha a = true := hcs a (List.mem_cons_self _ _)
    have hcs' : ∀ c ∈ cs, isalpha c = true := fun c hc => hcs c (List.mem_cons_of_mem _ hc)
    have h0 : a ≠ NUL := isalpha_ne_NUL a ha
    have hta : isalpha (toupper a) = true := by rw [isalpha_toupper]; exact ha
    show match_string_from i (a :: (cs ++ rest)) other = _
    unfold match_string_from
    rw [if_neg h0]
    cases other with
    | nil =>
      have e1 : chr ([] : List Char) = NUL := rfl
      have h1 : toupper a ≠ toupper NUL := by
        intro e
        rw [e] at hta
        exact absurd hta (by decide)
      rw [e1, if_neg h0, if_neg h1]
      simp [isalnum_of_isalpha a ha, List.isPrefixOf]
    | cons b o =>
      have e1 : chr (b :: o) = b := rfl
      have e2 : (b :: o).drop 1 = o := rfl
      have ho : ∀ c ∈ o, isalpha c = true := fun c hc => hother c (List.mem_cons_of_mem _ hc)
      rw [e1, e2, ih hcs' o (i + 1) ho]
      by_cases hab : a = b
      · rw [if_pos hab]
        simp only [List.map_cons, List.isPrefixOf, hab, beq_self_eq_true, Bool.true_and,
          List.length_cons]
        split <;> omega
      · rw [if_neg hab]
        by_cases ht : toupper a = toupper b
        · rw [if_pos ht]
          simp only [List.map_cons, List.isPrefixOf, ht, beq_self_eq_true, Bool.true_and,
            List.length_cons]
          split <;> omega
        · rw [if_neg ht]
          have : (toupper a == toupper b) = false := by simpa using ht
          simp [isalnum_of_isalpha a ha, List.isPrefixOf, this]

/-- Against a string of letters `match_string` sees of such a text only its run of
letters, and that up to letter case. -/
theorem match_string_run_upper (cs rest other : List Char)
    (hcs : ∀ c ∈ cs, isalpha c = true) (hrest : isalnum (chr rest) = false)
    (hother : ∀ c ∈ other, isalpha c = true) :
    match_string (cs ++ rest) other = match_string (cs.map toupper) other := by
  have hup : ∀ c ∈ cs.map toupper, isalpha c = true := by
    intro c hc
    obtain ⟨a, ha, rfl⟩ := List.mem_map.1 hc
    rw [isalpha_toupper]
    exact hcs a ha
  have e1 := match_string_from_run cs rest hcs hrest other 0 hother
  have e2 := match_string_from_run (cs.map toupper) [] hup (by decide) other 0 hother
  have e3 : (cs.map toupper).map toupper = cs.map toupper := by
    rw [List.map_map]
    apply List.map_congr_left
    intro c _
    exact toupper_toupper c
  rw [List.append_nil, e3, List.length_map] at e2
  unfold match_string
  rw [e1, e2]

theorem first_name_match_congr (d1 d2 : List Char) (names : List String)
    (h : ∀ n ∈ names, match_string d1 n.toList = match_string d2 n.toList) :
    ∀ i, first_name_match d1 names i = first_name_match d2 names i := by
  induction names with
  | nil => intro i; rfl
  | cons n ns ih =>
    intro i
    unfold first_name_match
    rw [h n (List.mem_cons_self _ _), ih (fun m hm => h m (List.mem_cons_of_mem _ hm))]

theorem first_zone_match_congr (d1 d2 : List Char) (zs : List (String × Int × Int))
    (h : ∀ z ∈ zs, match_string d1 z.1.toList = match_string d2 z.1.toList) :
    first_zone_match d1 zs = first_zone_match d2 zs := by
  induction zs with
  | nil => rfl
  | cons z zs ih =>
    unfold first_zone_match
    rw [h z (List.mem_cons_self _ _), ih (fun m hm => h m (List.mem_cons_of_mem _ hm))]

set_option maxRecDepth 100000 in
theorem name_tables_letters :
    (∀ n ∈ month_names, ∀ c ∈ n.toList, isalpha c = true)
    ∧ (∀ n ∈ weekday_names, ∀ c ∈ n.toList, isalpha c = true)
    ∧ (∀ z ∈ timezone_names, ∀ c ∈ z.1.toList, isalpha c = true) := by
  decide

/-- The function `match_alpha` sees of a text that starts with a run of letters,
followed by a character that is neither a letter nor a digit (or by the end), only
the run, up to letter case. -/
theorem match_alpha_run_upper (cs rest : List Char) (tm : Tm) (offset pc : Int)
    (hne : cs ≠ []) (hcs : ∀ c ∈ cs, isalpha c = true) (hrest : isalnum (chr rest) = false) :
    match_alpha (cs ++ rest) tm offset pc = match_alpha (cs.map toupper) tm offset pc := by
  have hm : ∀ other : List Char, (∀ c ∈ other, isalpha c = true) →
      match_string (cs ++ rest) other = match_string (cs.map toupper) other :=
    fun other ho => match_string_run_upper cs rest other hcs hrest ho
  obtain ⟨a, tl, rfl⟩ := List.exists_cons_of_ne_nil hne
  have ha : isalpha a = true := hcs a (List.mem_cons_self _ _)
  have c1 : isalpha (chr (a :: tl ++ rest)) = true := ha
  have c2 : isalpha (chr ((a :: tl).map toupper)) = true := by
    show isalpha (toupper a) = true
    rw [isalpha_toupper]; exact ha
  unfold match_alpha
  rw [c1, c2]
  rw [first_name_match_congr _ _ month_names
        (fun n hn => hm n.toList (name_tables_letters.1 n hn)) 0,
      first_name_match_congr _ _ weekday_names
        (fun n hn => hm n.toList (name_tables_letters.2.1 n hn)) 0,
      first_zone_match_congr _ _ timezone_names
        (fun z hz => hm z.1.toList (name_tables_letters.2.2 z hz)),
      hm "PM".toList (by decide), hm "AM".toList (by decide)]

set_option maxRecDepth 100000 in
/-- Every name of the time zone table, as a text of its own, is matched by no month
and no weekday name and first by its own entry of the table, in its whole length. -/
theorem timezone_names_matched :
    ∀ z ∈ timezone_names,
      first_name_match z.1.toList month_names 0 = none
      ∧ first_name_match z.1.toList weekday_names 0 = none
      ∧ first_zone_match z.1.toList timezone_names = some (z, z.1.toList.length)
      ∧ isalpha (chr z.1.toList) = true
      ∧ z.1.toList ≠ []
      ∧ imul 60 (iadd z.2.1 z.2.2) = 60 * (z.2.1 + z.2.2) := by
  decide

/-- C12: for every entry (name, hours, dst) of the time zone table and every text that
starts with that name in any letter case (`cs`, whose upper case form is the name),
followed by a character that is neither a letter nor a digit or by the end of the
text, the table scan of `match_alpha` stops at that very entry, and `match_alpha`
matches, consumes exactly the name, leaves `*tm` unchanged and sets the offset to
60 * (hours + dst) when the offset was unset (-1), and leaves it unchanged otherwise. -/
theorem match_alpha_timezone_entry (z : String × Int × Int) (hz : z ∈ timezone_names)
    (cs rest : List Char) (tm : Tm) (offset pc : Int)
    (hcs : cs.map toupper = z.1.toList) (hrest : isalnum (chr rest) = false) :
    first_zone_match (cs ++ rest) timezone_names = some (z, z.1.length)
    ∧ match_alpha (cs ++ rest) tm offset pc
        = (0, tm, if offset = -1 then 60 * (z.2.1 + z.2.2) else offset, (z.1.length : Int)) := by
  obtain ⟨h1, h2, h3, h4, h5, h6⟩ := timezone_names_matched z hz
  have hlen : z.1.length = z.1.toList.length := rfl
  have hne : cs ≠ [] := by
    intro e
    rw [e] at hcs
    exact h5 hcs.symm
  have hl : ∀ c ∈ cs, isalpha c = true := by
    intro c hc
    have : toupper c ∈ z.1.toList := by
      rw [← hcs]
      exact List.mem_map.2 ⟨c, hc, rfl⟩
    have := name_tables_letters.2.2 z hz _ this
    rw [isalpha_toupper] at this
    exact this
  constructor
  · rw [first_zone_match_congr (cs ++ rest) (cs.map toupper) timezone_names
        (fun y hy => match_string_run_upper cs rest y.1.toList hl hrest
          (name_tables_letters.2.2 y hy)), hcs, h3, hlen]
  · rw [match_alpha_run_upper cs rest tm offset pc hne hl hrest, hcs]
    unfold match_alpha
    rw [h4, h1, h2, h3, hlen]
    simp only [h6]
    rfl

set_option maxRecDepth 100000 in
/-- C12 (witness): the statement at the entry (EST, -5, 0) and the text "est 2005". -/
theorem match_alpha_timezone_entry_witness :
    first_zone_match ("est".toList ++ " 2005".toList) timezone_names
      = some (("EST", -5, 0), "EST".length)
    ∧ match_alpha ("est".toList ++ " 2005".toList) unsetTm (-1) 0
        = (0, unsetTm, if (-1 : Int) = -1 then 60 * (-5 + 0) else -1, ("EST".length : Int)) :=
  match_alpha_timezone_entry ("EST", -5, 0) (by decide) "est".toList " 2005".toList unsetTm
    (-1) 0 (by decide) (by decide)

/-! ### Expiry dates -/

theorem cstring_of_not_mem (date : List Char) (h : NUL ∉ date) : cstring date = date := by
  unfold cstring
  rw [List.takeWhile_eq_self_iff]
  intro c hc
  have : c ≠ NUL := fun e => h (e ▸ hc)
  simpa using this

/-- C19: `parse_expiry_date` returns the timestamp 0 and no error for the texts
"never" and "false", and `LONG_MAX` and no error for the texts "all" and "now",
whatever the clock and the local time zone are (`env`); for every other text its
timestamp and error count are those of `approxidate_careful` on that text. -/
theorem parse_expiry_date_cases (env : Env) :
    parse_expiry_date env "never".toList = some (0, 0)
    ∧ parse_expiry_date env "false".toList = some (0, 0)
    ∧ parse_expiry_date env "all".toList = some (LONG_MAX, 0)
    ∧ parse_expiry_date env "now".toList = some (LONG_MAX, 0)
    ∧ ∀ date : List Char, NUL ∉ date → date ≠ "never".toList → date ≠ "false".toList →
        date ≠ "all".toList → date ≠ "now".toList →
        parse_expiry_date env date = approxidate_careful env date 0 := by
  refine ⟨rfl, rfl, rfl, rfl, ?_⟩
  intro date hn h1 h2 h3 h4
  unfold parse_expiry_date
  rw [cstring_of_not_mem date hn]
  rw [if_neg (by tauto), if_neg (by tauto)]

set_option maxRecDepth 100000 in
/-- C19 (witness): the statement in the environment `utcEnv`, with the text
"3 days ago" for the other texts; there `approxidate_careful` reads "now" as the
clock (1700000000) and "3 days ago" as three days before it. -/
theorem parse_expiry_date_cases_witness :
    approxidate_careful utcEnv "now".toList 0 = some (1700000000, 0)
    ∧ parse_expiry_date utcEnv "now".toList = some (LONG_MAX, 0)
    ∧ parse_expiry_date utcEnv "3 days ago".toList
        = approxidate_careful utcEnv "3 days ago".toList 0
    ∧ approxidate_careful utcEnv "3 days ago".toList 0 = some (1699740800, 0) :=
  ⟨by decide, (parse_expiry_date_cases utcEnv).2.2.2.1,
   (parse_expiry_date_cases utcEnv).2.2.2.2 "3 days ago".toList (by decide) (by decide)
     (by decide) (by decide) (by decide),
   by decide⟩

/-! ### Weekday names in the approximate parser -/

theorem takeWhile_isalpha_run (cs rest : List Char) (hcs : ∀ c ∈ cs, isalpha c = true)
    (hrest : isalpha (chr rest) = false) : (cs ++ rest).takeWhile isalpha = cs := by
  induction cs with
  | nil =>
    cases rest with
    | nil => rfl
    | cons c tl =>
      have : isalpha c = false := hrest
      simp [List.takeWhile, this]
  | cons a cs ih =>
    have ha : isalpha a = true := hcs a (List.mem_cons_self _ _)
    have ih' := ih (fun c hc => hcs c (List.mem_cons_of_mem _ hc))
    simp only [List.cons_append, List.takeWhile_cons, ha, if_true, ih']

theorem alpha_end_run (cs rest : List Char) (hne : cs ≠ []) (hcs : ∀ c ∈ cs, isalpha c = true)
    (hrest : isalpha (chr rest) = false) : alpha_end (cs ++ rest) = cs.length := by
  obtain ⟨a, tl, rfl⟩ := List.exists_cons_of_ne_nil hne
  unfold alpha_end
  have e : (a :: tl ++ rest).drop 1 = tl ++ rest := rfl
  rw [e, takeWhile_isalpha_run tl rest (fun c hc => hcs c (List.mem_cons_of_mem _ hc)) hrest]
  simp only [List.length_cons]
  omega

theorem first_special_match_congr (d1 d2 : List Char)
    (ss : List (String × (Env → Tm → Tm → Int → Tm × Int)))
    (h : ∀ s ∈ ss, match_string d1 s.1.toList = match_string d2 s.1.toList) :
    first_special_match d1 ss = first_special_match d2 ss := by
  induction ss with
  | nil => rfl
  | cons s ss ih =>
    unfold first_special_match
    rw [h s (List.mem_cons_self _ _), ih (fun m hm => h m (List.mem_cons_of_mem _ hm))]

theorem first_number_name_congr (d1 d2 : List Char) (names : List String)
    (h : ∀ n ∈ names, match_string d1 n.toList = match_string d2 n.toList) :
    ∀ i, first_number_name d1 names i = first_number_name d2 names i := by
  induction names with
  | nil => intro i; rfl
  | cons n ns ih =>
    intro i
    unfold first_number_name
    rw [h n (List.mem_cons_self _ _), ih (fun m hm => h m (List.mem_cons_of_mem _ hm))]

theorem first_typelen_match_congr (d1 d2 : List Char) (tls : List (String × Int))
    (h : ∀ t ∈ tls, match_string d1 t.1.toList = match_string d2 t.1.toList) :
    first_typelen_match d1 tls = first_typelen_match d2 tls := by
  induction tls with
  | nil => rfl
  | cons t ts ih =>
    unfold first_typelen_match
    rw [h t (List.mem_cons_self _ _), ih (fun m hm => h m (List.mem_cons_of_mem _ hm))]

set_option maxRecDepth 100000 in
theorem keyword_tables_letters :
    (∀ s ∈ special, ∀ c ∈ s.1.toList, isalpha c = true)
    ∧ (∀ n ∈ number_name.drop 1, ∀ c ∈ n.toList, isalpha c = true)
    ∧ (∀ t ∈ typelen, ∀ c ∈ t.1.toList, isalpha c = true) := by
  decide

/-- The function `approxidate_alpha` sees of a text that starts with a run of letters,
followed by a character that is neither a letter nor a digit (or by the end), only
the run, up to letter case. -/
theorem approxidate_alpha_run_upper (env : Env) (cs rest : List Char) (tm now : Tm)
    (num touched : Int) (hne : cs ≠ []) (hcs : ∀ c ∈ cs, isalpha c = true)
    (hrest : isalnum (chr rest) = false) :
    approxidate_alpha env (cs ++ rest) tm now num touched
      = approxidate_alpha env (cs.map toupper) tm now num touched := by
  have hm : ∀ other : List Char, (∀ c ∈ other, isalpha c = true) →
      match_string (cs ++ rest) other = match_string (cs.map toupper) other :=
    fun other ho => match_string_run_upper cs rest other hcs hrest ho
  have hup : ∀ c ∈ cs.map toupper, isalpha c = true := by
    intro c hc
    obtain ⟨a, ha, rfl⟩ := List.mem_map.1 hc
    rw [isalpha_toupper]
    exact hcs a ha
  have he1 : alpha_end (cs ++ rest) = cs.length :=
    alpha_end_run cs rest hne hcs (isalpha_of_not_isalnum _ hrest)
  have he2 : alpha_end (cs.map toupper) = cs.length := by
    have := alpha_end_run (cs.map toupper) [] (by simpa using hne) hup (by decide)
    rw [List.append_nil, List.length_map] at this
    exact this
  unfold approxidate_alpha
  rw [he1, he2]
  rw [first_name_match_congr _ _ month_names
        (fun n hn => hm n.toList (name_tables_letters.1 n hn)) 0,
      first_name_match_congr _ _ weekday_names
        (fun n hn => hm n.toList (name_tables_letters.2.1 n hn)) 0,
      first_special_match_congr _ _ special
        (fun s hs => hm s.1.toList (keyword_tables_letters.1 s hs)),
      first_number_name_congr _ _ (number_name.drop 1)
        (fun n hn => hm n.toList (keyword_tables_letters.2.1 n hn)) 1,
      first_typelen_match_congr _ _ typelen
        (fun t ht => hm t.1.toList (keyword_tables_letters.2.2 t ht)),
      hm "last".toList (by decide), hm "months".toList (by decide),
      hm "years".toList (by decide)]

set_option maxRecDepth 100000 in
/-- Every beginning of at least 3 letters of a weekday name, in upper case and as a
text of its own, is matched by no month name, no keyword of the table `special` and
no unit of the table `typelen`, and first by its own weekday name. -/
theorem weekday_prefixes_matched :
    ∀ i ∈ List.range 7, ∀ L ∈ List.range 11, 3 ≤ L → L ≤ (weekday_names.getD i "").length →
      first_name_match (((weekday_names.getD i "").toList.take L).map toupper) month_names 0
          = none
      ∧ (first_special_match (((weekday_names.getD i "").toList.take L).map toupper)
          special).isNone = true
      ∧ first_typelen_match (((weekday_names.getD i "").toList.take L).map toupper) typelen
          = none
      ∧ first_name_match (((weekday_names.getD i "").toList.take L).map toupper)
          weekday_names 0 = some (i, L)
      ∧ (((weekday_names.getD i "").toList.take L).map toupper).length = L
      ∧ ∀ c ∈ ((weekday_names.getD i "").toList.take L).map toupper, isalpha c = true := by
  decide

/-- C20 (amended): weekday back-counting. For every pending magnitude N with
1 <= N <= 3550 (so that the seconds of the shift fit an `int`), every current weekday
w = `tm.tm_wday` and every target weekday i (both 0..6), on a text that starts with
3 or more letters of the name of weekday i in any letter case, followed by a
character that is neither a letter nor a digit or by the end, `approxidate_alpha`
shifts the moment back by d days (`update_tm` with 86400 * d seconds) where
7 * (N - 1) < d <= 7 * N and w - d is congruent to i modulo 7; the pending magnitude
is cleared and the token counts as touched. -/
theorem approxidate_alpha_weekday (env : Env) (i L : Nat) (cs rest : List Char)
    (tm now : Tm) (N touched : Int)
    (hi : i < 7) (hL3 : 3 ≤ L) (hL : L ≤ (weekday_names.getD i "").length)
    (hcs : cs.map toupper = ((weekday_names.getD i "").toList.take L).map toupper)
    (hrest : isalnum (chr rest) = false)
    (hN1 : 1 ≤ N) (hN2 : N ≤ 3550) (hw0 : 0 ≤ tm.tm_wday) (hw6 : tm.tm_wday ≤ 6) :
    ∃ d : Int, 7 * (N - 1) < d ∧ d ≤ 7 * N ∧ (tm.tm_wday - d) % 7 = (i : Int)
      ∧ approxidate_alpha env (cs ++ rest) tm now N touched
          = (cs.length, (update_tm env tm now (86400 * d)).2, 0, 1) := by
  have hLr : L ∈ List.range 11 := by
    have : (weekday_names.getD i "").length ≤ 10 := by
      interval_cases i <;> decide
    exact List.mem_range.2 (by omega)
  obtain ⟨h1, h2, h3, h4, h5, h6⟩ :=
    weekday_prefixes_matched i (List.mem_range.2 hi) L hLr hL3 hL
  have hlen : cs.length = L := by
    have := congrArg List.length hcs
    rw [List.length_map, h5] at this
    exact this
  have hne : cs ≠ [] := by
    intro e
    rw [e] at hlen
    simp at hlen
    omega
  have hl : ∀ c ∈ cs, isalpha c = true := by
    intro c hc
    have : toupper c ∈ ((weekday_names.getD i "").toList.take L).map toupper := by
      rw [← hcs]
      exact List.mem_map.2 ⟨c, hc, rfl⟩
    have := h6 _ this
    rw [isalpha_toupper] at this
    exact this
  have hs : first_special_match (((weekday_names.getD i "").toList.take L).map toupper)
      special = none := Option.isNone_iff_eq_none.1 h2
  have hae : alpha_end (((weekday_names.getD i "").toList.take L).map toupper) = cs.length := by
    rw [← hcs]
    have := alpha_end_run (cs.map toupper) [] (by simpa using hne)
      (by
        intro c hc
        obtain ⟨a, ha, rfl⟩ := List.mem_map.1 hc
        rw [isalpha_toupper]
        exact hl a ha) (by decide)
    rw [List.append_nil, List.length_map] at this
    exact this
  have hN0 : ¬ (N = 0) := by omega
  have e1 : isub N 1 = N - 1 := wrap32_of_range (by omega) (by omega)
  have e2 : isub tm.tm_wday (i : Int) = tm.tm_wday - i := wrap32_of_range (by omega) (by omega)
  have e3 : iadd (N - 1) 1 = N := by
    unfold iadd
    have : N - 1 + 1 = N := by ring
    rw [this]
    exact wrap32_of_range (by omega) (by omega)
  rw [approxidate_alpha_run_upper env cs rest tm now N touched hne hl hrest, hcs]
  unfold approxidate_alpha
  rw [h1, hs, h3, h4, hae]
  simp only [hN0, if_false, e1, e2]
  by_cases hle : tm.tm_wday - (i : Int) ≤ 0
  · refine ⟨tm.tm_wday - i + 7 * N, by omega, by omega, by omega, ?_⟩
    simp only [hle, if_true, e3]
    have e4 : imul 7 N = 7 * N := wrap32_of_range (by omega) (by omega)
    have e5 : iadd (tm.tm_wday - (i : Int)) (7 * N) = tm.tm_wday - i + 7 * N :=
      wrap32_of_range (by omega) (by omega)
    have e6 : imul (tm.tm_wday - i + 7 * N) 24 = (tm.tm_wday - i + 7 * N) * 24 :=
      wrap32_of_range (by omega) (by omega)
    have e7 : imul ((tm.tm_wday - i + 7 * N) * 24) 60 = (tm.tm_wday - i + 7 * N) * 24 * 60 :=
      wrap32_of_range (by omega) (by omega)
    have e8 : imul ((tm.tm_wday - i + 7 * N) * 24 * 60) 60
        = (tm.tm_wday - i + 7 * N) * 24 * 60 * 60 := wrap32_of_range (by omega) (by omega)
    have e9 : wrapU64 ((tm.tm_wday - i + 7 * N) * 24 * 60 * 60)
        = 86400 * (tm.tm_wday - i + 7 * N) := by
      unfold wrapU64; omega
    rw [e4, e5, e6, e7, e8, e9]
  · refine ⟨tm.tm_wday - i + 7 * (N - 1), by omega, by omega, by omega, ?_⟩
    simp only [hle, if_false]
    have e4 : imul 7 (N - 1) = 7 * (N - 1) := wrap32_of_range (by omega) (by omega)
    have e5 : iadd (tm.tm_wday - (i : Int)) (7 * (N - 1)) = tm.tm_wday - i + 7 * (N - 1) :=
      wrap32_of_range (by omega) (by omega)
    have e6 : imul (tm.tm_wday - i + 7 * (N - 1)) 24 = (tm.tm_wday - i + 7 * (N - 1)) * 24 :=
      wrap32_of_range (by omega) (by omega)
    have e7 : imul ((tm.tm_wday - i + 7 * (N - 1)) * 24) 60
        = (tm.tm_wday - i + 7 * (N - 1)) * 24 * 60 := wrap32_of_range (by omega) (by omega)
    have e8 : imul ((tm.tm_wday - i + 7 * (N - 1)) * 24 * 60) 60
        = (tm.tm_wday - i + 7 * (N - 1)) * 24 * 60 * 60 := wrap32_of_range (by omega) (by omega)
    have e9 : wrapU64 ((tm.tm_wday - i + 7 * (N - 1)) * 24 * 60 * 60)
        = 86400 * (tm.tm_wday - i + 7 * (N - 1)) := by
      unfold wrapU64; omega
    rw [e4, e5, e6, e7, e8, e9]

set_option maxRecDepth 100000 in
/-- C20 (witness): the amended statement at "tuesday ago" with the pending magnitude 1
on Tuesday 14 November 2023, 22:13:20 (the clock of `utcEnv`). -/
theorem approxidate_alpha_weekday_witness :
    ∃ d : Int, 7 * ((1 : Int) - 1) < d ∧ d ≤ 7 * 1
      ∧ (((gmtime 1700000000).getD zeroTm).tm_wday - d) % 7 = ((2 : Nat) : Int)
      ∧ approxidate_alpha utcEnv ("tuesday".toList ++ " ago".toList)
          ((gmtime 1700000000).getD zeroTm) ((gmtime 1700000000).getD zeroTm) 1 0
        = ("tuesday".toList.length, (update_tm utcEnv ((gmtime 1700000000).getD zeroTm)
                ((gmtime 1700000000).getD zeroTm) (86400 * d)).2, 0, 1) :=
  approxidate_alpha_weekday utcEnv 2 7 "tuesday".toList " ago".toList
    ((gmtime 1700000000).getD zeroTm) ((gmtime 1700000000).getD zeroTm) 1 0
    (by decide) (by decide) (by decide) (by decide) (by decide) (by decide) (by decide)
    (by decide) (by decide)

set_option maxRecDepth 100000 in
/-- C20 (counterexample): with the pending magnitude 4000 on a Tuesday, the name
"sunday" asks for a shift of 27995 days; the product 27995 * 24 * 60 * 60 does not
fit the `int` in which it is computed, and the moment the code reaches is none that
lies d days back with 7 * 3999 < d <= 7 * 4000. From the clock 1700000000 the
phrase "4000 sundays ago" gives the later moment 3576199296. -/
theorem approxidate_alpha_weekday_overflow :
    (¬ ∃ d : Int, 7 * ((4000 : Int) - 1) < d ∧ d ≤ 7 * 4000
      ∧ approxidate_alpha utcEnv "sunday".toList
          ((gmtime 1700000000).getD zeroTm) ((gmtime 1700000000).getD zeroTm) 4000 0
        = (6, (update_tm utcEnv ((gmtime 1700000000).getD zeroTm)
                ((gmtime 1700000000).getD zeroTm) (86400 * d)).2, 0, 1))
    ∧ approxidate_str utcEnv "4000 sundays ago".toList 1700000000 0
        = some (3576199296, 0) := by
  constructor
  · rintro ⟨d, h1, h2, h⟩
    have hd1 : 27993 < d := by omega
    have hd2 : d ≤ 28000 := by omega
    interval_cases d <;> revert h <;> decide
  · decide

/-! ### Decimal literals of any length -/

theorem toDigitsCore_natDigits : ∀ (n f : Nat) (ds : List Char), n < f →
    Nat.toDigitsCore 10 f n ds = natDigits n ++ ds := by
  intro n
  induction n using Nat.strong_induction_on with
  | _ n ih =>
    intro f ds hf
    by_cases h : n < 10
    · rw [toDigitsCore_last f n ds (by omega) h, natDigits_one n h]
      rfl
    · have h10 : 10 ≤ n := by omega
      have e : natDigits n = natDigits (n / 10) ++ [digitChar (n % 10)] := by
        show Nat.toDigitsCore 10 (n + 1) n [] = _
        rw [toDigitsCore_step (n + 1) n [] (by omega) h10,
          ih (n / 10) (by omega) (n + 1 - 1) _ (by omega)]
      rw [toDigitsCore_step f n ds (by omega) h10, ih (n / 10) (by omega) (f - 1) _ (by omega),
        e, List.append_assoc]
      rfl

theorem natDigits_snoc (n : Nat) (h : 10 ≤ n) :
    natDigits n = natDigits (n / 10) ++ [digitChar (n % 10)] := by
  show Nat.toDigitsCore 10 (n + 1) n [] = _
  rw [toDigitsCore_step (n + 1) n [] (by omega) h,
    toDigitsCore_natDigits (n / 10) (n + 1 - 1) _ (by omega)]

theorem natDigits_isdigit : ∀ (n : Nat), ∀ c ∈ natDigits n, isdigit c = true := by
  intro n
  induction n using Nat.strong_induction_on with
  | _ n ih =>
    intro c hc
    by_cases h : n < 10
    · rw [natDigits_one n h] at hc
      rw [List.mem_singleton.1 hc]
      exact isdigit_digitChar n h
    · rw [natDigits_snoc n (by omega)] at hc
      rcases List.mem_append.1 hc with h1 | h1
      · exact ih (n / 10) (by omega) c h1
      · rw [List.mem_singleton.1 h1]
        exact isdigit_digitChar (n % 10) (by omega)

theorem digitsValue_snoc (ds : List Char) (c : Char) :
    digitsValue (ds ++ [c]) = 10 * digitsValue ds + (c.toNat - 48) := by
  unfold digitsValue
  rw [List.foldl_append]
  rfl

theorem digitsValue_natDigits : ∀ (n : Nat), digitsValue (natDigits n) = n := by
  intro n
  induction n using Nat.strong_induction_on with
  | _ n ih =>
    by_cases h : n < 10
    · rw [natDigits_one n h]
      show 10 * 0 + ((digitChar n).toNat - 48) = n
      rw [digitChar_toNat n h]
      omega
    · rw [natDigits_snoc n (by omega), digitsValue_snoc, ih (n / 10) (by omega),
        digitChar_toNat (n % 10) (by omega)]
      omega

/-- The literal of a number of two or more digits: its first two characters are
digits. -/
theorem natDigits_two_or_more (n : Nat) (h : 10 ≤ n) :
    ∃ (a b : Char) (tl : List Char), natDigits n = a :: b :: tl ∧ isdigit a = true
      ∧ isdigit b = true ∧ ∀ c ∈ tl, isdigit c = true := by
  have hd := natDigits_isdigit n
  have hs := natDigits_snoc n h
  have hne : natDigits (n / 10) ≠ [] := by
    intro e
    have := digitsValue_natDigits (n / 10)
    rw [e] at this
    have h0 : digitsValue [] = 0 := rfl
    omega
  obtain ⟨a, l, hl⟩ := List.exists_cons_of_ne_nil hne
  rw [hl] at hs
  cases l with
  | nil =>
    refine ⟨a, digitChar (n % 10), [], hs, ?_, ?_, ?_⟩
    · exact hd a (by rw [hs]; simp)
    · exact hd _ (by rw [hs]; simp)
    · intro c hc; cases hc
  | cons b l =>
    refine ⟨a, b, l ++ [digitChar (n % 10)], hs, ?_, ?_, ?_⟩
    · exact hd a (by rw [hs]; simp)
    · exact hd b (by rw [hs]; simp)
    · intro c hc
      exact hd c (by rw [hs]; simp at hc ⊢; tauto)

/-- The function `strtol` on the decimal literal of `n`, followed by a text that
does not start with a digit. -/
theorem strtol_natDigits (n : Nat) (rest : List Char) (h10 : 10 ≤ n)
    (hmax : (n : Int) ≤ LONG_MAX) (hrest : isdigit (chr rest) = false) :
    strtol (natDigits n ++ rest) = ((n : Int), (natDigits n).length) := by
  obtain ⟨a, b, tl, e, ha, hb, htl⟩ := natDigits_two_or_more n h10
  have hv := digitsValue_natDigits n
  rw [e] at hv ⊢
  have hall : ∀ c ∈ b :: tl, isdigit c = true := by
    intro c hc
    rcases List.mem_cons.1 hc with h | h
    · rw [h]; exact hb
    · exact htl c h
  have := strtol_of_digits a (b :: tl) rest ha hall hrest (by rw [hv]; exact hmax)
  rw [hv] at this
  exact this

/-! ### Every moment is a civil date-time -/

theorem year_decompose : ∀ (fuel : Nat) (a D : Int), 0 ≤ D → D < 365 * ((fuel : Int) + 1) →
    ∃ (k : Nat) (r : Int), k ≤ fuel ∧ D = yearSpan a k + r ∧ 0 ≤ r ∧ r < daysInYear (a + k) := by
  intro fuel
  induction fuel with
  | zero =>
    intro a D h0 h1
    have := daysInYear_ge a
    exact ⟨0, D, le_refl _, by simp [yearSpan], h0, by simp; omega⟩
  | succ f ih =>
    intro a D h0 h1
    by_cases h : D < daysInYear a
    · exact ⟨0, D, Nat.zero_le _, by simp [yearSpan], h0, by simpa using h⟩
    · have hy := daysInYear_ge a
      push_cast at h1
      obtain ⟨k, r, hk, hD, hr0, hr1⟩ := ih (a + 1) (D - daysInYear a) (by omega) (by omega)
      refine ⟨k + 1, r, by omega, ?_, hr0, ?_⟩
      · rw [yearSpan_succ_front]; omega
      · have e : a + ((k + 1 : Nat) : Int) = a + 1 + (k : Int) := by push_cast; ring
        rw [e]; exact hr1

theorem month_decompose (y : Int) (r : Int) (h0 : 0 ≤ r) (h1 : r < daysInYear y) :
    ∃ (m : Nat) (d : Int), validDate y m d ∧ monthSpan y (m - 1) + (d - 1) = r := by
  unfold daysInYear at h1
  unfold validDate
  by_cases hl : gregorianLeap y = true
  · rw [if_pos hl] at h1
    have hc : r < 31 ∨ (31 ≤ r ∧ r < 60) ∨ (60 ≤ r ∧ r < 91) ∨ (91 ≤ r ∧ r < 121)
        ∨ (121 ≤ r ∧ r < 152) ∨ (152 ≤ r ∧ r < 182) ∨ (182 ≤ r ∧ r < 213)
        ∨ (213 ≤ r ∧ r < 244) ∨ (244 ≤ r ∧ r < 274) ∨ (274 ≤ r ∧ r < 305)
        ∨ (305 ≤ r ∧ r < 335) ∨ (335 ≤ r ∧ r < 366) := by omega
    rcases hc with h | h | h | h | h | h | h | h | h | h | h | h
    · exact ⟨1, r + 1, by simp [daysInMonth, monthSpan]; omega⟩
    · exact ⟨2, r - 31 + 1, by simp [daysInMonth, monthSpan, hl]; omega⟩
    · exact ⟨3, r - 60 + 1, by simp [daysInMonth, monthSpan, hl]; omega⟩
    · exact ⟨4, r - 91 + 1, by simp [daysInMonth, monthSpan, hl]; omega⟩
    · exact ⟨5, r - 121 + 1, by simp [daysInMonth, monthSpan, hl]; omega⟩
    · exact ⟨6, r - 152 + 1, by simp [daysInMonth, monthSpan, hl]; omega⟩
    · exact ⟨7, r - 182 + 1, by simp [daysInMonth, monthSpan, hl]; omega⟩
    · exact ⟨8, r - 213 + 1, by simp [daysInMonth, monthSpan, hl]; omega⟩
    · exact ⟨9, r - 244 + 1, by simp [daysInMonth, monthSpan, hl]; omega⟩
    · exact ⟨10, r - 274 + 1, by simp [daysInMonth, monthSpan, hl]; omega⟩
    · exact ⟨11, r - 305 + 1, by simp [daysInMonth, monthSpan, hl]; omega⟩
    · exact ⟨12, r - 335 + 1, by simp [daysInMonth, monthSpan, hl]; omega⟩
  · rw [if_neg hl] at h1
    have hc : r < 31 ∨ (31 ≤ r ∧ r < 59) ∨ (59 ≤ r ∧ r < 90) ∨ (90 ≤ r ∧ r < 120)
        ∨ (120 ≤ r ∧ r < 151) ∨ (151 ≤ r ∧ r < 181) ∨ (181 ≤ r ∧ r < 212)
        ∨ (212 ≤ r ∧ r < 243) ∨ (243 ≤ r ∧ r < 273) ∨ (273 ≤ r ∧ r < 304)
        ∨ (304 ≤ r ∧ r < 334) ∨ (334 ≤ r ∧ r < 365) := by omega
    rcases hc with h | h | h | h | h | h | h | h | h | h | h | h
    · exact ⟨1, r + 1, by simp [daysInMonth, monthSpan]; omega⟩
    · exact ⟨2, r - 31 + 1, by simp [daysInMonth, monthSpan, hl]; omega⟩
    · exact ⟨3, r - 59 + 1, by simp [daysInMonth, monthSpan, hl]; omega⟩
    · exact ⟨4, r - 90 + 1, by simp [daysInMonth, monthSpan, hl]; omega⟩
    · exact ⟨5, r - 120 + 1, by simp [daysInMonth, monthSpan, hl]; omega⟩
    · exact ⟨6, r - 151 + 1, by simp [daysInMonth, monthSpan, hl]; omega⟩
    · exact ⟨7, r - 181 + 1, by simp [daysInMonth, monthSpan, hl]; omega⟩
    · exact ⟨8, r - 212 + 1, by simp [daysInMonth, monthSpan, hl]; omega⟩
    · exact ⟨9, r - 243 + 1, by simp [daysInMonth, monthSpan, hl]; omega⟩
    · exact ⟨10, r - 273 + 1, by simp [daysInMonth, monthSpan, hl]; omega⟩
    · exact ⟨11, r - 304 + 1, by simp [daysInMonth, monthSpan, hl]; omega⟩
    · exact ⟨12, r - 334 + 1, by simp [daysInMonth, monthSpan, hl]; omega⟩

/-- Every count of days from 1970-01-01 on is the day count of a civil date. -/
theorem civil_date_of_days (D : Int) (h0 : 0 ≤ D) (h1 : D ≤ 2147483647) :
    ∃ (y : Int) (m : Nat) (d : Int), validDate y m d ∧ 1970 ≤ y ∧ y ≤ 5885487
      ∧ civilDays y m d = D := by
  obtain ⟨k, r, hk, hD, hr0, hr1⟩ := year_decompose 5883517 1970 D h0 (by norm_num; omega)
  obtain ⟨m, d, hv, hmd⟩ := month_decompose (1970 + k) r hr0 hr1
  have hk2 := yearSpan_ge 1970 k
  refine ⟨1970 + k, m, d, hv, by omega, by omega, ?_⟩
  unfold civilDays
  have e1 : (1970 : Int) ≤ 1970 + k := by omega
  have e2 : ((1970 : Int) + k - 1970).toNat = k := by omega
  rw [if_pos e1, e2, hD]
  omega

/-! ### Epoch-seconds literals -/

/-- The broken-down UTC time of a moment from 1970 to the end of day 2147483647
converts back to the moment. -/
theorem gmtime_tm_to_time_t (n : Int) (h0 : 0 ≤ n) (h1 : n < 185542587187200) :
    ∃ tm : Tm, gmtime n = some tm ∧ tm_to_time_t tm = some n := by
  obtain ⟨y, m, d, hv, hy1, hy2, hD⟩ := civil_date_of_days (n / 86400) (by omega) (by omega)
  have hd31 := daysInMonth_le y m
  have hn : n = 86400 * civilDays y m d + (n % 86400 / 3600) * 3600
      + (n % 86400 / 60 % 60) * 60 + n % 86400 % 60 := by
    rw [hD]; omega
  have hg := gmtime_civil y m d (n % 86400 / 3600) (n % 86400 / 60 % 60) (n % 86400 % 60) hv
    (by omega) (by omega) (by omega) (by omega) (by omega) (by omega) (by omega) (by omega)
  rw [← hn] at hg
  refine ⟨_, hg, ?_⟩
  have ht := tm_to_time_t_of_days
    { tm_sec := n % 86400 % 60, tm_min := n % 86400 / 60 % 60, tm_hour := n % 86400 / 3600,
      tm_mday := d, tm_mon := (m : Int) - 1, tm_year := y - 1900,
      tm_wday := (4 + civilDays y m d) % 7,
      tm_yday := monthSpan y (m - 1) + (d - 1), tm_isdst := 0 } y m rfl rfl (by omega)
    hv.1 hv.2.1 (by show civilDays y m d ≤ 2147483647; rw [hD]; omega)
    (by show 1 ≤ d; have := hv.2.2.1; omega)
    (by show d ≤ 1000; have := hv.2.2.2; omega)
    (by show 0 ≤ n % 86400 / 3600; omega) (by show n % 86400 / 3600 ≤ 596523; omega)
    (by show 0 ≤ n % 86400 / 60 % 60; omega) (by show n % 86400 / 60 % 60 ≤ 35791394; omega)
    (by show 0 ≤ n % 86400 % 60; omega) (by show n % 86400 % 60 ≤ 2147483647; omega)
  rw [ht]
  congr 1
  show 86400 * civilDays y m d + n % 86400 / 3600 * 3600 + n % 86400 / 60 % 60 * 60
    + n % 86400 % 60 = n
  exact hn.symm

theorem isalpha_of_isdigit (c : Char) (h : isdigit c = true) : isalpha c = false := by
  unfold isdigit at h
  unfold isalpha
  simp only [Bool.and_eq_true, decide_eq_true_eq] at h
  have h1 : ¬ (65 ≤ c.toNat) := by omega
  have h2 : ¬ (97 ≤ c.toNat) := by omega
  simp [h1, h2]

/-- The function `match_digit` on the decimal literal of a number of seconds of nine
or more digits, while no field is set: the fields are those of `gmtime`. -/
theorem match_digit_epoch (env : Env) (n : Nat) (rest : List Char) (st : PState) (tm0 : Tm)
    (h8 : 100000000 ≤ n) (hmax : (n : Int) ≤ LONG_MAX) (hrest : isdigit (chr rest) = false)
    (hnd : nodate st.tm = true) (hg : gmtime n = some tm0) :
    match_digit env (natDigits n ++ rest) st
      = some (0, { st with tm := tm0, tm_gmt := 1,
                           parsed_chars := ((natDigits n).length : Int) }) := by
  obtain ⟨a, b, tl, e, ha, hb, _⟩ := natDigits_two_or_more n (by omega)
  have hs := strtol_natDigits n rest (by omega) hmax hrest
  have hguard : (isdigit (chr (natDigits n ++ rest)) = true ∨ chr (natDigits n ++ rest) = '-'
      ∨ chr (natDigits n ++ rest) = '+')
      ∧ isdigit (chr ((natDigits n ++ rest).drop 1)) = true := by
    rw [e]
    exact ⟨Or.inl ha, hb⟩
  have hcond : ((n : Int) ≥ 100000000 ∨ (n : Int) ≤ -100000000) ∧ nodate st.tm = true :=
    ⟨Or.inl (by omega), hnd⟩
  unfold match_digit
  rw [if_neg (not_not.2 hguard), hs]
  dsimp only
  rw [if_pos hcond, hg]

/-- A round of the parser at the literal of a number of seconds. -/
theorem parse_step_epoch (env : Env) (n : Nat) (rest : List Char) (st : PState) (tm0 : Tm)
    (h8 : 100000000 ≤ n) (hmax : (n : Int) ≤ LONG_MAX) (hrest : isdigit (chr rest) = false)
    (hnd : nodate st.tm = true) (hg : gmtime n = some tm0) :
    parse_step env (natDigits n ++ rest) st
      = some { st with tm := tm0, tm_gmt := 1, parsed_chars := ((natDigits n).length : Int) } := by
  obtain ⟨a, b, tl, e, ha, hb, _⟩ := natDigits_two_or_more n (by omega)
  have c0 : chr (natDigits n ++ rest) = a := by rw [e]; rfl
  apply parse_step_digit env _ st _
  · rw [c0]; exact isalpha_of_isdigit a ha
  · rw [c0]; exact ne_of_isdigit a '-' ha (by decide)
  · rw [c0]; exact ne_of_isdigit a '+' ha (by decide)
  · exact match_digit_epoch env n rest { st with parsed_chars := 0 } tm0 h8 hmax hrest hnd hg

/-- A round of the parser at a space: one character is skipped. -/
theorem parse_step_space (env : Env) (rest : List Char) (st : PState) :
    parse_step env (' ' :: rest) st = some { st with parsed_chars := 1 } := by
  have n1 : chr (' ' :: rest) ≠ '-' := by
    show ' ' ≠ '-'
    decide
  have n2 : chr (' ' :: rest) ≠ '+' := by
    show ' ' ≠ '+'
    decide
  unfold parse_step
  rw [match_alpha_of_not_alpha (' ' :: rest) st.tm st.offset 0 rfl]
  dsimp only
  rw [if_neg (by decide), match_tz_of_not_sign (' ' :: rest) st.offset 0 n1 n2]
  dsimp only
  rw [if_neg (by decide), match_digit_of_not_number env (' ' :: rest) _ rfl n1 n2]
  rfl

/-- A round of the parser at a numeric zone `±HHMM`. -/
theorem parse_step_zone_hhmm (env : Env) (sign : Char) (oh om : Nat) (rest : List Char)
    (st : PState) (hsign : sign = '+' ∨ sign = '-') (hoh : oh < 24) (hom : om < 60)
    (hrest : isdigit (chr rest) = false) :
    parse_step env
        (sign :: digitChar (oh / 10) :: digitChar (oh % 10) :: digitChar (om / 10)
          :: digitChar (om % 10) :: rest) st
      = some { st with offset := signOf sign * (60 * (oh : Int) + (om : Int)),
                       parsed_chars := 5 } := by
  have hna : isalpha (chr (sign :: digitChar (oh / 10) :: digitChar (oh % 10)
      :: digitChar (om / 10) :: digitChar (om % 10) :: rest)) = false := by
    rcases hsign with e | e <;> rw [e] <;> rfl
  have htz := match_tz_hhmm sign (oh / 10) (oh % 10) (om / 10) (om % 10) rest st.offset 0
    hsign (by omega) (by omega) (by omega) (by omega) hrest
  have e1 : 10 * (oh / 10) + oh % 10 = oh := by omega
  have e2 : 10 * (om / 10) + om % 10 = om := by omega
  rw [e1, e2, if_pos ⟨hoh, hom⟩] at htz
  unfold parse_step
  rw [match_alpha_of_not_alpha _ st.tm st.offset 0 hna]
  dsimp only
  rw [if_neg (by decide), htz]
  dsimp only
  rw [if_pos rfl]

/-- The loop of `parse_date_basic` on the literal of a number of seconds alone. -/
theorem parse_loop_epoch (env : Env) (n : Nat) (tm0 : Tm)
    (h8 : 100000000 ≤ n) (hmax : (n : Int) ≤ LONG_MAX) (hg : gmtime n = some tm0) :
    parse_loop env ((natDigits n).length + 1) (natDigits n)
        { tm := unsetTm, offset := -1, tm_gmt := 0, parsed_chars := 0 }
      = some { tm := tm0, offset := -1, tm_gmt := 1,
               parsed_chars := ((natDigits n).length : Int) } := by
  obtain ⟨a, b, tl, e, ha, hb, _⟩ := natDigits_two_or_more n (by omega)
  have hlen : (natDigits n).length + 1 = tl.length + 1 + 1 + 1 := by rw [e]; rfl
  have hne : ¬ (chr (natDigits n ++ []) = NUL ∨ chr (natDigits n ++ []) = '\n') := by
    rw [e]
    show ¬ (a = NUL ∨ a = '\n')
    intro h
    rcases h with h | h
    · exact ne_of_isdigit a NUL ha (by decide) h
    · exact ne_of_isdigit a '\n' ha (by decide) h
  have s1 := parse_step_epoch env n []
    { tm := unsetTm, offset := -1, tm_gmt := 0, parsed_chars := 0 } tm0 h8 hmax (by decide)
    (by decide) hg
  have hstep := parse_loop_step env (tl.length + 1 + 1) (natDigits n ++ []) _ _
    (natDigits n).length hne s1 rfl
  rw [List.append_nil] at hstep
  rw [hlen, hstep, List.drop_length]
  exact parse_loop_end env (tl.length + 1) [] _ (Or.inl rfl)

/-- The loop of `parse_date_basic` on the literal of a number of seconds followed by
a space and an offset `±HHMM`. -/
theorem parse_loop_epoch_zone (env : Env) (n : Nat) (tm0 : Tm) (sign : Char) (oh om : Nat)
    (h8 : 100000000 ≤ n) (hmax : (n : Int) ≤ LONG_MAX) (hg : gmtime n = some tm0)
    (hsign : sign = '+' ∨ sign = '-') (hoh : oh < 24) (hom : om < 60) :
    parse_loop env
        ((natDigits n ++ ' ' :: sign :: [digitChar (oh / 10), digitChar (oh % 10),
          digitChar (om / 10), digitChar (om % 10)]).length + 1)
        (natDigits n ++ ' ' :: sign :: [digitChar (oh / 10), digitChar (oh % 10),
          digitChar (om / 10), digitChar (om % 10)])
        { tm := unsetTm, offset := -1, tm_gmt := 0, parsed_chars := 0 }
      = some { tm := tm0, offset := signOf sign * (60 * (oh : Int) + (om : Int)), tm_gmt := 1,
               parsed_chars := 5 } := by
  obtain ⟨a, b, tl, e, ha, hb, _⟩ := natDigits_two_or_more n (by omega)
  have hlen : (natDigits n ++ ' ' :: sign :: [digitChar (oh / 10), digitChar (oh % 10),
      digitChar (om / 10), digitChar (om % 10)]).length + 1 = (tl.length + 5) + 1 + 1 + 1 + 1 := by
    rw [e]
    simp only [List.length_append, List.length_cons, List.length_nil]
  have hne : ¬ (chr (natDigits n ++ ' ' :: sign :: [digitChar (oh / 10), digitChar (oh % 10),
      digitChar (om / 10), digitChar (om % 10)]) = NUL
      ∨ chr (natDigits n ++ ' ' :: sign :: [digitChar (oh / 10), digitChar (oh % 10),
      digitChar (om / 10), digitChar (om % 10)]) = '\n') := by
    rw [e]
    show ¬ (a = NUL ∨ a = '\n')
    intro h
    rcases h with h | h
    · exact ne_of_isdigit a NUL ha (by decide) h
    · exact ne_of_isdigit a '\n' ha (by decide) h
  have s1 := parse_step_epoch env n (' ' :: sign :: [digitChar (oh / 10), digitChar (oh % 10),
      digitChar (om / 10), digitChar (om % 10)])
    { tm := unsetTm, offset := -1, tm_gmt := 0, parsed_chars := 0 } tm0 h8 hmax rfl
    (by decide) hg
  rw [hlen, parse_loop_step env _ _ _ _ (natDigits n).length hne s1 rfl, List.drop_left]
  -- the space
  have hsp : ¬ (chr (' ' :: sign :: [digitChar (oh / 10), digitChar (oh % 10),
      digitChar (om / 10), digitChar (om % 10)]) = NUL
      ∨ chr (' ' :: sign :: [digitChar (oh / 10), digitChar (oh % 10),
      digitChar (om / 10), digitChar (om % 10)]) = '\n') := by
    show ¬ (' ' = NUL ∨ ' ' = '\n')
    decide
  rw [parse_loop_step env _ _ _ _ 1 hsp (parse_step_space env _ _) rfl]
  -- the offset
  have hsg : ¬ (chr (sign :: [digitChar (oh / 10), digitChar (oh % 10),
      digitChar (om / 10), digitChar (om % 10)]) = NUL
      ∨ chr (sign :: [digitChar (oh / 10), digitChar (oh % 10),
      digitChar (om / 10), digitChar (om % 10)]) = '\n') := by
    show ¬ (sign = NUL ∨ sign = '\n')
    rcases hsign with h | h <;> rw [h] <;> decide
  have s3 := parse_step_zone_hhmm env sign oh om []
    { tm := tm0, offset := -1, tm_gmt := 1, parsed_chars := 1 } hsign hoh hom (by decide)
  have d1 : List.drop 1 (' ' :: sign :: [digitChar (oh / 10), digitChar (oh % 10),
      digitChar (om / 10), digitChar (om % 10)])
      = sign :: [digitChar (oh / 10), digitChar (oh % 10),
      digitChar (om / 10), digitChar (om % 10)] := rfl
  rw [d1, parse_loop_step env _ _ _ _ 5 hsg s3 rfl]
  exact parse_loop_end env _ _ _ (Or.inl rfl)

/-- The result of `parse_date_basic` from the state in which its loop ends, when the
text does not start with `@` and the timestamp is marked as already absolute. -/
theorem parse_date_basic_of_loop (env : Env) (date : List Char) (st : PState) (ts : Int)
    (hat : chr date ≠ '@')
    (hloop : parse_loop env (date.length + 1) date
      { tm := unsetTm, offset := -1, tm_gmt := 0, parsed_chars := 0 } = some st)
    (hts : tm_to_time_t st.tm = some ts) (hgmt : st.tm_gmt = 1) :
    ∃ off : Int, parse_date_basic env date = .success ts off
      ∧ (st.offset ≠ -1 → off = st.offset) := by
  unfold parse_date_basic
  rw [if_neg hat]
  dsimp only
  rw [hloop]
  dsimp only
  rw [hts]
  dsimp only
  have hg : ¬ (st.tm_gmt = 0) := by rw [hgmt]; decide
  rw [if_neg hg]
  refine ⟨_, rfl, ?_⟩
  intro h
  rw [if_neg h]

/-- C13 (amended): epoch-seconds literals are absolute. For every n with
10^8 <= n < 185542587187200 = 2^31 * 86400 (the moments whose day count fits the `int`
in which `tm_to_time_t` computes it), `parse_date_basic` on the decimal literal of n
succeeds with the timestamp n, and so it does on the literal followed by a space and
an offset sign HH MM with HH < 24 and MM < 60: the timestamp is n, not n minus the
offset, and the offset reported is sign * (60 * HH + MM) unless that is -1. -/
theorem parse_date_basic_epoch_seconds (env : Env) (n : Nat) (h8 : 100000000 ≤ n)
    (hmax : n < 185542587187200) :
    (∃ off : Int, parse_date_basic env (natDigits n) = .success (n : Int) off)
    ∧ ∀ (sign : Char) (oh om : Nat), (sign = '+' ∨ sign = '-') → oh < 24 → om < 60 →
        ∃ off : Int,
          parse_date_basic env
              (natDigits n ++ ' ' :: sign :: [digitChar (oh / 10), digitChar (oh % 10),
                digitChar (om / 10), digitChar (om % 10)])
            = .success (n : Int) off
          ∧ (signOf sign * (60 * (oh : Int) + (om : Int)) ≠ -1 →
              off = signOf sign * (60 * (oh : Int) + (om : Int))) := by
  obtain ⟨tm0, hg, hts⟩ := gmtime_tm_to_time_t (n : Int) (by omega) (by omega)
  have hlm : (n : Int) ≤ LONG_MAX := by unfold LONG_MAX; omega
  obtain ⟨a, b, tl, e, ha, hb, _⟩ := natDigits_two_or_more n (by omega)
  have hat : ∀ rest : List Char, chr (natDigits n ++ rest) ≠ '@' := by
    intro rest
    rw [e]
    exact ne_of_isdigit a '@' ha (by decide)
  constructor
  · have hat0 := hat []
    rw [List.append_nil] at hat0
    obtain ⟨off, h, _⟩ := parse_date_basic_of_loop env (natDigits n) _ (n : Int) hat0
      (parse_loop_epoch env n tm0 h8 hlm hg) hts rfl
    exact ⟨off, h⟩
  · intro sign oh om hsign hoh hom
    exact parse_date_basic_of_loop env _ _ (n : Int) (hat _)
      (parse_loop_epoch_zone env n tm0 sign oh om h8 hlm hg hsign hoh hom) hts rfl

set_option maxRecDepth 100000 in
/-- C13 (witness): the amended statement at n = 1700000000 in the environment
`utcEnv`, alone and followed by the offset -0800; the literals are "1700000000" and
"1700000000 -0800".  And at the last literal it covers, 185542587187199. -/
theorem parse_date_basic_epoch_seconds_witness :
    (natDigits 1700000000 = "1700000000".toList
      ∧ parse_date_basic utcEnv "1700000000 -0800".toList = .success 1700000000 (-480))
    ∧ (∃ off : Int, parse_date_basic utcEnv (natDigits 1700000000)
          = .success ((1700000000 : Nat) : Int) off)
    ∧ (∃ off : Int,
        parse_date_basic utcEnv
            (natDigits 1700000000 ++ ' ' :: '-' :: [digitChar (8 / 10), digitChar (8 % 10),
              digitChar (0 / 10), digitChar (0 % 10)])
          = .success ((1700000000 : Nat) : Int) off
        ∧ (signOf '-' * (60 * ((8 : Nat) : Int) + ((0 : Nat) : Int)) ≠ -1 →
            off = signOf '-' * (60 * ((8 : Nat) : Int) + ((0 : Nat) : Int))))
    ∧ natDigits 185542587187199 = "185542587187199".toList
    ∧ ∃ off : Int, parse_date_basic utcEnv (natDigits 185542587187199)
          = .success ((185542587187199 : Nat) : Int) off :=
  ⟨by decide, (parse_date_basic_epoch_seconds utcEnv 1700000000 (by decide) (by decide)).1,
   (parse_date_basic_epoch_seconds utcEnv 1700000000 (by decide) (by decide)).2 '-' 8 0
     (Or.inr rfl) (by decide) (by decide),
   by decide,
   (parse_date_basic_epoch_seconds utcEnv 185542587187199 (by decide) (by decide)).1⟩

set_option maxRecDepth 100000 in
/-- C13 (counterexample): the literal 185542587187200 = 2^31 * 86400 (12 July 5881580,
00:00:00 UTC) has fifteen digits; `parse_date_basic` succeeds on it, alone and followed
by the offset -0800, but the timestamp it returns is -185542587187200: after `gmtime`
the timestamp is computed again by `tm_to_time_t`, whose day count 2147483648 does not
fit the `int` that holds it. -/
theorem parse_date_basic_epoch_overflow :
    (∃ off : Int,
      parse_date_basic utcEnv "185542587187200".toList = .success (-185542587187200) off)
    ∧ parse_date_basic utcEnv "185542587187200 -0800".toList
        = .success (-185542587187200) (-480) := by
  have hD : civilDays 5881580 7 12 = 2147483648 := by
    rw [civilDays_closed 5881580 7 12 (by decide) (by decide)]
    decide
  have hg := gmtime_civil 5881580 7 12 0 0 0 (by decide) (by decide) (by decide) (by decide)
    (by decide) (by decide) (by decide) (by decide) (by decide)
  rw [hD] at hg
  have hn : (86400 * 2147483648 + 0 * 3600 + 0 * 60 + 0 : Int)
      = ((185542587187200 : Nat) : Int) := by
    decide
  rw [hn] at hg
  constructor
  · have hl := parse_loop_epoch utcEnv 185542587187200 _ (by decide) (by decide) hg
    have e : "185542587187200".toList = natDigits 185542587187200 := by decide
    rw [e]
    obtain ⟨off, h, _⟩ := parse_date_basic_of_loop utcEnv (natDigits 185542587187200) _
      (-185542587187200) (by decide) hl (by decide) rfl
    exact ⟨off, h⟩
  · have hl := parse_loop_epoch_zone utcEnv 185542587187200 _ '-' 8 0 (by decide) (by decide) hg
      (Or.inr rfl) (by decide) (by decide)
    have e : "185542587187200 -0800".toList
        = natDigits 185542587187200 ++ ' ' :: '-' :: [digitChar (8 / 10), digitChar (8 % 10),
            digitChar (0 / 10), digitChar (0 % 10)] := by decide
    rw [e]
    obtain ⟨off, h, ho⟩ := parse_date_basic_of_loop utcEnv _ _
      (-185542587187200) (by decide) hl (by decide) rfl
    rw [h, ho (by decide)]
    decide

/-! ### Weekday names without a pending magnitude -/

set_option maxRecDepth 100000 in
/-- No beginning of at least 3 letters of a weekday name is a number name or the word
"last". -/
theorem weekday_prefixes_no_number :
    ∀ i ∈ List.range 7, ∀ L ∈ List.range 11, 3 ≤ L → L ≤ (weekday_names.getD i "").length →
      first_number_name (((weekday_names.getD i "").toList.take L).map toupper)
          (number_name.drop 1) 1 = none
      ∧ match_string (((weekday_names.getD i "").toList.take L).map toupper) "last".toList
          ≠ 4 := by
  decide

/-- C21 (amended): a weekday name with no pending magnitude is not acted on. For every
target weekday i and every text that starts with 3 or more letters of its name in any
letter case, followed by a character that is neither a letter nor a digit or by the
end, `approxidate_alpha` with the pending magnitude 0 consumes the letters and leaves
the moment, the pending magnitude and the mark of a recognized token as they were
(whatever the current weekday is). -/
theorem approxidate_alpha_bare_weekday (env : Env) (i L : Nat) (cs rest : List Char)
    (tm now : Tm) (touched : Int)
    (hi : i < 7) (hL3 : 3 ≤ L) (hL : L ≤ (weekday_names.getD i "").length)
    (hcs : cs.map toupper = ((weekday_names.getD i "").toList.take L).map toupper)
    (hrest : isalnum (chr rest) = false) :
    approxidate_alpha env (cs ++ rest) tm now 0 touched = (cs.length, tm, 0, touched) := by
  have hLr : L ∈ List.range 11 := by
    have : (weekday_names.getD i "").length ≤ 10 := by
      interval_cases i <;> decide
    exact List.mem_range.2 (by omega)
  obtain ⟨h1, h2, _, _, h5, h6⟩ :=
    weekday_prefixes_matched i (List.mem_range.2 hi) L hLr hL3 hL
  obtain ⟨h7, h8⟩ := weekday_prefixes_no_number i (List.mem_range.2 hi) L hLr hL3 hL
  have hlen : cs.length = L := by
    have := congrArg List.length hcs
    rw [List.length_map, h5] at this
    exact this
  have hne : cs ≠ [] := by
    intro e
    rw [e] at hlen
    simp at hlen
    omega
  have hl : ∀ c ∈ cs, isalpha c = true := by
    intro c hc
    have : toupper c ∈ ((weekday_names.getD i "").toList.take L).map toupper := by
      rw [← hcs]
      exact List.mem_map.2 ⟨c, hc, rfl⟩
    have := h6 _ this
    rw [isalpha_toupper] at this
    exact this
  have hs : first_special_match (((weekday_names.getD i "").toList.take L).map toupper)
      special = none := Option.isNone_iff_eq_none.1 h2
  have hae : alpha_end (((weekday_names.getD i "").toList.take L).map toupper) = cs.length := by
    rw [← hcs]
    have := alpha_end_run (cs.map toupper) [] (by simpa using hne)
      (by
        intro c hc
        obtain ⟨a, ha, rfl⟩ := List.mem_map.1 hc
        rw [isalpha_toupper]
        exact hl a ha) (by decide)
    rw [List.append_nil, List.length_map] at this
    exact this
  rw [approxidate_alpha_run_upper env cs rest tm now 0 touched hne hl hrest, hcs]
  unfold approxidate_alpha
  rw [h1, hs, h7, hae]
  simp only [if_true, if_neg h8]

set_option maxRecDepth 100000 in
/-- C21 (witness): the amended statement at "tuesday" on Tuesday 14 November 2023. -/
theorem approxidate_alpha_bare_weekday_witness :
    approxidate_alpha utcEnv ("tuesday".toList ++ []) ((gmtime 1700000000).getD zeroTm)
        ((gmtime 1700000000).getD zeroTm) 0 0
      = ("tuesday".toList.length, (gmtime 1700000000).getD zeroTm, 0, 0) :=
  approxidate_alpha_bare_weekday utcEnv 2 7 "tuesday".toList []
    ((gmtime 1700000000).getD zeroTm) ((gmtime 1700000000).getD zeroTm) 0
    (by decide) (by decide) (by decide) (by decide) (by decide)

set_option maxRecDepth 100000 in
/-- C21 (counterexample): on Tuesday 14 November 2023 (weekday 2) the bare name
"monday" (weekday 1) with no pending magnitude leaves the moment where it is and
does not mark a recognized token, where the claim asks for the shift of one day back
that the magnitude 1 gives; the phrase "monday" alone yields the clock itself with
the error count 1. -/
theorem approxidate_alpha_bare_weekday_not_shifted :
    approxidate_alpha utcEnv "monday".toList ((gmtime 1700000000).getD zeroTm)
        ((gmtime 1700000000).getD zeroTm) 0 0
      = (6, (gmtime 1700000000).getD zeroTm, 0, 0)
    ∧ approxidate_alpha utcEnv "monday".toList ((gmtime 1700000000).getD zeroTm)
        ((gmtime 1700000000).getD zeroTm) 1 0
      = (6, (gmtime (1700000000 - 86400)).getD zeroTm, 0, 1)
    ∧ approxidate_careful utcEnv "monday".toList 0 = some (1700000000, 1)
    ∧ approxidate_careful utcEnv "last monday".toList 0 = some (1700000000 - 86400, 0) := by
  decide

/-! ### The keyword "months" -/

theorem months_carry_spec : ∀ (fuel : Nat) (n y : Int), -2147483648 ≤ n → n ≤ 11 →
    -n ≤ 12 * (fuel : Int) → -2147483648 + (fuel : Int) ≤ y → y < 2147483648 →
    0 ≤ (months_carry fuel n y).1 ∧ (months_carry fuel n y).1 ≤ 11
      ∧ 12 * (months_carry fuel n y).2 + (months_carry fuel n y).1 = 12 * y + n := by
  intro fuel
  induction fuel with
  | zero =>
    intro n y h1 h2 h3 h4 h5
    have hn : 0 ≤ n := by simpa using h3
    exact ⟨hn, h2, rfl⟩
  | succ f ih =>
    intro n y h1 h2 h3 h4 h5
    push_cast at h3 h4
    unfold months_carry
    by_cases hn : n < 0
    · rw [if_pos hn]
      have e1 : iadd n 12 = n + 12 := wrap32_of_range (by omega) (by omega)
      have e2 : isub y 1 = y - 1 := wrap32_of_range (by omega) (by omega)
      rw [e1, e2]
      obtain ⟨a, b, c⟩ := ih (n + 12) (y - 1) (by omega) (by omega) (by omega) (by omega)
        (by omega)
      exact ⟨a, b, by rw [c]; ring⟩
    · rw [if_neg hn]
      exact ⟨by omega, h2, rfl⟩

set_option maxRecDepth 100000 in
/-- The words "month" and "months", in upper case and as texts of their own, are
matched by no month name, keyword, unit or weekday name, and by the word "months" in
at least 5 characters. -/
theorem months_word_matched :
    ∀ w ∈ ["MONTH".toList, "MONTHS".toList],
      first_name_match w month_names 0 = none
      ∧ (first_special_match w special).isNone = true
      ∧ first_typelen_match w typelen = none
      ∧ first_name_match w weekday_names 0 = none
      ∧ match_string w "months".toList ≥ 5
      ∧ alpha_end w = w.length
      ∧ w ≠ []
      ∧ ∀ c ∈ w, isalpha c = true := by
  decide

/-- C22 (amended): month subtraction carries into the year, from the moment that
`update_tm` leaves. On the word "month" or "months" in any letter case, followed by a
character that is neither a letter nor a digit or by the end, with a pending magnitude
N >= 1, the moment is first normalised by `update_tm(tm, now, 0)` (through `mktime`
and `localtime_r`); when the normalised moment has the month m in 0..11 and a filled
year y (y >= 0), the loop of `approxidate_alpha` ends and leaves a month m' in 0..11
and a year y' with 12 * y' + m' = 12 * y + m - N; the other fields of the normalised
moment are unchanged by the carry, the pending magnitude is cleared and the token
counts as touched. -/
theorem approxidate_alpha_months (env : Env) (cs rest : List Char) (tm now : Tm)
    (N touched : Int)
    (hcs : cs.map toupper = "MONTH".toList ∨ cs.map toupper = "MONTHS".toList)
    (hrest : isalnum (chr rest) = false)
    (hN1 : 1 ≤ N) (hN2 : N ≤ 2147483647)
    (hm0 : 0 ≤ (update_tm env tm now 0).2.tm_mon) (hm11 : (update_tm env tm now 0).2.tm_mon ≤ 11)
    (hy0 : 0 ≤ (update_tm env tm now 0).2.tm_year)
    (hy1 : (update_tm env tm now 0).2.tm_year ≤ 2147483647) :
    ∃ m' y' : Int, 0 ≤ m' ∧ m' ≤ 11
      ∧ 12 * y' + m'
          = 12 * (update_tm env tm now 0).2.tm_year + (update_tm env tm now 0).2.tm_mon - N
      ∧ approxidate_alpha env (cs ++ rest) tm now N touched
          = (cs.length, { (update_tm env tm now 0).2 with tm_mon := m', tm_year := y' }, 0, 1) := by
  have hmem : cs.map toupper ∈ ["MONTH".toList, "MONTHS".toList] := by
    rcases hcs with h | h <;> rw [h] <;> simp
  obtain ⟨h1, h2, h3, h4, h5, h6, h7, h8⟩ := months_word_matched _ hmem
  have hne : cs ≠ [] := by
    intro e
    rw [e] at h7
    exact h7 rfl
  have hl : ∀ c ∈ cs, isalpha c = true := by
    intro c hc
    have := h8 _ (List.mem_map.2 ⟨c, hc, rfl⟩)
    rw [isalpha_toupper] at this
    exact this
  have hs : first_special_match (cs.map toupper) special = none :=
    Option.isNone_iff_eq_none.1 h2
  have hN0 : ¬ (N = 0) := by omega
  rw [List.length_map] at h6
  generalize htm1 : (update_tm env tm now 0).2 = tm1 at hm0 hm11 hy0 hy1 ⊢
  have e1 : isub tm1.tm_mon N = tm1.tm_mon - N := wrap32_of_range (by omega) (by omega)
  obtain ⟨a, b, c⟩ := months_carry_spec (tm1.tm_mon - N).natAbs (tm1.tm_mon - N) tm1.tm_year
    (by omega) (by omega) (by omega) (by omega) (by omega)
  refine ⟨(months_carry (tm1.tm_mon - N).natAbs (tm1.tm_mon - N) tm1.tm_year).1,
    (months_carry (tm1.tm_mon - N).natAbs (tm1.tm_mon - N) tm1.tm_year).2, a, b, ?_, ?_⟩
  · rw [c]; ring
  · rw [approxidate_alpha_run_upper env cs rest tm now N touched hne hl hrest]
    unfold approxidate_alpha
    rw [h1, hs, h3, h4, h6]
    simp only [hN0, if_false, if_pos h5, htm1, e1]

set_option maxRecDepth 100000 in
/-- C22 (witness): the amended statement at "months ago" with the pending magnitude 14 on
14 November 2023 (month 10, year 123): the code reaches month 8 of year 122,
September 2022. -/
theorem approxidate_alpha_months_witness :
    (approxidate_alpha utcEnv ("months".toList ++ " ago".toList)
        ((gmtime 1700000000).getD zeroTm) ((gmtime 1700000000).getD zeroTm) 14 0
      = (6, { (gmtime 1700000000).getD zeroTm with tm_mon := 8, tm_year := 122 }, 0, 1))
    ∧ ∃ m' y' : Int, 0 ≤ m' ∧ m' ≤ 11
      ∧ 12 * y' + m'
          = 12 * (update_tm utcEnv ((gmtime 1700000000).getD zeroTm)
                ((gmtime 1700000000).getD zeroTm) 0).2.tm_year
            + (update_tm utcEnv ((gmtime 1700000000).getD zeroTm)
                ((gmtime 1700000000).getD zeroTm) 0).2.tm_mon - 14
      ∧ approxidate_alpha utcEnv ("months".toList ++ " ago".toList)
          ((gmtime 1700000000).getD zeroTm) ((gmtime 1700000000).getD zeroTm) 14 0
        = ("months".toList.length,
            { (update_tm utcEnv ((gmtime 1700000000).getD zeroTm)
                ((gmtime 1700000000).getD zeroTm) 0).2 with tm_mon := m', tm_year := y' },
            0, 1) :=
  ⟨by decide,
   approxidate_alpha_months utcEnv "months".toList " ago".toList
    ((gmtime 1700000000).getD zeroTm) ((gmtime 1700000000).getD zeroTm) 14 0
    (Or.inr (by decide)) (by decide) (by decide) (by decide) (by decide) (by decide)
    (by decide) (by decide)⟩

set_option maxRecDepth 100000 in
/-- C22 (counterexample): the filled moment 31 February 2023, 22:13:20 (day 31, month
field m = 1, year field y = 123) with the pending magnitude N = 1 at the word "month":
`update_tm` normalises the moment to 3 March 2023 before the subtraction, and the code
leaves 3 February 2023, month m' = 1 of year y' = 123, so 12 * y' + m' = 1477 and not
12 * y + m - N = 1476. -/
theorem approxidate_alpha_months_renormalised :
    approxidate_alpha utcEnv "month ago".toList
        { (gmtime 1700000000).getD zeroTm with tm_year := 123, tm_mon := 1, tm_mday := 31 }
        ((gmtime 1700000000).getD zeroTm) 1 0
      = (5, { tm_sec := 20, tm_min := 13, tm_hour := 22, tm_mday := 3, tm_mon := 1,
              tm_year := 123, tm_wday := 5, tm_yday := 61, tm_isdst := 0 }, 0, 1)
    ∧ (12 * 123 + 1 : Int) ≠ 12 * 123 + 1 - 1 := by
  decide

/-! ### Numbers that start with a sign -/

set_option maxRecDepth 100000 in
/-- C24 (code at the failing input): on a number that starts with `+` and is no epoch
value `match_digit` reports a match and goes on to its guesses, because the test
after the epoch case reads `date[1] == '+'` where the sign is `date[0]`: "+5 Apr"
sets the day of month to 5 and "+123" sets the offset to 83, and `parse_date_basic`
reads "+5 Apr 2005 10:00:00" as 5 April 2005. On the sign `-` the code reports no
match and changes nothing. -/
theorem match_digit_plus_sign :
    match_digit utcEnv "+5 Apr".toList
        { tm := unsetTm, offset := -1, tm_gmt := 0, parsed_chars := 0 }
      = some (0, { tm := { unsetTm with tm_mday := 5 }, offset := -1, tm_gmt := 0,
                   parsed_chars := 2 })
    ∧ match_digit utcEnv "+123".toList
        { tm := unsetTm, offset := -1, tm_gmt := 0, parsed_chars := 0 }
      = some (0, { tm := unsetTm, offset := 83, tm_gmt := 0, parsed_chars := 4 })
    ∧ match_digit utcEnv "-5 Apr".toList
        { tm := unsetTm, offset := -1, tm_gmt := 0, parsed_chars := 0 }
      = some (-1, { tm := unsetTm, offset := -1, tm_gmt := 0, parsed_chars := 0 })
    ∧ match_digit utcEnv "-123".toList
        { tm := unsetTm, offset := -1, tm_gmt := 0, parsed_chars := 0 }
      = some (-1, { tm := unsetTm, offset := -1, tm_gmt := 0, parsed_chars := 0 })
    ∧ parse_date_basic utcEnv "+5 Apr 2005 10:00:00".toList = .success 1112695200 0
    ∧ tm_to_time_t (civilTm 2005 4 5 10 0 0) = some 1112695200 := by
  decide

/-! ### The counts of the relative format -/

/-- C25 (amended): the singular wording is unreachable for the middle units standing
alone. For every time >= 0 and now >= time (both `time_t`) the text of
`show_date_relative` is the text of a bucket whose count is in the range of its unit:
minutes 2..89, hours 2..35, days 2..13, weeks 2..10, months 2..12 (seconds 0..89); in
the branch of years and months (less than 1825 days) the years are 1..5 and the months
0..11, printed as years and months when the months are 1..11 and as years alone when
they are 0; beyond it the years are at least 1. So the count 1 is printed only by the
seconds, by the years and by the month part of the text of years and months. -/
theorem show_date_relative_counts (time now : Int) (h0 : 0 ≤ time) (h1 : time ≤ now)
    (h2 : now ≤ LONG_MAX) :
    show_date_relative time now = some (relativeAge now time).text
    ∧ match relativeAge now time with
      | .future => False
      | .seconds n => 0 ≤ n ∧ n ≤ 89
      | .minutes n => 2 ≤ n ∧ n ≤ 89
      | .hours n => 2 ≤ n ∧ n ≤ 35
      | .days n => 2 ≤ n ∧ n ≤ 13
      | .weeks n => 2 ≤ n ∧ n ≤ 10
      | .months n => 2 ≤ n ∧ n ≤ 12
      | .yearsMonths y m =>
        (((now - time + 30) / 60 + 30) / 60 + 12) / 24 < 1825
          ∧ 1 ≤ y ∧ y ≤ 5 ∧ 1 ≤ m ∧ m ≤ 11
      | .years n =>
        1 ≤ n ∧ ((((now - time + 30) / 60 + 30) / 60 + 12) / 24 < 1825 → n ≤ 5) := by
  unfold LONG_MAX at h2
  refine ⟨show_date_relative_text time now (by omega), ?_⟩
  have hf : ¬ (now < time) := by omega
  have he : 0 ≤ now - time := by omega
  unfold relativeAge
  simp only [hf, if_false]
  generalize now - time = e at he
  by_cases c1 : e < 90
  · simp only [c1, if_true]
    omega
  · simp only [c1, if_false]
    have hm : 2 ≤ (e + 30) / 60 := by omega
    generalize (e + 30) / 60 = m at hm
    by_cases c2 : m < 90
    · simp only [c2, if_true]
      omega
    · simp only [c2, if_false]
      have hh : 2 ≤ (m + 30) / 60 := by omega
      generalize (m + 30) / 60 = hr at hh
      by_cases c3 : hr < 36
      · simp only [c3, if_true]
        omega
      · simp only [c3, if_false]
        have hd : 2 ≤ (hr + 12) / 24 := by omega
        generalize (hr + 12) / 24 = d at hd
        by_cases c4 : d < 14
        · simp only [c4, if_true]
          omega
        · simp only [c4, if_false]
          by_cases c5 : d < 70
          · simp only [c5, if_true]
            omega
          · simp only [c5, if_false]
            by_cases c6 : d < 365
            · simp only [c6, if_true]
              omega
            · simp only [c6, if_false]
              by_cases c7 : d < 1825
              · simp only [c7, if_true]
                by_cases c8 : (d * 24 + 365) / 730 % 12 ≠ 0
                · rw [if_pos c8]
                  show True ∧ 1 ≤ (d * 24 + 365) / 730 / 12 ∧ (d * 24 + 365) / 730 / 12 ≤ 5
                    ∧ 1 ≤ (d * 24 + 365) / 730 % 12 ∧ (d * 24 + 365) / 730 % 12 ≤ 11
                  refine ⟨trivial, ?_⟩
                  omega
                · rw [if_neg c8]
                  show 1 ≤ (d * 24 + 365) / 730 / 12
                    ∧ (True → (d * 24 + 365) / 730 / 12 ≤ 5)
                  refine ⟨?_, fun _ => ?_⟩ <;> omega
              · simp only [c7, if_false]
                show 1 ≤ (d + 183) / 365 ∧ (False → (d + 183) / 365 ≤ 5)
                refine ⟨?_, fun hF => hF.elim⟩
                omega

set_option maxRecDepth 100000 in
/-- C25 (witness): the amended statement at the age of 91 seconds, which reads
"2 minutes ago", and at the age of 760 days, which reads "2 years, 1 month ago" in
the branch of years and months. -/
theorem show_date_relative_counts_witness :
    (show_date_relative 1700000000 1700000091 = some "2 minutes ago".toList
      ∧ show_date_relative 0 (760 * 86400) = some "2 years, 1 month ago".toList)
    ∧ (show_date_relative 1700000000 1700000091 = some (relativeAge 1700000091 1700000000).text
      ∧ match relativeAge 1700000091 1700000000 with
        | .future => False
        | .seconds n => 0 ≤ n ∧ n ≤ 89
        | .minutes n => 2 ≤ n ∧ n ≤ 89
        | .hours n => 2 ≤ n ∧ n ≤ 35
        | .days n => 2 ≤ n ∧ n ≤ 13
        | .weeks n => 2 ≤ n ∧ n ≤ 10
        | .months n => 2 ≤ n ∧ n ≤ 12
        | .yearsMonths y m =>
          ((((1700000091 : Int) - 1700000000 + 30) / 60 + 30) / 60 + 12) / 24 < 1825
            ∧ 1 ≤ y ∧ y ≤ 5 ∧ 1 ≤ m ∧ m ≤ 11
        | .years n =>
          1 ≤ n ∧ (((((1700000091 : Int) - 1700000000 + 30) / 60 + 30) / 60 + 12) / 24 < 1825
            → n ≤ 5))
    ∧ (show_date_relative 0 (760 * 86400) = some (relativeAge (760 * 86400) 0).text
      ∧ match relativeAge (760 * 86400) 0 with
        | .future => False
        | .seconds n => 0 ≤ n ∧ n ≤ 89
        | .minutes n => 2 ≤ n ∧ n ≤ 89
        | .hours n => 2 ≤ n ∧ n ≤ 35
        | .days n => 2 ≤ n ∧ n ≤ 13
        | .weeks n => 2 ≤ n ∧ n ≤ 10
        | .months n => 2 ≤ n ∧ n ≤ 12
        | .yearsMonths y m =>
          ((((760 * 86400 : Int) - 0 + 30) / 60 + 30) / 60 + 12) / 24 < 1825
            ∧ 1 ≤ y ∧ y ≤ 5 ∧ 1 ≤ m ∧ m ≤ 11
        | .years n =>
          1 ≤ n ∧ (((((760 * 86400 : Int) - 0 + 30) / 60 + 30) / 60 + 12) / 24 < 1825
            → n ≤ 5)) :=
  ⟨by decide, show_date_relative_counts 1700000000 1700000091 (by decide) (by decide)
    (by decide),
   show_date_relative_counts 0 (760 * 86400) (by decide) (by decide) (by decide)⟩

set_option maxRecDepth 100000 in
/-- C25 (counterexample): at the age of 395 days, with time = 0 and now >= time, the
text is "1 year, 1 month ago": the month count 1 is printed with the singular wording,
in a unit that is neither the seconds nor the years. -/
theorem show_date_relative_one_month :
    show_date_relative 0 (395 * 86400) = some "1 year, 1 month ago".toList
    ∧ relativeAge (395 * 86400) 0 = .yearsMonths 1 1 := by
  decide

/-! ### The offset code of the local time zone -/

theorem strtol_neg_digits (d : Char) (ds rest : List Char) (hd : isdigit d = true)
    (hds : ∀ c ∈ ds, isdigit c = true) (hrest : isdigit (chr rest) = false)
    (hv : LONG_MIN ≤ -(digitsValue (d :: ds) : Int)) :
    strtol ('-' :: d :: (ds ++ rest)) = (-(digitsValue (d :: ds) : Int), ds.length + 2) := by
  have hall : ∀ c ∈ d :: ds, isdigit c = true := by
    intro c hc
    rcases List.mem_cons.1 hc with h | h
    · rw [h]; exact hd
    · exact hds c h
  have ht := takeWhile_isdigit_run (d :: ds) rest hall hrest
  rw [List.cons_append] at ht
  have hp : numberPrefix ('-' :: d :: (ds ++ rest)) = (0, true, 1, d :: ds) := by
    unfold numberPrefix
    have hs : isspace '-' = false := by decide
    have ht2 := takeWhile_isdigit_run ds rest hds hrest
    simp [List.takeWhile, hs, chr, hd, ht2]
  unfold strtol
  rw [hp]
  have hlt : ¬ (-(digitsValue (d :: ds) : Int) < LONG_MIN) := by omega
  have hgt : ¬ (-(digitsValue (d :: ds) : Int) > LONG_MAX) := by
    unfold LONG_MAX
    have : (0 : Int) ≤ (digitsValue (d :: ds) : Int) := Int.ofNat_nonneg _
    omega
  simp [hlt, hgt]
  omega

/-- The literal of any natural number starts with a digit and holds digits only. -/
theorem natDigits_cons (n : Nat) :
    ∃ (a : Char) (tl : List Char), natDigits n = a :: tl ∧ isdigit a = true
      ∧ ∀ c ∈ tl, isdigit c = true := by
  by_cases h : n < 10
  · exact ⟨digitChar n, [], natDigits_one n h, isdigit_digitChar n h, by intro c hc; cases hc⟩
  · obtain ⟨a, b, tl, e, ha, hb, htl⟩ := natDigits_two_or_more n (by omega)
    refine ⟨a, b :: tl, e, ha, ?_⟩
    intro c hc
    rcases List.mem_cons.1 hc with h | h
    · rw [h]; exact hb
    · exact htl c h

/-- The function `strtol` on the text that `%ld` prints for a `long`, followed by a
text that does not start with a digit. -/
theorem strtol_fmt_d (t : Int) (rest : List Char) (ht1 : LONG_MIN ≤ t) (ht2 : t ≤ LONG_MAX)
    (hrest : isdigit (chr rest) = false) :
    strtol (fmt_d t ++ rest) = (t, (fmt_d t).length) := by
  obtain ⟨a, tl, e, ha, htl⟩ := natDigits_cons t.natAbs
  have hv := digitsValue_natDigits t.natAbs
  rw [e] at hv
  unfold fmt_d
  by_cases hneg : t < 0
  · rw [if_pos hneg, e]
    have h := strtol_neg_digits a tl rest ha htl hrest (by rw [hv]; omega)
    rw [hv] at h
    have et : -((t.natAbs : Nat) : Int) = t := by omega
    rw [et] at h
    simp only [List.cons_append, List.length_cons]
    rw [h]
  · rw [if_neg hneg, e]
    have h := strtol_of_digits a tl rest ha htl hrest (by rw [hv]; omega)
    rw [hv] at h
    have et : ((t.natAbs : Nat) : Int) = t := by omega
    rw [et] at h
    simp only [List.cons_append, List.length_cons]
    rw [h]

theorem drop_append_length_add (L R : List Char) (k : Nat) :
    (L ++ R).drop (L.length + k) = R.drop k := by
  induction L with
  | nil => simp
  | cons a L ih =>
    have e : (a :: L).length + k = (L.length + k) + 1 := by
      simp only [List.length_cons]; omega
    rw [e, List.cons_append, List.drop_succ_cons, ih]

/-- The text of `date_string` for an offset of at most 99 hours 59 minutes: the
number, a space, the sign and four digits. -/
theorem date_string_eq (t m : Int) (hm1 : -5999 ≤ m) (hm2 : m ≤ 5999) :
    date_string t m = fmt_d t ++ ' ' :: (if m < 0 then '-' else '+')
      :: [digitChar (m.natAbs / 60 / 10), digitChar (m.natAbs / 60 % 10),
          digitChar (m.natAbs % 60 / 10), digitChar (m.natAbs % 60 % 10)] := by
  have ha : (if m < 0 then ineg m else m) = ((m.natAbs : Nat) : Int) := by
    split
    · have : ineg m = -m := wrap32_of_range (by omega) (by omega)
      rw [this]; omega
    · omega
  have e1 : ((m.natAbs : Nat) : Int).tdiv 60 = ((m.natAbs / 60 : Nat) : Int) := by
    rw [tdiv_of_nonneg _ 60 (by omega) (by decide)]
    push_cast
    rfl
  have e2 : ((m.natAbs : Nat) : Int).tmod 60 = ((m.natAbs % 60 : Nat) : Int) := by
    rw [tmod_of_nonneg _ 60 (by omega) (by decide)]
    push_cast
    rfl
  unfold date_string
  simp only [ha, e1, e2]
  rw [fmt_0d_two (m.natAbs / 60) (by omega), fmt_0d_two (m.natAbs % 60) (by omega)]
  rfl

theorem fmt_d_head (t : Int) :
    ∃ (c : Char) (tl : List Char), fmt_d t = c :: tl ∧ (isdigit c = true ∨ c = '-') := by
  obtain ⟨a, tl, e, ha, _⟩ := natDigits_cons t.natAbs
  unfold fmt_d
  split
  · exact ⟨'-', natDigits t.natAbs, rfl, Or.inr rfl⟩
  · exact ⟨a, tl, e, Or.inl ha⟩

/-- The function `match_object_header_date` on a text made of a number `L`, a space,
a sign and a number `D` of four characters that ends the text. -/
theorem match_object_header_date_parts (L D : List Char) (s : Char) (t v : Int)
    (hL : ¬ (isdigit (chr (L ++ ' ' :: s :: D)) = false
      ∧ ¬ (chr (L ++ ' ' :: s :: D) = '+' ∨ chr (L ++ ' ' :: s :: D) = '-')))
    (hst : strtol (L ++ ' ' :: s :: D) = (t, L.length))
    (ht : t ≠ LONG_MAX) (hs : s = '+' ∨ s = '-')
    (hD : strtol D = (v, 4)) (hend : chr (D.drop 4) = NUL) :
    match_object_header_date (L ++ ' ' :: s :: D)
      = some (t, if s = '-' then
          ineg (iadd (imul ((wrap32 v).tdiv 100) 60) ((wrap32 v).tmod 100))
        else iadd (imul ((wrap32 v).tdiv 100) 60) ((wrap32 v).tmod 100)) := by
  have d0 : (L ++ ' ' :: s :: D).drop L.length = ' ' :: s :: D := List.drop_left _ _
  have d1 : (L ++ ' ' :: s :: D).drop (L.length + 1) = s :: D :=
    drop_append_length_add L (' ' :: s :: D) 1
  have d2 : (L ++ ' ' :: s :: D).drop (L.length + 2) = D :=
    drop_append_length_add L (' ' :: s :: D) 2
  have c0 : chr (' ' :: s :: D) = ' ' := rfl
  have c1 : chr (s :: D) = s := rfl
  have g2 : ¬ (' ' ≠ ' ' ∨ t = LONG_MAX ∨ (s ≠ '+' ∧ s ≠ '-')) := by
    intro h
    rcases h with h | h | h
    · exact h rfl
    · exact ht h
    · rcases hs with e | e
      · exact h.1 e
      · exact h.2 e
  have g3 : ¬ ((NUL ≠ NUL ∧ NUL ≠ '\n') ∨ (4 : Nat) ≠ 4) := by
    intro h
    rcases h with h | h
    · exact h.1 rfl
    · exact h rfl
  unfold match_object_header_date
  rw [if_neg hL]
  simp only [hst, d0, d1, d2, c0, c1, hD, hend]
  rw [if_neg g2, if_neg g3]

/-- The minutes that `match_object_header_date` computes from the number HHMM. -/
theorem header_offset_minutes (q r : Nat) (hq : q < 100) (hr : r < 60) :
    iadd (imul ((wrap32 (100 * (q : Int) + (r : Int))).tdiv 100) 60)
        ((wrap32 (100 * (q : Int) + (r : Int))).tmod 100) = 60 * (q : Int) + (r : Int)
    ∧ ineg (60 * (q : Int) + (r : Int)) = -(60 * (q : Int) + (r : Int)) := by
  have w1 : wrap32 (100 * (q : Int) + (r : Int)) = 100 * (q : Int) + (r : Int) :=
    wrap32_of_range (by omega) (by omega)
  have w2 : (100 * (q : Int) + (r : Int)).tdiv 100 = (q : Int) := by
    rw [tdiv_of_nonneg _ 100 (by omega) (by decide)]; omega
  have w3 : (100 * (q : Int) + (r : Int)).tmod 100 = (r : Int) := by
    rw [tmod_of_nonneg _ 100 (by omega) (by decide)]; omega
  have w4 : imul (q : Int) 60 = 60 * (q : Int) := by
    rw [imul, mul_comm]
    exact wrap32_of_range (by omega) (by omega)
  have w5 : iadd (60 * (q : Int)) (r : Int) = 60 * (q : Int) + (r : Int) :=
    wrap32_of_range (by omega) (by omega)
  have w6 : ineg (60 * (q : Int) + (r : Int)) = -(60 * (q : Int) + (r : Int)) :=
    wrap32_of_range (by omega) (by omega)
  rw [w1, w2, w3, w4, w5]
  exact ⟨rfl, w6⟩

/-- The sign and the digits of `date_string` give back the offset. -/
theorem header_offset_sign (m : Int) (s : Char) (q r : Nat)
    (hA : ((m.natAbs : Nat) : Int) = 60 * (q : Int) + (r : Int))
    (hsd : (if m < 0 then '-' else '+') = s) :
    (if s = '-' then -(60 * (q : Int) + (r : Int)) else 60 * (q : Int) + (r : Int)) = m := by
  by_cases hneg : m < 0
  · rw [if_pos hneg] at hsd
    rw [← hsd, if_pos rfl]
    omega
  · rw [if_neg hneg] at hsd
    have hne : ¬ ('+' = '-') := by decide
    rw [← hsd, if_neg hne]
    omega

/-- The function `match_object_header_date` on the text of `date_string`. -/
theorem match_object_header_date_date_string (t m : Int) (ht1 : LONG_MIN ≤ t)
    (ht2 : t < LONG_MAX) (hm1 : -5999 ≤ m) (hm2 : m ≤ 5999) :
    match_object_header_date (date_string t m) = some (t, m) := by
  rw [date_string_eq t m hm1 hm2]
  obtain ⟨c, tl, ec, hc⟩ := fmt_d_head t
  have hq : m.natAbs / 60 < 100 := by omega
  have hr : m.natAbs % 60 < 60 := by omega
  have hA : ((m.natAbs : Nat) : Int)
      = 60 * ((m.natAbs / 60 : Nat) : Int) + ((m.natAbs % 60 : Nat) : Int) := by
    have := Nat.div_add_mod m.natAbs 60
    omega
  have htle : t ≤ LONG_MAX := le_of_lt ht2
  have htne : t ≠ LONG_MAX := ne_of_lt ht2
  clear hm1 hm2 ht2
  generalize m.natAbs / 60 = q at hq hA
  generalize m.natAbs % 60 = r at hr hA
  have h4 := strtol_four (q / 10) (q % 10) (r / 10) (r % 10) [] (by omega) (by omega)
    (by omega) (by omega) rfl
  have hval : ((1000 * (q / 10) + 100 * (q % 10) + 10 * (r / 10) + r % 10 : Nat) : Int)
      = 100 * (q : Int) + (r : Int) := by omega
  rw [hval] at h4
  clear hval
  have hs : (if m < 0 then '-' else '+') = '+' ∨ (if m < 0 then '-' else '+') = '-' := by
    split
    · exact Or.inr rfl
    · exact Or.inl rfl
  have hsign := header_offset_sign m (if m < 0 then '-' else '+') q r hA rfl
  generalize (if m < 0 then '-' else '+') = s at hs hsign
  have hsdig : isdigit (chr (' ' :: s :: [digitChar (q / 10), digitChar (q % 10),
      digitChar (r / 10), digitChar (r % 10)])) = false := rfl
  have hst := strtol_fmt_d t (' ' :: s
      :: [digitChar (q / 10), digitChar (q % 10), digitChar (r / 10), digitChar (r % 10)])
    ht1 htle hsdig
  have hL : ¬ (isdigit (chr (fmt_d t ++ ' ' :: s
        :: [digitChar (q / 10), digitChar (q % 10), digitChar (r / 10), digitChar (r % 10)]))
        = false
      ∧ ¬ (chr (fmt_d t ++ ' ' :: s
        :: [digitChar (q / 10), digitChar (q % 10), digitChar (r / 10), digitChar (r % 10)])
          = '+'
        ∨ chr (fmt_d t ++ ' ' :: s
        :: [digitChar (q / 10), digitChar (q % 10), digitChar (r / 10), digitChar (r % 10)])
          = '-')) := by
    rw [ec]
    show ¬ (isdigit c = false ∧ ¬ (c = '+' ∨ c = '-'))
    intro h
    rcases hc with e | e
    · rw [e] at h
      cases h.1
    · exact h.2 (Or.inr e)
  have hend : chr (List.drop 4 [digitChar (q / 10), digitChar (q % 10), digitChar (r / 10),
      digitChar (r % 10)]) = NUL := rfl
  obtain ⟨hv1, hv2⟩ := header_offset_minutes q r hq hr
  rw [match_object_header_date_parts (fmt_d t)
    [digitChar (q / 10), digitChar (q % 10), digitChar (r / 10), digitChar (r % 10)] s t
    (100 * (q : Int) + (r : Int)) hL hst htne hs h4 hend, hv1, hv2, hsign]

/-- C26: `date_string` and the header form are inverse. For every timestamp t (a
`time_t`) other than `LONG_MAX` and every offset m in minutes with |m| <= 1440,
`match_object_header_date` on the text `date_string t m` succeeds and returns (t, m),
and `parse_date_basic` on `@` followed by that text returns the timestamp t and the
offset m, whatever the environment is. -/
theorem date_string_header_round_trip (t m : Int) (ht1 : LONG_MIN ≤ t) (ht2 : t ≤ LONG_MAX)
    (htn : t ≠ LONG_MAX) (hm : |m| ≤ 1440) :
    match_object_header_date (date_string t m) = some (t, m)
    ∧ ∀ env : Env, parse_date_basic env ('@' :: date_string t m) = .success t m := by
  obtain ⟨hm1, hm2⟩ := abs_le.1 hm
  have h := match_object_header_date_date_string t m ht1 (lt_of_le_of_ne ht2 htn)
    (by omega) (by omega)
  refine ⟨h, fun env => ?_⟩
  unfold parse_date_basic
  have c : chr ('@' :: date_string t m) = '@' := rfl
  have d : ('@' :: date_string t m).drop 1 = date_string t m := rfl
  rw [if_pos c, d, h]

set_option maxRecDepth 100000 in
/-- C26 (witness): the statement at t = 1700000000 with the offset -480 (the text
"1700000000 -0800") and at t = -5 with the offset -1 (the text "-5 -0001"). -/
theorem date_string_header_round_trip_witness :
    (date_string 1700000000 (-480) = "1700000000 -0800".toList
      ∧ date_string (-5) (-1) = "-5 -0001".toList)
    ∧ (match_object_header_date (date_string 1700000000 (-480)) = some (1700000000, -480)
      ∧ ∀ env : Env, parse_date_basic env ('@' :: date_string 1700000000 (-480))
          = .success 1700000000 (-480))
    ∧ (match_object_header_date (date_string (-5) (-1)) = some (-5, -1)
      ∧ ∀ env : Env, parse_date_basic env ('@' :: date_string (-5) (-1))
          = .success (-5) (-1)) :=
  ⟨by decide,
   date_string_header_round_trip 1700000000 (-480) (by decide) (by decide) (by decide)
     (by norm_num),
   date_string_header_round_trip (-5) (-1) (by decide) (by decide) (by decide)
     (by norm_num)⟩

end DateC
